import Mathlib

/-!
# UrJTAG cable drivers (anlogic, dirtyjtag, bsdgpio): a shallow embedding

The definitions below follow the C sources

* `urjtag/src/tap/cable/anlogic.c`
* `urjtag/src/tap/cable/dirtyjtag.c`
* `urjtag/src/tap/cable/bsdgpio.c`

function by function.  Conventions of the embedding:

* a `uint8_t` is a `Nat` that is reduced `% 256` where the C code stores into it;
  an `int` used as a signal vector is the `Nat` of its bit pattern; an `int` used as
  a counter (`len`, `clock_pulses`, `buf_size`) is a `Nat`, which agrees with C wherever
  the signed arithmetic of the source does not overflow;
* a buffer is a `List Nat`; a pointer into a buffer is the buffer together with an offset,
  `p += k` on a pointer that is only read is `List.drop k`;
* the static variables of a driver and the trace of what it hands to libusb are the fields
  of a state record that every function takes and returns;
* the USB device is a function from the number of the request to its outcome, so that a
  statement over all such functions is a statement over all runs.
-/

namespace Urjtag

/-! ## Signal vector (`urj_pod_sigsel_t`) -/

/-- Bit positions of the `URJ_POD_CS_*` enumerators.  The enumeration lives in
`urjtag/pod.h`, which is not among the sources at hand; each named line is one bit of the
signal vector, and the position of each bit is a parameter of the development. -/
structure PodSig where
  tdi : Nat
  tck : Nat
  tms : Nat
  trst : Nat
  reset : Nat
deriving DecidableEq, Repr

namespace PodSig

def URJ_POD_CS_TDI (P : PodSig) : Nat := 1 <<< P.tdi
def URJ_POD_CS_TCK (P : PodSig) : Nat := 1 <<< P.tck
def URJ_POD_CS_TMS (P : PodSig) : Nat := 1 <<< P.tms
def URJ_POD_CS_TRST (P : PodSig) : Nat := 1 <<< P.trst
def URJ_POD_CS_RESET (P : PodSig) : Nat := 1 <<< P.reset

/-- The three JTAG output lines are three different bits. -/
def JtagDistinct (P : PodSig) : Prop :=
  P.tdi ≠ P.tck ∧ P.tdi ≠ P.tms ∧ P.tck ≠ P.tms

/-- All five lines are different bits. -/
def Distinct (P : PodSig) : Prop :=
  [P.tdi, P.tck, P.tms, P.trst, P.reset].Nodup

/-- All five lines lie in the low byte of the vector. -/
def FitsByte (P : PodSig) : Prop :=
  P.tdi < 8 ∧ P.tck < 8 ∧ P.tms < 8 ∧ P.trst < 8 ∧ P.reset < 8

instance (P : PodSig) : Decidable P.JtagDistinct := by
  unfold JtagDistinct; exact inferInstance

instance (P : PodSig) : Decidable P.Distinct := by
  unfold Distinct; exact inferInstance

instance (P : PodSig) : Decidable P.FitsByte := by
  unfold FitsByte; exact inferInstance

end PodSig

/-- The assignment of upstream UrJTAG: TDI = 1 << 0, TCK = 1 << 1, TMS = 1 << 2,
TRST = 1 << 3, RESET = 1 << 4. -/
def urjPod : PodSig := ⟨0, 1, 2, 3, 4⟩

/-- Modelled from the spec: the status code `URJ_STATUS_OK` is declared in
`urjtag/error.h`, which is not among the sources; the spec's transfer contract
"Returns 0 on full completion" fixes it to 0. -/
def URJ_STATUS_OK : Int := 0

/-- The complement `~x` of an `int` operand, as a 32-bit pattern. -/
def cnot (x : Nat) : Nat := 0xFFFFFFFF ^^^ x

/-! ## USB transport -/

/-- Outcome of one write-then-read exchange on the bulk endpoints: the return value of
the bulk write, the return value of the bulk read, and the bytes the read delivered. -/
structure UsbReply where
  wres : Int
  rres : Int
  data : List Nat

/-- A device: the outcome of the `k`-th exchange. -/
abbrev UsbDev := Nat → UsbReply

/-! ## anlogic.c -/

def ANLOGIC_JTAG_TCK : Nat := 1 <<< 2
def ANLOGIC_JTAG_TDI : Nat := 1 <<< 1
def ANLOGIC_JTAG_TMS : Nat := 1 <<< 0
def ANLOGIC_JTAG_OUT_MASK : Nat := 0x7
def ANLOGIC_JTAG_MAX_XFER_SIZE : Nat := 1024

/-- The statics `last_status`, `last_tdo` of anlogic.c and the raw buffers submitted to the
write endpoint so far, oldest first. -/
structure AnlogicCable where
  last_status : Nat
  last_tdo : Nat
  sent : List (List Nat)

/-- Body of the packing loop of `anlogic_usb_xfer` (lines 304-310) for index `i`. -/
def anlogic_pack_step (out_data : List Nat) (length : Nat) (raw : List Nat) (i : Nat) :
    List Nat :=
  let data_index := if i ≥ length then length - 1 else i
  if i % 2 ≠ 0 then
    raw.set (i / 2)
      ((raw.getD (i / 2) 0 |||
        ((out_data.getD data_index 0 &&& ANLOGIC_JTAG_OUT_MASK) <<< 4)) % 256)
  else
    raw.set (i / 2) (out_data.getD data_index 0 &&& ANLOGIC_JTAG_OUT_MASK)

/-- The packing loop of `anlogic_usb_xfer`: `out_raw_buffer` after the loop.  Every byte is
assigned (even `i`) before it is or-ed (odd `i`), so the content `malloc` left in the
buffer is never read; the buffer starts as zeros here. -/
def anlogic_pack (out_data : List Nat) (length : Nat) : List Nat :=
  (List.range ANLOGIC_JTAG_MAX_XFER_SIZE).foldl (anlogic_pack_step out_data length)
    (List.replicate (ANLOGIC_JTAG_MAX_XFER_SIZE / 2) 0)

/-- Body of the unpacking loop of `anlogic_usb_xfer` (lines 331-336): `in_data[i]` is the
cell `off + i` of the block `mem` that `in_data` points into. -/
def anlogic_unpack_step (in_raw : List Nat) (off : Nat) (mem : List Nat) (i : Nat) :
    List Nat :=
  if i % 2 ≠ 0 then
    mem.set (off + i) ((in_raw.getD (i / 2) 0 >>> 4) &&& 1)
  else
    mem.set (off + i) (in_raw.getD (i / 2) 0 &&& 1)

/-- What `anlogic_usb_xfer` leaves behind: its return value, the block `in_data` points
into, and the driver state. -/
structure AnlogicXfer where
  result : Int
  mem : List Nat
  cable : AnlogicCable

/-- Function `anlogic_usb_xfer`.  `in_data` is `none` for a NULL pointer and `some off` for the
pointer `mem + off`.  `in_raw_buffer` is the `raw_length` bytes of the reply: a byte that the
read did not deliver is read as 0 here, while the source reads what its `malloc` block held,
so the statements about `in_data` and `last_tdo` after a successful read are made for replies
of `raw_length` bytes. -/
def anlogic_usb_xfer (dev : UsbDev) (c : AnlogicCable) (out_data : List Nat)
    (mem : List Nat) (in_data : Option Nat) (length : Nat) : AnlogicXfer :=
  let raw_length := ANLOGIC_JTAG_MAX_XFER_SIZE / 2
  let out_raw_buffer := anlogic_pack out_data length
  let reply := dev c.sent.length
  let c1 : AnlogicCable :=
    { c with last_status := out_raw_buffer.getD (raw_length - 1) 0 >>> 4,
             sent := c.sent ++ [out_raw_buffer] }
  if reply.wres ≠ 0 then
    ⟨reply.wres, mem, c1⟩
  else if reply.rres ≠ 0 then
    ⟨reply.rres, mem, c1⟩
  else
    let in_raw_buffer := reply.data
    let mem1 :=
      match in_data with
      | some off =>
          (List.range length).foldl (anlogic_unpack_step in_raw_buffer off) mem
      | none => mem
    ⟨reply.rres, mem1,
      { c1 with last_tdo := (in_raw_buffer.getD (raw_length - 1) 0 >>> 4) &&& 1 }⟩

/-- Function `anlogic_get_tdo`. -/
def anlogic_get_tdo (c : AnlogicCable) : Nat := c.last_tdo

/-- Function `anlogic_set_signal`: the value returned and the state after the call. -/
def anlogic_set_signal (P : PodSig) (dev : UsbDev) (c : AnlogicCable) (mask val : Nat) :
    Nat × AnlogicCable :=
  let status := c.last_status
  let status :=
    if mask &&& P.URJ_POD_CS_TCK ≠ 0 then
      if val &&& P.URJ_POD_CS_TCK ≠ 0 then (status ||| ANLOGIC_JTAG_TCK) % 256
      else (status &&& cnot ANLOGIC_JTAG_TCK) % 256
    else status
  let status :=
    if mask &&& P.URJ_POD_CS_TMS ≠ 0 then
      if val &&& P.URJ_POD_CS_TMS ≠ 0 then (status ||| ANLOGIC_JTAG_TMS) % 256
      else (status &&& cnot ANLOGIC_JTAG_TMS) % 256
    else status
  let status :=
    if mask &&& P.URJ_POD_CS_TDI ≠ 0 then
      if val &&& P.URJ_POD_CS_TDI ≠ 0 then (status ||| ANLOGIC_JTAG_TDI) % 256
      else (status &&& cnot ANLOGIC_JTAG_TDI) % 256
    else status
  let r := anlogic_usb_xfer dev c [status] [] none 1
  (val &&& mask, r.cable)

/-- Function `anlogic_get_signal`. -/
def anlogic_get_signal (P : PodSig) (c : AnlogicCable) (sig : Nat) : Nat :=
  let signals := 0
  let signals :=
    if sig &&& P.URJ_POD_CS_TCK ≠ 0 ∧ c.last_status &&& ANLOGIC_JTAG_TCK ≠ 0 then
      signals ||| P.URJ_POD_CS_TCK
    else signals
  let signals :=
    if sig &&& P.URJ_POD_CS_TMS ≠ 0 ∧ c.last_status &&& ANLOGIC_JTAG_TMS ≠ 0 then
      signals ||| P.URJ_POD_CS_TMS
    else signals
  let signals :=
    if sig &&& P.URJ_POD_CS_TDI ≠ 0 ∧ c.last_status &&& ANLOGIC_JTAG_TDI ≠ 0 then
      signals ||| P.URJ_POD_CS_TDI
    else signals
  signals

/-- The buffer `buf` that `anlogic_clock` fills (lines 163-173): one cell per half cycle. -/
def anlogic_clock_buf (tms tdi : Int) (clock_pulses : Nat) : List Nat :=
  let buf_size := clock_pulses * 2 + 1
  (List.range buf_size).map fun i =>
    let b := 0
    let b := if tms ≠ 0 then b ||| ANLOGIC_JTAG_TMS else b
    let b := if tdi ≠ 0 then b ||| ANLOGIC_JTAG_TDI else b
    let b := if i % 2 ≠ 0 then b ||| ANLOGIC_JTAG_TCK else b
    b

/-- The `while (curr_buf_size > 0)` loop of `anlogic_clock` (lines 177-187); the return
value of `anlogic_usb_xfer` is dropped, as in the source. -/
def anlogic_clock_loop (dev : UsbDev) (curr_buf : List Nat) (curr_buf_size : Nat)
    (c : AnlogicCable) : AnlogicCable :=
  if curr_buf_size > 0 then
    let xfer_size :=
      if curr_buf_size > ANLOGIC_JTAG_MAX_XFER_SIZE then ANLOGIC_JTAG_MAX_XFER_SIZE
      else curr_buf_size
    let r := anlogic_usb_xfer dev c curr_buf [] none xfer_size
    anlogic_clock_loop dev (curr_buf.drop xfer_size) (curr_buf_size - xfer_size) r.cable
  else c
termination_by curr_buf_size
decreasing_by
  simp only [ANLOGIC_JTAG_MAX_XFER_SIZE]
  split <;> omega

/-- Function `anlogic_clock`. -/
def anlogic_clock (dev : UsbDev) (c : AnlogicCable) (tms tdi : Int) (clock_pulses : Nat) :
    AnlogicCable :=
  let buf_size := clock_pulses * 2 + 1
  let buf := anlogic_clock_buf tms tdi clock_pulses
  anlogic_clock_loop dev buf buf_size c

/-- The buffer `buf` that `anlogic_transfer` fills (lines 248-260): three cells per bit,
then the last cell once more. -/
def anlogic_transfer_buf (len : Nat) (inp : List Nat) : List Nat :=
  let buf_size := len * 3
  let buf := (List.range buf_size).map fun i =>
    let b := 0
    let b := if inp.getD (i / 3) 0 ≠ 0 then b ||| ANLOGIC_JTAG_TDI else b
    let b := if i % 3 = 1 then b ||| ANLOGIC_JTAG_TCK else b
    b
  buf.set (buf_size - 1) (if inp.getD (len - 1) 0 ≠ 0 then ANLOGIC_JTAG_TDI else 0)

/-- The `while (curr_buf_size > 0)` loop of `anlogic_transfer` (lines 265-281).  A non-zero
`result` is the early `return result`; `result = 0` is the normal exit of the loop.
`curr_res_buf` is the offset of the pointer into `res_buf`. -/
def anlogic_transfer_loop (dev : UsbDev) (curr_buf res_buf : List Nat)
    (curr_res_buf curr_buf_size : Nat) (c : AnlogicCable) : AnlogicXfer :=
  if curr_buf_size > 0 then
    let xfer_size :=
      if curr_buf_size > ANLOGIC_JTAG_MAX_XFER_SIZE then ANLOGIC_JTAG_MAX_XFER_SIZE
      else curr_buf_size
    let r := anlogic_usb_xfer dev c curr_buf res_buf (some curr_res_buf) xfer_size
    if r.result ≠ 0 then r
    else
      anlogic_transfer_loop dev (curr_buf.drop xfer_size) r.mem (curr_res_buf + xfer_size)
        (curr_buf_size - xfer_size) r.cable
  else ⟨0, res_buf, c⟩
termination_by curr_buf_size
decreasing_by
  simp only [ANLOGIC_JTAG_MAX_XFER_SIZE]
  split <;> omega

/-- What a `transfer` leaves behind: its return value, the caller's `out` buffer
(`none` for NULL) and the driver state. -/
structure AnlogicTransfer where
  result : Int
  out : Option (List Nat)
  cable : AnlogicCable

/-- Function `anlogic_transfer`.  `res_buf` comes from `malloc`; the cells read at the end have all
been written by the transfers, the block starts as zeros here. -/
def anlogic_transfer (dev : UsbDev) (c : AnlogicCable) (len : Nat) (inp : List Nat)
    (out : Option (List Nat)) : AnlogicTransfer :=
  let buf_size := len * 3
  let buf := anlogic_transfer_buf len inp
  let res_buf := List.replicate buf_size 0
  let r := anlogic_transfer_loop dev buf res_buf 0 buf_size c
  if r.result ≠ 0 then
    ⟨r.result, out, r.cable⟩
  else
    let out1 :=
      match out with
      | some o => some ((List.range len).foldl (fun o i => o.set i (r.mem.getD (i * 3) 0)) o)
      | none => none
    ⟨URJ_STATUS_OK, out1, r.cable⟩

/-! ## dirtyjtag.c -/

def CMD_STOP : Nat := 0x00
def CMD_INFO : Nat := 0x01
def CMD_FREQ : Nat := 0x02
def CMD_XFER : Nat := 0x03
def CMD_SETSIG : Nat := 0x04
def CMD_GETSIG : Nat := 0x05
def CMD_CLK : Nat := 0x06

def SIG_TCK : Nat := 1 <<< 1
def SIG_TDI : Nat := 1 <<< 2
def SIG_TDO : Nat := 1 <<< 3
def SIG_TMS : Nat := 1 <<< 4
def SIG_TRST : Nat := 1 <<< 5
def SIG_SRST : Nat := 1 <<< 6

/-- A DirtyJTAG device: return value of the `k`-th bulk write, return value of the `k`-th
bulk read and the bytes that read delivers. -/
structure DirtyDev where
  send_result : Nat → Int
  read_result : Nat → Int
  read_data : Nat → List Nat

/-- The static `current_signals` of dirtyjtag.c, the buffers handed to the write endpoint
so far (oldest first) and the number of bulk reads issued so far. -/
structure DirtyCable where
  current_signals : Nat
  sent : List (List Nat)
  reads : Nat

/-- The `min` of dirtyjtag.c (lines 113-119). -/
def dirtyjtag_min (a b : Nat) : Nat := if a < b then a else b

/-- Function `dirtyjtag_send`: copies `length` bytes, appends 0x00 and submits the buffer. -/
def dirtyjtag_send (dev : DirtyDev) (c : DirtyCable) (data : List Nat) (length : Nat) :
    Int × DirtyCable :=
  let commands_buffer := data.take length ++ [0x00]
  (dev.send_result c.sent.length, { c with sent := c.sent ++ [commands_buffer] })

/-- Function `dirtyjtag_read`: the return value, the bytes read, the state.  The caller reads
a byte that the read did not deliver as 0, while the source reads what its buffer held
before, so the statements about unpacked bits are made for reads that deliver the bytes
that are unpacked. -/
def dirtyjtag_read (dev : DirtyDev) (c : DirtyCable) (length : Nat) :
    Int × List Nat × DirtyCable :=
  (dev.read_result c.reads, (dev.read_data c.reads).take length,
    { c with reads := c.reads + 1 })

/-- The `for` loop of `dirtyjtag_clock` (lines 173-179): the bytes written for packets
`i, i+1, ...`, with `clock_pulses` as it stands when packet `i` is reached. -/
def dirtyjtag_clock_fill (signals : Nat) : Nat → Nat → List Nat
  | 0, _ => []
  | k + 1, clock_pulses =>
      [CMD_CLK, signals, dirtyjtag_min 255 clock_pulses % 256] ++
        dirtyjtag_clock_fill signals k (clock_pulses - dirtyjtag_min 255 clock_pulses)

/-- The `command_buffer` that `dirtyjtag_clock` builds; `clock_packets` is a `uint8_t`. -/
def dirtyjtag_clock_buffer (tms tdi : Int) (clock_pulses : Nat) : List Nat :=
  let signals := 0
  let clock_packets := ((clock_pulses + 254) / 255) % 256
  let signals := (signals ||| (if tms ≠ 0 then SIG_TMS else 0)) % 256
  let signals := (signals ||| (if tdi ≠ 0 then SIG_TDI else 0)) % 256
  dirtyjtag_clock_fill signals clock_packets clock_pulses

/-- Function `dirtyjtag_clock`. -/
def dirtyjtag_clock (dev : DirtyDev) (c : DirtyCable) (tms tdi : Int) (clock_pulses : Nat) :
    DirtyCable :=
  let clock_packets := ((clock_pulses + 254) / 255) % 256
  let command_buffer := dirtyjtag_clock_buffer tms tdi clock_pulses
  (dirtyjtag_send dev c command_buffer (3 * clock_packets)).2

/-- Function `dirtyjtag_set_signal`: the value returned and the state after the call. -/
def dirtyjtag_set_signal (P : PodSig) (dev : DirtyDev) (c : DirtyCable) (mask val : Nat) :
    Nat × DirtyCable :=
  let signal_value := 0
  let signal_mask := 0
  let mask := mask &&& (P.URJ_POD_CS_TMS ||| P.URJ_POD_CS_TCK ||| P.URJ_POD_CS_TDI |||
    P.URJ_POD_CS_TRST ||| P.URJ_POD_CS_RESET)
  let val := val &&& mask
  let signal_mask := (signal_mask ||| (if mask &&& P.URJ_POD_CS_TCK ≠ 0 then SIG_TCK else 0)) % 256
  let signal_mask := (signal_mask ||| (if mask &&& P.URJ_POD_CS_TDI ≠ 0 then SIG_TDI else 0)) % 256
  let signal_mask := (signal_mask ||| (if mask &&& P.URJ_POD_CS_TMS ≠ 0 then SIG_TMS else 0)) % 256
  let signal_mask := (signal_mask ||| (if mask &&& P.URJ_POD_CS_TRST ≠ 0 then SIG_TRST else 0)) % 256
  let signal_mask := (signal_mask ||| (if mask &&& P.URJ_POD_CS_RESET ≠ 0 then SIG_SRST else 0)) % 256
  let signal_value := (signal_value ||| (if val &&& P.URJ_POD_CS_TCK ≠ 0 then SIG_TCK else 0)) % 256
  let signal_value := (signal_value ||| (if val &&& P.URJ_POD_CS_TDI ≠ 0 then SIG_TDI else 0)) % 256
  let signal_value := (signal_value ||| (if val &&& P.URJ_POD_CS_TMS ≠ 0 then SIG_TMS else 0)) % 256
  let signal_value := (signal_value ||| (if val &&& P.URJ_POD_CS_TRST ≠ 0 then SIG_TRST else 0)) % 256
  let signal_value := (signal_value ||| (if val &&& P.URJ_POD_CS_RESET ≠ 0 then SIG_SRST else 0)) % 256
  let commands := [CMD_SETSIG, signal_mask, signal_value]
  let c1 := (dirtyjtag_send dev c commands 3).2
  let current_signals := (c1.current_signals &&& cnot mask) % 256
  let current_signals := (current_signals ||| val) % 256
  (val, { c1 with current_signals := current_signals })

/-- Function `dirtyjtag_get_signal`. -/
def dirtyjtag_get_signal (c : DirtyCable) (sig : Nat) : Nat :=
  sig &&& c.current_signals

/-- The packing loop of `dirtyjtag_transfer` (lines 257-259) applied to `packet`. -/
def dirtyjtag_pack (inp : List Nat) (sent_bits bits_in_packet : Nat) (packet : List Nat) :
    List Nat :=
  (List.range bits_in_packet).foldl
    (fun packet i =>
      packet.set (2 + i / 8)
        ((packet.getD (2 + i / 8) 0 |||
          (if inp.getD (sent_bits + i) 0 ≠ 0 then 0x80 >>> (i % 8) else 0)) % 256))
    packet

/-- The unpacking loop of `dirtyjtag_transfer` (lines 273-275) applied to `out`. -/
def dirtyjtag_unpack (response : List Nat) (sent_bits bits_in_packet : Nat)
    (out : List Nat) : List Nat :=
  (List.range bits_in_packet).foldl
    (fun out i =>
      out.set (sent_bits + i)
        (if response.getD (i / 8) 0 &&& (0x80 >>> (i % 8)) ≠ 0 then 1 else 0))
    out

/-- State of the `for` loop of `dirtyjtag_transfer` when it is left: `early` is the
`return 0` of line 268. -/
structure DirtyLoop where
  early : Bool
  len : Nat
  sent_bits : Nat
  out : Option (List Nat)
  cable : DirtyCable

/-- The `for (packet_id ...)` loop of `dirtyjtag_transfer` (lines 248-280), by the number
of iterations still to run (`num_packets - packet_id`).  `out.map` is the `if (out)` of
line 272: a NULL `out` stays NULL, a buffer is unpacked into. -/
def dirtyjtag_transfer_loop (dev : DirtyDev) (inp : List Nat) :
    Nat → Nat → Nat → Option (List Nat) → DirtyCable → DirtyLoop
  | 0, len, sent_bits, out, c => ⟨false, len, sent_bits, out, c⟩
  | k + 1, len, sent_bits, out, c =>
      let packet := List.replicate 32 0
      let bits_in_packet := dirtyjtag_min 240 len % 256
      let packet := packet.set 0 CMD_XFER
      let packet := packet.set 1 bits_in_packet
      let packet := dirtyjtag_pack inp sent_bits bits_in_packet packet
      let c1 := (dirtyjtag_send dev c packet 32).2
      let rd := dirtyjtag_read dev c1 32
      let ret := rd.1
      let response := rd.2.1
      let c2 := rd.2.2
      if ret ≠ 0 then
        ⟨true, len, sent_bits, out, c2⟩
      else
        let out1 := out.map (dirtyjtag_unpack response sent_bits bits_in_packet)
        dirtyjtag_transfer_loop dev inp k (len - bits_in_packet)
          (sent_bits + bits_in_packet) out1 c2

/-- What `dirtyjtag_transfer` leaves behind. -/
structure DirtyTransfer where
  result : Int
  out : Option (List Nat)
  cable : DirtyCable

/-- Function `dirtyjtag_transfer`. -/
def dirtyjtag_transfer (P : PodSig) (dev : DirtyDev) (c : DirtyCable) (len : Nat)
    (inp : List Nat) (out : Option (List Nat)) : DirtyTransfer :=
  let sent_bits := 0
  let num_bytes := (len + 7) / 8
  let num_packets := (num_bytes + 29) / 30
  let l := dirtyjtag_transfer_loop dev inp num_packets len sent_bits out c
  if l.early then
    ⟨0, l.out, l.cable⟩
  else
    let current_signals :=
      (l.cable.current_signals &&&
        cnot (P.URJ_POD_CS_TDI ||| P.URJ_POD_CS_TCK ||| P.URJ_POD_CS_TMS)) % 256
    ⟨(l.len : Int), l.out, { l.cable with current_signals := current_signals }⟩

/-! ## bsdgpio.c -/

def GPIO_TDI : Nat := 0
def GPIO_TCK : Nat := 1
def GPIO_TMS : Nat := 2
def GPIO_TDO : Nat := 3
def GPIO_REQUIRED : Nat := 4

/-- The `bsdgpio_params_t` of a cable (pin numbers, `signals`, `lastout`) and the
`gpio_pin_set` calls issued so far as (pin, value) pairs, oldest first. -/
structure BsdGpio where
  jtag_bsdgpios : List Nat
  signals : Nat
  lastout : Nat
  pin_sets : List (Nat × Nat)

/-- The call `gpio_pin_set (fd, pin, value)`, recorded in the trace. -/
def gpio_pin_set (p : BsdGpio) (pin value : Nat) : BsdGpio :=
  { p with pin_sets := p.pin_sets ++ [(pin, value)] }

/-- Function `bsdgpio_init`, given whether `bsdgpio_open` succeeded: the status is `true` for
URJ_STATUS_OK. -/
def bsdgpio_init (P : PodSig) (p : BsdGpio) (open_ok : Bool) : Bool × BsdGpio :=
  if ¬ open_ok then (false, p)
  else (true, { p with signals := P.URJ_POD_CS_TRST })

/-- Function `bsdgpio_current_signals`. -/
def bsdgpio_current_signals (P : PodSig) (p : BsdGpio) : Nat :=
  let sigs := p.signals &&& cnot (P.URJ_POD_CS_TMS ||| P.URJ_POD_CS_TDI ||| P.URJ_POD_CS_TCK)
  let sigs := if p.lastout &&& P.URJ_POD_CS_TCK ≠ 0 then sigs ||| P.URJ_POD_CS_TCK else sigs
  let sigs := if p.lastout &&& P.URJ_POD_CS_TDI ≠ 0 then sigs ||| P.URJ_POD_CS_TDI else sigs
  let sigs := if p.lastout &&& P.URJ_POD_CS_TMS ≠ 0 then sigs ||| P.URJ_POD_CS_TMS else sigs
  sigs

/-- Function `bsdgpio_set_signal`: the value returned and the state after the call. -/
def bsdgpio_set_signal (P : PodSig) (p : BsdGpio) (mask val : Nat) : Nat × BsdGpio :=
  let prev_sigs := bsdgpio_current_signals P p
  let mask := mask &&& (P.URJ_POD_CS_TDI ||| P.URJ_POD_CS_TCK ||| P.URJ_POD_CS_TMS)
  let p1 :=
    if mask ≠ 0 then
      let p := if mask &&& P.URJ_POD_CS_TMS ≠ 0 then
        gpio_pin_set p (p.jtag_bsdgpios.getD GPIO_TMS 0) (val &&& P.URJ_POD_CS_TMS) else p
      let p := if mask &&& P.URJ_POD_CS_TDI ≠ 0 then
        gpio_pin_set p (p.jtag_bsdgpios.getD GPIO_TDI 0) (val &&& P.URJ_POD_CS_TDI) else p
      let p := if mask &&& P.URJ_POD_CS_TCK ≠ 0 then
        gpio_pin_set p (p.jtag_bsdgpios.getD GPIO_TCK 0) (val &&& P.URJ_POD_CS_TCK) else p
      p
    else p
  (prev_sigs, { p1 with lastout := (val &&& mask) % 4294967296 })

/-- Function `bsdgpio_get_signal`. -/
def bsdgpio_get_signal (P : PodSig) (p : BsdGpio) (sig : Nat) : Nat :=
  if bsdgpio_current_signals P p &&& sig ≠ 0 then 1 else 0

/-! ## Observations on the traces -/

/-- The two 4-bit cells of each raw byte, low nibble first: the order in which
`anlogic_usb_xfer` fills them. -/
def anlogic_nibbles (raw : List Nat) : List Nat :=
  raw.flatMap fun b => [b &&& 0xF, b >>> 4]

/-- The cell that `anlogic_usb_xfer` packs at position `i` of a raw buffer: the masked
`out_data[data_index]` of lines 305-309. -/
def anlogic_cell (out_data : List Nat) (length i : Nat) : Nat :=
  out_data.getD (if i ≥ length then length - 1 else i) 0 &&& ANLOGIC_JTAG_OUT_MASK

/-- The raw byte `j` that `anlogic_usb_xfer` builds from the cells `2j` and `2j+1`. -/
def anlogic_byte (d : List Nat) (l j : Nat) : Nat :=
  (anlogic_cell d l (2 * j) ||| anlogic_cell d l (2 * j + 1) <<< 4) % 256

/-- Number of 1024-cell chunks into which a buffer of `size` cells is cut. -/
def anlogic_chunks (size : Nat) : Nat :=
  (size + (ANLOGIC_JTAG_MAX_XFER_SIZE - 1)) / ANLOGIC_JTAG_MAX_XFER_SIZE

/-- The 4-bit cells of the raw buffers that a call appended to the trace, in the order of
transmission. -/
def anlogic_written (before after : AnlogicCable) : List Nat :=
  (after.sent.drop before.sent.length).flatMap anlogic_nibbles

/-- The positions `g + 1` of a cell stream at which TCK rises: cell `g` has TCK low and
cell `g + 1` has TCK high. -/
def tck_rising_positions (s : List Nat) : List Nat :=
  ((List.range (s.length - 1)).filter fun g =>
    decide (s.getD g 0 &&& ANLOGIC_JTAG_TCK = 0) &&
      decide (s.getD (g + 1) 0 &&& ANLOGIC_JTAG_TCK ≠ 0)).map (· + 1)

/-- Number of low-to-high TCK transitions of a cell stream. -/
def tck_rising_edges (s : List Nat) : Nat := (tck_rising_positions s).length

/-- The packets a call of the dirtyjtag driver appended to the trace. -/
def dirty_written (before after : DirtyCable) : List (List Nat) :=
  after.sent.drop before.sent.length

/-- Sum of the pulse-count bytes of a buffer of 3-byte clock commands. -/
def clk_pulse_sum : List Nat → Nat
  | _ :: _ :: n :: rest => n + clk_pulse_sum rest
  | _ => 0

/-! ## Concrete devices and states -/

/-- A DirtyJTAG device on which every bulk transfer succeeds and every read delivers
32 zero bytes. -/
def dirty_all_ok : DirtyDev := ⟨fun _ => 0, fun _ => 0, fun _ => List.replicate 32 0⟩

/-- A DirtyJTAG device on which every bulk write succeeds and every bulk read times out
(LIBUSB_ERROR_TIMEOUT is -7). -/
def dirty_read_fails : DirtyDev := ⟨fun _ => 0, fun _ => -7, fun _ => []⟩

/-- The dirtyjtag driver before its first request: `current_signals` is initialised to 0. -/
def dirty_idle : DirtyCable := ⟨0, [], 0⟩

/-- An Anlogic device on which every bulk transfer succeeds and every read delivers 512 zero
bytes. -/
def anlogic_all_ok : UsbDev := fun _ => ⟨0, 0, List.replicate 512 0⟩

/-- A device whose exchanges succeed with replies of 512 bytes, the last of them 0x10: bit 0
of the high nibble of byte 511 is 1. -/
def anlogic_tdo_high : UsbDev := fun _ => ⟨0, 0, List.replicate 511 0 ++ [0x10]⟩

/-- An Anlogic device on which every bulk write succeeds and every bulk read times out. -/
def anlogic_read_fails : UsbDev := fun _ => ⟨0, -7, []⟩

/-- The anlogic driver before its first request. -/
def anlogic_idle : AnlogicCable := ⟨0, 0, []⟩

/-- A bsdgpio cable as `bsdgpio_connect` leaves it for `tdi=17 tck=27 tms=22 tdo=23`:
`calloc` zeroes `signals` and `lastout`. -/
def bsdgpio_fresh : BsdGpio := ⟨[17, 27, 22, 23], 0, 0, []⟩

/-- The 32-byte packet that one iteration of `dirtyjtag_transfer` builds (lines 249-259)
for `bits_in_packet` bits starting at `sent_bits`. -/
def dirtyjtag_packet (inp : List Nat) (sent_bits bits_in_packet : Nat) : List Nat :=
  dirtyjtag_pack inp sent_bits bits_in_packet
    (((List.replicate 32 0).set 0 CMD_XFER).set 1 bits_in_packet)

/-- The value `anlogic_usb_xfer` returns when the device outcome is `r` (lines 314-345):
the code of the bulk write if it failed, the code of the bulk read otherwise. -/
def anlogic_xfer_code (r : UsbReply) : Int := if r.wres ≠ 0 then r.wres else r.rres

/-- A DirtyJTAG device that answers every packet with the payload of the 3-bit packet
`101` (first payload byte 0xA0). -/
def dirty_echo_101 : DirtyDev :=
  ⟨fun _ => 0, fun _ => 0, fun _ => 0xA0 :: List.replicate 31 0⟩

/-- The three lines TCK, TMS, TDI as one mask. -/
def PodSig.jtag_lines (P : PodSig) : Nat :=
  P.URJ_POD_CS_TCK ||| P.URJ_POD_CS_TMS ||| P.URJ_POD_CS_TDI

/-- The five lines TMS, TCK, TDI, TRST, RESET as one mask, in the order of
`dirtyjtag_set_signal`. -/
def PodSig.all_lines (P : PodSig) : Nat :=
  P.URJ_POD_CS_TMS ||| P.URJ_POD_CS_TCK ||| P.URJ_POD_CS_TDI ||| P.URJ_POD_CS_TRST |||
    P.URJ_POD_CS_RESET

/-- The cell stream that a call of `anlogic_clock` writes. -/
def anlogic_clock_stream (dev : UsbDev) (c : AnlogicCable) (tms tdi : Int) (n : Nat) :
    List Nat :=
  anlogic_written c (anlogic_clock dev c tms tdi n)

/-- The cell stream that a call of `anlogic_transfer` writes. -/
def anlogic_transfer_stream (dev : UsbDev) (c : AnlogicCable) (len : Nat) (inp : List Nat)
    (out : Option (List Nat)) : List Nat :=
  anlogic_written c (anlogic_transfer dev c len inp out).cable

/-- The packets that a call of `dirtyjtag_transfer` sends. -/
def dirtyjtag_transfer_packets (P : PodSig) (dev : DirtyDev) (c : DirtyCable) (len : Nat)
    (inp : List Nat) (out : Option (List Nat)) : List (List Nat) :=
  dirty_written c (dirtyjtag_transfer P dev c len inp out).cable

/-- The bsdgpio cable after `bsdgpio_init` and `bsdgpio_set_signal (TCK, TCK)`. -/
def bsdgpio_tck_high : BsdGpio :=
  (bsdgpio_set_signal urjPod (bsdgpio_init urjPod bsdgpio_fresh true).2
    urjPod.URJ_POD_CS_TCK urjPod.URJ_POD_CS_TCK).2

/-! ## anlogic.c, continued: modes, speeds and the mode endpoint -/

def ANLOGIC_JTAG_JTAG_MODE : Nat := 1
def ANLOGIC_JTAG_TEST_MODE : Nat := 2

def ANLOGIC_JTAG_SPEED_6M : Nat := 0
def ANLOGIC_JTAG_SPEED_3M : Nat := 0x4
def ANLOGIC_JTAG_SPEED_2M : Nat := 0x8
def ANLOGIC_JTAG_SPEED_1M : Nat := 0x14
def ANLOGIC_JTAG_SPEED_600K : Nat := 0x24
def ANLOGIC_JTAG_SPEED_400K : Nat := 0x38
def ANLOGIC_JTAG_SPEED_200K : Nat := 0x70
def ANLOGIC_JTAG_SPEED_100K : Nat := 0xe8
def ANLOGIC_JTAG_SPEED_90K : Nat := 0xff

/-- Function `anlogic_set_frequency`: the two bytes `command` that it submits to the mode
endpoint.  The function returns nothing and drops the result of the bulk transfer, so the
command is all there is to it. -/
def anlogic_set_frequency (frequency : Nat) : List Nat :=
  let command0 := ANLOGIC_JTAG_JTAG_MODE
  let command1 :=
    if frequency ≥ 6000000 then ANLOGIC_JTAG_SPEED_6M
    else if frequency ≥ 3000000 then ANLOGIC_JTAG_SPEED_3M
    else if frequency ≥ 2000000 then ANLOGIC_JTAG_SPEED_2M
    else if frequency ≥ 1000000 then ANLOGIC_JTAG_SPEED_1M
    else if frequency ≥ 600000 then ANLOGIC_JTAG_SPEED_600K
    else if frequency ≥ 400000 then ANLOGIC_JTAG_SPEED_400K
    else if frequency ≥ 200000 then ANLOGIC_JTAG_SPEED_200K
    else if frequency ≥ 100000 then ANLOGIC_JTAG_SPEED_100K
    else ANLOGIC_JTAG_SPEED_90K
  [command0, command1]

/-- The nominal rate in Hz that the name of each `ANLOGIC_JTAG_SPEED_*` code states
(0 for a byte that is no speed code). -/
def anlogic_speed_rate (code : Nat) : Nat :=
  if code = ANLOGIC_JTAG_SPEED_6M then 6000000
  else if code = ANLOGIC_JTAG_SPEED_3M then 3000000
  else if code = ANLOGIC_JTAG_SPEED_2M then 2000000
  else if code = ANLOGIC_JTAG_SPEED_1M then 1000000
  else if code = ANLOGIC_JTAG_SPEED_600K then 600000
  else if code = ANLOGIC_JTAG_SPEED_400K then 400000
  else if code = ANLOGIC_JTAG_SPEED_200K then 200000
  else if code = ANLOGIC_JTAG_SPEED_100K then 100000
  else if code = ANLOGIC_JTAG_SPEED_90K then 90000
  else 0

/-- The rates the adapter supports, slowest first. -/
def anlogic_rates : List Nat :=
  [90000, 100000, 200000, 400000, 600000, 1000000, 2000000, 3000000, 6000000]

/-! ## Observations for the transfers -/

/-- The response nibble of global sub-step `g` of a call whose first exchange is number
`first`: nibble `g mod 1024` of the reply to chunk `g div 1024`, the low nibble of byte
`j / 2` for even `j` and the high nibble for odd `j`. -/
def anlogic_reply_nibble (dev : UsbDev) (first g : Nat) : Nat :=
  if (g % ANLOGIC_JTAG_MAX_XFER_SIZE) % 2 = 0 then
    (dev (first + g / ANLOGIC_JTAG_MAX_XFER_SIZE)).data.getD
      ((g % ANLOGIC_JTAG_MAX_XFER_SIZE) / 2) 0 &&& 0xF
  else
    ((dev (first + g / ANLOGIC_JTAG_MAX_XFER_SIZE)).data.getD
      ((g % ANLOGIC_JTAG_MAX_XFER_SIZE) / 2) 0 >>> 4) &&& 0xF

/-- The indices at which `anlogic_transfer` reads `in` while it fills `buf` (lines 252-260),
as C `int` values: `i / 3` for every `i < buf_size`, then `len - 1` of line 260. -/
def anlogic_transfer_in_indices (len : Nat) : List Int :=
  (List.range (len * 3)).map (fun (i : Nat) => ((i / 3 : Nat) : Int)) ++ [(len : Int) - 1]

/-- The indices at which `anlogic_transfer` writes `buf` (lines 252-260), as C `int`
values: every `i < buf_size`, then `buf_size - 1` of line 260. -/
def anlogic_transfer_buf_indices (len : Nat) : List Int :=
  (List.range (len * 3)).map (fun (i : Nat) => (i : Int)) ++ [((len * 3 : Nat) : Int) - 1]

/-- The bsdgpio cable after `bsdgpio_connect` and a successful `bsdgpio_init`:
`signals` is TRST, `lastout` is 0. -/
def bsdgpio_initialised : BsdGpio := (bsdgpio_init urjPod bsdgpio_fresh true).2

/-- The `out` cells that one unchunked transfer of `len` bits would produce from the
concatenated response stream of a call whose first exchange is number `first`: bit 0 of the
response nibble of sub-step `3 i` for each `i < len`. -/
def anlogic_unchunked_out (dev : UsbDev) (first len : Nat) : List Nat :=
  (List.range len).map fun i => anlogic_reply_nibble dev first (3 * i) &&& 1

/-! ## bsdgpio.c, continued: connect and clock -/

/-- Modelled from the spec: the status code `URJ_STATUS_FAIL` is declared in
`urjtag/error.h`, which is not among the sources; it is the one status that is not
`URJ_STATUS_OK`. -/
def URJ_STATUS_FAIL : Int := 1

/-- The keys of `urj_cable_param_key_t` (declared in `urjtag/params.h`, which is not among the
sources): the four keys that the `switch` of `bsdgpio_connect` names, and every other key by
its number. -/
inductive urj_cable_param_key_t where
  | URJ_CABLE_PARAM_KEY_TDI
  | URJ_CABLE_PARAM_KEY_TDO
  | URJ_CABLE_PARAM_KEY_TMS
  | URJ_CABLE_PARAM_KEY_TCK
  | other (k : Nat)
deriving DecidableEq

open urj_cable_param_key_t

/-- A `urj_param_t` as `bsdgpio_connect` reads it: the key and the member `value.lu`. -/
structure urj_param_t where
  key : urj_cable_param_key_t
  lu : Nat
deriving DecidableEq

deriving instance DecidableEq for BsdGpio

/-- Body of the `for` loop of `bsdgpio_connect` (lines 153-171) on the array `jtag_bsdgpios`:
the `unsigned long` value is stored into an `unsigned int`. -/
def bsdgpio_connect_param (jtag_bsdgpios : List Nat) (param : urj_param_t) : List Nat :=
  match param.key with
  | URJ_CABLE_PARAM_KEY_TDI => jtag_bsdgpios.set GPIO_TDI (param.lu % 4294967296)
  | URJ_CABLE_PARAM_KEY_TDO => jtag_bsdgpios.set GPIO_TDO (param.lu % 4294967296)
  | URJ_CABLE_PARAM_KEY_TMS => jtag_bsdgpios.set GPIO_TMS (param.lu % 4294967296)
  | URJ_CABLE_PARAM_KEY_TCK => jtag_bsdgpios.set GPIO_TCK (param.lu % 4294967296)
  | other _ => jtag_bsdgpios

/-- What `bsdgpio_connect` leaves behind: its return value and the fields `params`
(`none` when nothing was allocated), `chain` (`true` for NULL) and `delay` of the cable. -/
structure BsdgpioConnect where
  status : Int
  params : Option BsdGpio
  chain_null : Bool
  delay : Nat

/-- Function `bsdgpio_connect`.  `calloc_ok` tells whether `calloc` returned a block; the
parameter array is `none` for a NULL pointer, else its entries up to the terminating NULL.
`delay` is the value the cable had before the call. -/
def bsdgpio_connect (calloc_ok : Bool) (delay : Nat) (params : Option (List urj_param_t)) :
    BsdgpioConnect :=
  if ¬ calloc_ok then
    ⟨URJ_STATUS_FAIL, none, false, delay⟩
  else
    let jtag_bsdgpios := [0, 0, 0, 0]
    let jtag_bsdgpios := jtag_bsdgpios.set GPIO_TDI GPIO_REQUIRED
    let jtag_bsdgpios := jtag_bsdgpios.set GPIO_TDO GPIO_REQUIRED
    let jtag_bsdgpios := jtag_bsdgpios.set GPIO_TMS GPIO_REQUIRED
    let jtag_bsdgpios := jtag_bsdgpios.set GPIO_TCK GPIO_REQUIRED
    let jtag_bsdgpios :=
      match params with
      | some l => l.foldl bsdgpio_connect_param jtag_bsdgpios
      | none => jtag_bsdgpios
    ⟨URJ_STATUS_OK, some ⟨jtag_bsdgpios, 0, 0, []⟩, true, 10⟩

/-- Function `bsdgpio_clock`; the `for` loop runs `n` times for a positive `n` and not at
all otherwise. -/
def bsdgpio_clock (p : BsdGpio) (tms tdi n : Int) : BsdGpio :=
  let tms := if tms ≠ 0 then 1 else 0
  let tdi := if tdi ≠ 0 then 1 else 0
  let p := gpio_pin_set p (p.jtag_bsdgpios.getD GPIO_TMS 0) tms
  let p := gpio_pin_set p (p.jtag_bsdgpios.getD GPIO_TDI 0) tdi
  (List.range n.toNat).foldl
    (fun p _ =>
      let p := gpio_pin_set p (p.jtag_bsdgpios.getD GPIO_TCK 0) 0
      let p := gpio_pin_set p (p.jtag_bsdgpios.getD GPIO_TCK 0) 1
      let p := gpio_pin_set p (p.jtag_bsdgpios.getD GPIO_TCK 0) 0
      p)
    p

/-- The pin number that `bsdgpio_connect` stores for a key, read from the parameter list:
the value of the last entry with that key, or GPIO_REQUIRED if there is none. -/
def bsdgpio_last_value (key : urj_cable_param_key_t) (params : List urj_param_t) : Nat :=
  match (params.filter fun e => decide (e.key = key)).getLast? with
  | some e => e.lu
  | none => GPIO_REQUIRED

/-- The content of a pin after the parameter loop of `bsdgpio_connect`, read from the list:
the value of the last entry with that key as an `unsigned int`, or the content `d` before the
loop if there is none. -/
def bsdgpio_pin_after (key : urj_cable_param_key_t) (d : Nat) (params : List urj_param_t) :
    Nat :=
  match (params.filter fun e => decide (e.key = key)).getLast? with
  | some e => e.lu % 4294967296
  | none => d

/-- Whether a key is one of TDI, TDO, TMS, TCK. -/
def bsdgpio_pin_key (key : urj_cable_param_key_t) : Bool :=
  match key with
  | other _ => false
  | _ => true

/-- A parameter list that names three of the four pins: `tdi=17 tck=27 tms=22`. -/
def bsdgpio_params_no_tdo : List urj_param_t :=
  [⟨URJ_CABLE_PARAM_KEY_TDI, 17⟩, ⟨URJ_CABLE_PARAM_KEY_TCK, 27⟩, ⟨URJ_CABLE_PARAM_KEY_TMS, 22⟩]

/-- A parameter list whose TDI value does not fit an `unsigned int`:
`tdi=4294967301 tck=27 tms=22 tdo=23`. -/
def bsdgpio_params_wide : List urj_param_t :=
  [⟨URJ_CABLE_PARAM_KEY_TDI, 4294967301⟩, ⟨URJ_CABLE_PARAM_KEY_TCK, 27⟩,
   ⟨URJ_CABLE_PARAM_KEY_TMS, 22⟩, ⟨URJ_CABLE_PARAM_KEY_TDO, 23⟩]

/-- A parameter list with a repeated key and keys that are not pins. -/
def bsdgpio_params_mixed : List urj_param_t :=
  [⟨URJ_CABLE_PARAM_KEY_TDI, 17⟩, ⟨other 0, 99⟩, ⟨URJ_CABLE_PARAM_KEY_TCK, 27⟩,
   ⟨URJ_CABLE_PARAM_KEY_TMS, 22⟩, ⟨URJ_CABLE_PARAM_KEY_TDO, 23⟩, ⟨other 7, 5⟩,
   ⟨URJ_CABLE_PARAM_KEY_TDI, 18⟩]

/-! ## dirtyjtag.c, continued: the frequency command and the buffer indices -/

/-- Function `dirtyjtag_set_frequency`.  `frequency /= 1E3` is a division in `double`: the
32-bit value converts exactly, the quotient is rounded to a `double` by `fl`, and the
conversion back to `uint32_t` drops the fraction.  `fl` is the rounding of a rational to the
nearest `double`; the identity stands for it wherever the quotient is a `double`. -/
def dirtyjtag_set_frequency (fl : ℚ → ℚ) (dev : DirtyDev) (c : DirtyCable) (frequency : Nat) :
    DirtyCable :=
  let frequency := ⌊fl ((frequency : ℚ) / 1000)⌋.toNat % 4294967296
  let command := [CMD_FREQ, ((frequency >>> 8) % 256) &&& 0xFF, (frequency % 256) &&& 0xFF]
  (dirtyjtag_send dev c command 3).2

/-- One access to a buffer of `dirtyjtag_transfer`, with the index used. -/
inductive DirtyAccess where
  | packet (index : Nat)
  | inp (index : Nat)
  | response (index : Nat)
  | out (index : Nat)
deriving DecidableEq

/-- The buffer accesses of the `for (packet_id ...)` loop of `dirtyjtag_transfer`
(lines 248-280) in program order, by the number of iterations still to run: the packing loop
writes `packet[2 + i/8]` and reads `in[sent_bits + i]`; after a successful read, and if `out`
is not NULL, the unpacking loop reads `response[i/8]` and writes `out[sent_bits + i]`.
`reads` is the number of the bulk read of this iteration. -/
def dirtyjtag_transfer_accesses (dev : DirtyDev) (has_out : Bool) :
    Nat → Nat → Nat → Nat → List DirtyAccess
  | 0, _, _, _ => []
  | k + 1, len, sent_bits, reads =>
      let bits_in_packet := dirtyjtag_min 240 len % 256
      let packing := (List.range bits_in_packet).flatMap fun i =>
        [DirtyAccess.packet (2 + i / 8), DirtyAccess.inp (sent_bits + i)]
      if dev.read_result reads ≠ 0 then
        packing
      else
        let unpacking :=
          if has_out then
            (List.range bits_in_packet).flatMap fun i =>
              [DirtyAccess.response (i / 8), DirtyAccess.out (sent_bits + i)]
          else []
        packing ++ unpacking ++
          dirtyjtag_transfer_accesses dev has_out k (len - bits_in_packet)
            (sent_bits + bits_in_packet) (reads + 1)

/-- The bound that an access has to respect: `packet` and `response` have 32 bytes, of which
the packing loop may touch bytes 2 to 31 and the unpacking loop bytes 0 to 29; `in` and `out`
have `len` cells. -/
def DirtyAccess.in_bounds (len : Nat) : DirtyAccess → Prop
  | DirtyAccess.packet j => 2 ≤ j ∧ j ≤ 31
  | DirtyAccess.response j => j ≤ 29
  | DirtyAccess.inp j => j < len
  | DirtyAccess.out j => j < len

instance (len : Nat) (a : DirtyAccess) : Decidable (a.in_bounds len) := by
  cases a <;> unfold DirtyAccess.in_bounds <;> infer_instance

/-! ## bindings/python/register.c -/

def UPRC_CBL : Nat := 1

/-- A `urj_tap_register_t`, by its bits. -/
structure urj_tap_register_t where
  data : List Nat
deriving DecidableEq

/-- A `urj_data_register_t` as register.c reads it: the buffers `in` and `out`. -/
structure urj_data_register_t where
  inp : urj_tap_register_t
  out : urj_tap_register_t
deriving DecidableEq

/-- A `urj_part_t` as register.c touches it: the active instruction, by its name, `none` for
a NULL pointer. -/
structure urj_part_t where
  active_instruction : Option String
deriving DecidableEq

/-- A `urj_chain_t` as register.c touches it: `active_part` and the parts. -/
structure urj_chain_t where
  active_part : Int
  parts : List urj_part_t
deriving DecidableEq

/-- A `urj_pyregister_t` (py_urjtag.h lines 25-33): the data register (`none` for NULL), the
part index and the remembered instruction by its name (`none` for NULL).  The chain `urc` is
passed along with the object. -/
structure urj_pyregister_t where
  urreg : Option urj_data_register_t
  part : Int
  inst : Option String
deriving DecidableEq

/-- A call of a library function that register.c makes and that is not among the sources,
with its arguments. -/
inductive UrjCall where
  | urj_part_set_instruction (part : Nat) (instname : String)
  | urj_tap_chain_shift_data_registers (capture_output : Int)
  | urj_tap_chain_shift_instructions
  | urj_tap_register_get_string (r : urj_tap_register_t)
  | urj_tap_register_get_string_bit_range (r : urj_tap_register_t) (msb lsb : Int)
  | urj_tap_register_set_string (r : urj_tap_register_t) (newstr : String)
  | urj_tap_register_set_value (r : urj_tap_register_t) (newval : Nat)
  | urj_tap_register_set_string_bit_range (r : urj_tap_register_t) (newstr : String)
      (msb lsb : Int)
  | urj_tap_register_set_value_bit_range (r : urj_tap_register_t) (newval : Nat)
      (msb lsb : Int)
deriving DecidableEq

/-- The library functions that register.c calls and that are not among the sources, by what
they return: `urj_tap_chain_active_part` gives the index of the part it points to, the
accessors of a tap register give the string (`none` for NULL) or the status and the register
after the call. -/
structure UrjLib where
  urj_pyc_precheck : urj_chain_t → Nat → Bool
  urj_tap_chain_active_part : urj_chain_t → Option Nat
  urj_part_set_instruction : urj_part_t → String → urj_part_t
  urj_tap_chain_shift_data_registers : urj_chain_t → Int → Int × urj_chain_t
  urj_tap_chain_shift_instructions : urj_chain_t → Int × urj_chain_t
  urj_tap_register_get_string : urj_tap_register_t → Option String
  urj_tap_register_get_string_bit_range : urj_tap_register_t → Int → Int → Option String
  urj_tap_register_set_string : urj_tap_register_t → String → Int × urj_tap_register_t
  urj_tap_register_set_value : urj_tap_register_t → Nat → Int × urj_tap_register_t
  urj_tap_register_set_string_bit_range :
    urj_tap_register_t → String → Int → Int → Int × urj_tap_register_t
  urj_tap_register_set_value_bit_range :
    urj_tap_register_t → Nat → Int → Int → Int × urj_tap_register_t

/-- The `PyObject *` that a method of register.c returns: NULL with the message given to
`PyErr_SetString` (`none` when the callee that failed has set the error), the object
`urj_py_chkret (rc)`, the string of `Py_BuildValue ("s", ...)`, or the integer of
`PyLong_FromString (..., 2)` by its digits. -/
inductive PyReturn where
  | NULL (message : Option String)
  | chkret (rc : Int)
  | string (value_string : String)
  | long_from_string (value_string : String)
deriving DecidableEq

/-- What a method of register.c leaves behind: the object returned, the chain, the register
object `self` with its fields as the method leaves them, and the library calls made, oldest
first.  The buffers of `self.urreg` are the ones the accessors of `urj_pyr_set_dr` write; what
a shift of the library captures into them is an effect of the library and is not shown. -/
structure PyrResult where
  ret : PyReturn
  urc : urj_chain_t
  self : urj_pyregister_t
  calls : List UrjCall
deriving DecidableEq

/-- The optional arguments `msb`, `lsb` of a Python call as `PyArg_ParseTuple` finds them for
the format `|ii`. -/
inductive RangeArgs where
  | absent
  | only_msb (msb : Int)
  | msb_lsb (msb lsb : Int)
deriving DecidableEq

/-- The variables `msb` and `lsb` after `PyArg_ParseTuple` with the format `|ii`: an argument
that is absent leaves its variable as it was. -/
def RangeArgs.store (a : RangeArgs) (msb lsb : Int) : Int × Int :=
  match a with
  | RangeArgs.absent => (msb, lsb)
  | RangeArgs.only_msb m => (m, lsb)
  | RangeArgs.msb_lsb m l => (m, l)

/-- Function `urj_pyr_get_dr`.  `args` is `none` when `PyArg_ParseTuple` fails. -/
def urj_pyr_get_dr (lib : UrjLib) (self : urj_pyregister_t) (urc : urj_chain_t)
    (inp string : Int) (args : Option RangeArgs) : PyrResult :=
  let dr := self.urreg
  let lsb : Int := -1
  let msb : Int := -1
  match args with
  | none => ⟨PyReturn.NULL none, urc, self, []⟩
  | some a =>
    let msb_lsb := a.store msb lsb
    let msb := msb_lsb.1
    let lsb := msb_lsb.2
    let lsb := if lsb = -1 then msb else lsb
    if ¬ lib.urj_pyc_precheck urc UPRC_CBL then ⟨PyReturn.NULL none, urc, self, []⟩
    else
      match dr with
      | none => ⟨PyReturn.NULL (some "invalid data register object"), urc, self, []⟩
      | some d =>
        let r := if inp ≠ 0 then d.inp else d.out
        let value_string :=
          if msb = -1 then lib.urj_tap_register_get_string r
          else lib.urj_tap_register_get_string_bit_range r msb lsb
        let calls :=
          if msb = -1 then [UrjCall.urj_tap_register_get_string r]
          else [UrjCall.urj_tap_register_get_string_bit_range r msb lsb]
        match value_string with
        | none =>
          ⟨PyReturn.NULL (some "error obtaining tap register value"), urc, self, calls⟩
        | some s =>
          if string ≠ 0 then ⟨PyReturn.string s, urc, self, calls⟩
          else ⟨PyReturn.long_from_string s, urc, self, calls⟩

/-- The value argument of `urj_pyr_set_dr` as the two calls of `PyArg_ParseTuple` find it:
a string for the format `s|ii`, else an integer, stored in the `uint64_t newval`, for
`L|ii`. -/
inductive SetValue where
  | newstr (s : String)
  | newval (v : Nat)
deriving DecidableEq

/-- The data register with the buffer that `in` selects replaced. -/
def urj_data_register_t.store (d : urj_data_register_t) (inp : Int)
    (r : urj_tap_register_t) : urj_data_register_t :=
  if inp ≠ 0 then { d with inp := r } else { d with out := r }

/-- Function `urj_pyr_set_dr`.  `args` is `none` when both calls of `PyArg_ParseTuple`
fail. -/
def urj_pyr_set_dr (lib : UrjLib) (self : urj_pyregister_t) (urc : urj_chain_t)
    (inp : Int) (args : Option (SetValue × RangeArgs)) : PyrResult :=
  let dr := self.urreg
  let lsb : Int := -1
  let msb : Int := -1
  match args with
  | none => ⟨PyReturn.NULL none, urc, self, []⟩
  | some (value, a) =>
    let msb_lsb := a.store msb lsb
    let msb := msb_lsb.1
    let lsb := msb_lsb.2
    match dr with
    | none => ⟨PyReturn.NULL (some "invalid register object"), urc, self, []⟩
    | some d =>
      let r := if inp ≠ 0 then d.inp else d.out
      if msb = -1 then
        match value with
        | SetValue.newstr s =>
          let x := lib.urj_tap_register_set_string r s
          ⟨PyReturn.chkret x.1, urc, { self with urreg := some (d.store inp x.2) },
            [UrjCall.urj_tap_register_set_string r s]⟩
        | SetValue.newval v =>
          let x := lib.urj_tap_register_set_value r v
          ⟨PyReturn.chkret x.1, urc, { self with urreg := some (d.store inp x.2) },
            [UrjCall.urj_tap_register_set_value r v]⟩
      else
        let lsb := if lsb = -1 then msb else lsb
        match value with
        | SetValue.newstr s =>
          let x := lib.urj_tap_register_set_string_bit_range r s msb lsb
          ⟨PyReturn.chkret x.1, urc, { self with urreg := some (d.store inp x.2) },
            [UrjCall.urj_tap_register_set_string_bit_range r s msb lsb]⟩
        | SetValue.newval v =>
          let x := lib.urj_tap_register_set_value_bit_range r v msb lsb
          ⟨PyReturn.chkret x.1, urc, { self with urreg := some (d.store inp x.2) },
            [UrjCall.urj_tap_register_set_value_bit_range r v msb lsb]⟩

/-- The chain with the part at index `part` replaced by `f` of it: the effect of a write
through the pointer that `urj_tap_chain_active_part` returned. -/
def urj_chain_t.update_part (urc : urj_chain_t) (part : Nat) (f : urj_part_t → urj_part_t) :
    urj_chain_t :=
  { urc with parts := urc.parts.modify f part }

/-- Function `urj_pyr_shift_dr`.  `args` is `none` when `PyArg_ParseTuple` fails, `some none`
when no instruction name is passed. -/
def urj_pyr_shift_dr (lib : UrjLib) (self : urj_pyregister_t) (urc : urj_chain_t)
    (args : Option (Option String)) : PyrResult :=
  let partn := self.part
  match args with
  | none => ⟨PyReturn.NULL none, urc, self, []⟩
  | some instname =>
    if ¬ lib.urj_pyc_precheck urc UPRC_CBL then ⟨PyReturn.NULL none, urc, self, []⟩
    else if self.urreg = none then
      ⟨PyReturn.NULL (some "invalid register object"), urc, self, []⟩
    else
      let urc := { urc with active_part := partn }
      match lib.urj_tap_chain_active_part urc with
      | none => ⟨PyReturn.NULL (some "No active part on chain"), urc, self, []⟩
      | some part =>
        match instname with
        | some name =>
          let urc := urc.update_part part fun p => lib.urj_part_set_instruction p name
          let x := lib.urj_tap_chain_shift_data_registers urc 1
          ⟨PyReturn.chkret x.1, x.2, self,
            [UrjCall.urj_part_set_instruction part name,
             UrjCall.urj_tap_chain_shift_data_registers 1]⟩
        | none =>
          match self.inst with
          | none =>
            ⟨PyReturn.NULL (some "no instruction for data register"), urc, self, []⟩
          | some inst =>
            let urc := urc.update_part part fun p => { p with active_instruction := some inst }
            let x := lib.urj_tap_chain_shift_data_registers urc 1
            ⟨PyReturn.chkret x.1, x.2, self,
              [UrjCall.urj_tap_chain_shift_data_registers 1]⟩

/-- Function `urj_pyr_shift_ir`.  `args` is `none` when `PyArg_ParseTuple` fails, `some none`
when no instruction name is passed. -/
def urj_pyr_shift_ir (lib : UrjLib) (self : urj_pyregister_t) (urc : urj_chain_t)
    (args : Option (Option String)) : PyrResult :=
  match args with
  | none => ⟨PyReturn.NULL none, urc, self, []⟩
  | some instname =>
    if ¬ lib.urj_pyc_precheck urc UPRC_CBL then ⟨PyReturn.NULL none, urc, self, []⟩
    else
      let urc := { urc with active_part := self.part }
      match lib.urj_tap_chain_active_part urc with
      | none => ⟨PyReturn.NULL (some "No active part on chain"), urc, self, []⟩
      | some part =>
        match instname with
        | some name =>
          let urc := urc.update_part part fun p => lib.urj_part_set_instruction p name
          let x := lib.urj_tap_chain_shift_instructions urc
          ⟨PyReturn.chkret x.1, x.2, self,
            [UrjCall.urj_part_set_instruction part name,
             UrjCall.urj_tap_chain_shift_instructions]⟩
        | none =>
          match self.inst with
          | none =>
            ⟨PyReturn.NULL (some "no instruction for data register"), urc, self, []⟩
          | some inst =>
            let urc := urc.update_part part fun p => { p with active_instruction := some inst }
            let x := lib.urj_tap_chain_shift_instructions urc
            ⟨PyReturn.chkret x.1, x.2, self, [UrjCall.urj_tap_chain_shift_instructions]⟩

/-- A library for evaluations: the precheck passes, the active part is the one that
`active_part` indexes if it exists, an instruction is set by its name, the shifts succeed and
the accessors answer with fixed values. -/
def urj_lib_plain : UrjLib where
  urj_pyc_precheck := fun _ _ => true
  urj_tap_chain_active_part := fun urc =>
    if 0 ≤ urc.active_part ∧ urc.active_part.toNat < urc.parts.length then
      some urc.active_part.toNat
    else none
  urj_part_set_instruction := fun _ name => ⟨some name⟩
  urj_tap_chain_shift_data_registers := fun urc _ => (0, urc)
  urj_tap_chain_shift_instructions := fun urc => (0, urc)
  urj_tap_register_get_string := fun _ => some "full"
  urj_tap_register_get_string_bit_range := fun _ _ _ => some "range"
  urj_tap_register_set_string := fun r _ => (0, r)
  urj_tap_register_set_value := fun r _ => (0, r)
  urj_tap_register_set_string_bit_range := fun r _ _ _ => (0, r)
  urj_tap_register_set_value_bit_range := fun r _ _ _ => (0, r)

/-- A data register with distinct buffers. -/
def urj_dr_sample : urj_data_register_t := ⟨⟨[1, 0, 1, 1]⟩, ⟨[0, 0, 1, 0]⟩⟩

/-- A register object on part 0 without a remembered instruction. -/
def urj_pyregister_no_inst : urj_pyregister_t := ⟨some urj_dr_sample, 0, none⟩

/-- A chain of one part with no active instruction. -/
def urj_chain_one_part : urj_chain_t := ⟨0, [⟨none⟩]⟩

/-- A register object on part 1 that remembers the instruction BYPASS. -/
def urj_pyregister_bypass : urj_pyregister_t := ⟨some urj_dr_sample, 1, some "BYPASS"⟩

/-- A chain of two parts, the first active, with the active instructions SAMPLE and EXTEST. -/
def urj_chain_two_parts : urj_chain_t := ⟨0, [⟨some "SAMPLE"⟩, ⟨some "EXTEST"⟩]⟩

/-! ## jtag/src/cmd/include.c -/

/-- The C library call `snprintf (buf, size, "%s/%s", a, b)`: at most `size - 1` characters of
the formatted text are stored.  A character of a string stands for one byte. -/
def snprintf (size : Nat) (a b : String) : String :=
  String.mk ((a ++ "/" ++ b).data.take (size - 1))

/-- What `cmd_include_run` leaves behind: its return value and the arguments of its calls of
`jtag_parse_file`, oldest first. -/
structure IncludeRun where
  ret : Int
  parsed : List String
deriving DecidableEq

/-- The loop `for (i = 0; i < j; i++)` of `cmd_include_run` (lines 71-79), by the number of
iterations still to run: the last value of `go` and the files parsed.  `jtag_parse_file`
gives the result of the `i`-th call. -/
def cmd_include_loop (jtag_parse_file : Nat → String → Int) (path : String) :
    Nat → Nat → Int → List String → Int × List String
  | 0, _, go, parsed => (go, parsed)
  | k + 1, i, _, parsed =>
      let go := jtag_parse_file i path
      if go < 0 then (go, parsed ++ [path])
      else cmd_include_loop jtag_parse_file path k (i + 1) go (parsed ++ [path])

/-- Function `cmd_include_run`.  The macro `JTAG_DATA_DIR` and the helpers `cmd_params` and
`jtag_parse_file` are not among the sources and are parameters; `alloc_ok` tells whether
`strdup` or `malloc` returned a block; `sscanf_d` is the conversion `sscanf (s, "%d", &j)`,
`none` when it stores nothing.  `params` holds the entries before the terminating NULL. -/
def cmd_include_run (JTAG_DATA_DIR : String) (cmd_params : List String → Int)
    (alloc_ok : Bool) (sscanf_d : String → Option Int)
    (jtag_parse_file : Nat → String → Int) (params : List String) : IncludeRun :=
  let go : Int := 0
  let j : Int := 1
  if cmd_params params < 2 then ⟨-1, []⟩
  else
    let path := (params.getD 1 "").data
    let path := path.dropWhile fun ch => ch == '.'
    let path : Option String :=
      if path.head? = some '/' then
        if alloc_ok then some (params.getD 1 "") else none
      else
        let len := JTAG_DATA_DIR.length + (params.getD 1 "").length + 2
        if alloc_ok then some (snprintf len JTAG_DATA_DIR (params.getD 1 "")) else none
    match path with
    | none => ⟨1, []⟩
    | some path =>
      let j :=
        if cmd_params params > 2 then
          match sscanf_d (params.getD 2 "") with
          | some v => v
          | none => j
        else j
      let r := cmd_include_loop jtag_parse_file path j.toNat 0 go []
      ⟨if r.1 ≠ 0 then 1 else 0, r.2⟩

/-- The number of entries of a parameter array, for evaluations. -/
def cmd_params_count (params : List String) : Int := params.length

/-- The chain `after` comes from `before` by writes to `active_part` and to one part only:
either nothing is written, or `active_part` is `partn` and every part but the one at some
index is as before.  A part of this embedding has the active instruction as its only
member. -/
def urj_chain_t.selects (before : urj_chain_t) (partn : Int) (after : urj_chain_t) : Prop :=
  after = before ∨
    (after.active_part = partn ∧ after.parts.length = before.parts.length ∧
      ∃ part : Nat, ∀ i : Nat, i ≠ part → after.parts[i]? = before.parts[i]?)

/-! ## Theorems -/

/-! ### The packing loop of `anlogic_usb_xfer` in closed form -/


theorem and_bit_ne_zero (x p : Nat) : x &&& 1 <<< p ≠ 0 ↔ x.testBit p = true := by
  rw [Nat.one_shiftLeft, Nat.and_two_pow]
  cases x.testBit p <;> simp

theorem pack_byte_nibbles (a b : Nat) (ha : a < 8) (hb : b < 8) :
    ((a ||| b <<< 4) % 256) &&& 0xF = a ∧ ((a ||| b <<< 4) % 256) >>> 4 = b := by
  interval_cases a <;> interval_cases b <;> decide

theorem anlogic_cell_lt (d : List Nat) (l i : Nat) : anlogic_cell d l i < 8 := by
  unfold anlogic_cell ANLOGIC_JTAG_OUT_MASK
  exact Nat.lt_succ_of_le Nat.and_le_right


theorem getD_append_cons_length (A : List Nat) (b : Nat) (C : List Nat) (n : Nat)
    (h : A.length = n) : (A ++ b :: C).getD n 0 = b := by
  subst h
  rw [List.getD_eq_getElem?_getD, List.getElem?_append_right (le_refl _)]
  simp

theorem set_append_cons_length (A : List Nat) (b x : Nat) (C : List Nat) (n : Nat)
    (h : A.length = n) : (A ++ b :: C).set n x = A ++ x :: C := by
  subst h
  simp [List.set_append]

theorem anlogic_pack_prefix (d : List Nat) (l N n : Nat) (hn : n ≤ N) :
    (List.range (2 * n)).foldl (anlogic_pack_step d l) (List.replicate N 0) =
      (List.range n).map (anlogic_byte d l) ++ List.replicate (N - n) 0 := by
  induction n with
  | zero => simp
  | succ n ih =>
    have h2 : 2 * (n + 1) = (2 * n + 1) + 1 := by ring
    rw [h2, List.range_succ, List.range_succ, List.foldl_append, List.foldl_append, ih (by omega)]
    have hr : N - n = (N - (n + 1)) + 1 := by omega
    rw [hr, List.replicate_succ]
    simp only [List.foldl_cons, List.foldl_nil]
    have e1 : (2 * n) % 2 = 0 := by omega
    have e2 : (2 * n + 1) % 2 = 1 := by omega
    have e3 : (2 * n) / 2 = n := by omega
    have e4 : (2 * n + 1) / 2 = n := by omega
    have hl : ((List.range n).map (anlogic_byte d l)).length = n := by simp
    simp only [anlogic_pack_step, e1, e2, e3, e4]
    simp only [ne_eq, not_true_eq_false, ↓reduceIte, one_ne_zero, not_false_eq_true]
    rw [set_append_cons_length _ _ _ _ _ hl, getD_append_cons_length _ _ _ _ hl,
      set_append_cons_length _ _ _ _ _ hl]
    rw [List.range_succ, List.map_append, List.append_assoc]
    rfl

theorem anlogic_pack_eq (d : List Nat) (l : Nat) :
    anlogic_pack d l = (List.range (ANLOGIC_JTAG_MAX_XFER_SIZE / 2)).map (anlogic_byte d l) := by
  have h := anlogic_pack_prefix d l (ANLOGIC_JTAG_MAX_XFER_SIZE / 2)
    (ANLOGIC_JTAG_MAX_XFER_SIZE / 2) (le_refl _)
  have e : 2 * (ANLOGIC_JTAG_MAX_XFER_SIZE / 2) = ANLOGIC_JTAG_MAX_XFER_SIZE := by decide
  rw [e, Nat.sub_self] at h
  rw [anlogic_pack, h]
  simp

theorem flatMap_pairs {α : Type} (f : Nat → α) (n : Nat) :
    (List.range n).flatMap (fun j => [f (2 * j), f (2 * j + 1)]) = (List.range (2 * n)).map f := by
  induction n with
  | zero => simp
  | succ n ih =>
    have h2 : 2 * (n + 1) = (2 * n + 1) + 1 := by ring
    rw [h2, List.range_succ, List.range_succ (2 * n + 1), List.range_succ (2 * n)]
    simp [List.flatMap_append, ih]

theorem anlogic_nibbles_pack (d : List Nat) (l : Nat) :
    anlogic_nibbles (anlogic_pack d l) =
      (List.range ANLOGIC_JTAG_MAX_XFER_SIZE).map (anlogic_cell d l) := by
  have e : ANLOGIC_JTAG_MAX_XFER_SIZE = 2 * (ANLOGIC_JTAG_MAX_XFER_SIZE / 2) := by decide
  rw [anlogic_pack_eq, anlogic_nibbles, List.flatMap_map]
  conv_rhs => rw [e]
  rw [← flatMap_pairs]
  congr 1
  funext j
  have := pack_byte_nibbles _ _ (anlogic_cell_lt d l (2 * j)) (anlogic_cell_lt d l (2 * j + 1))
  simp only [anlogic_byte, this.1, this.2]

/-! ### Bits of the anlogic shadow byte -/

theorem anlogic_pack_last (d : List Nat) (l : Nat) :
    (anlogic_pack d l).getD (ANLOGIC_JTAG_MAX_XFER_SIZE / 2 - 1) 0 >>> 4 =
      anlogic_cell d l (ANLOGIC_JTAG_MAX_XFER_SIZE - 1) := by
  rw [anlogic_pack_eq, List.getD_eq_getElem?_getD, List.getElem?_map,
    List.getElem?_range (by decide)]
  simp only [Option.map_some', Option.getD_some, anlogic_byte]
  have e : 2 * (ANLOGIC_JTAG_MAX_XFER_SIZE / 2 - 1) + 1 = ANLOGIC_JTAG_MAX_XFER_SIZE - 1 := by
    decide
  rw [e]
  exact (pack_byte_nibbles _ _ (anlogic_cell_lt _ _ _) (anlogic_cell_lt _ _ _)).2

theorem anlogic_usb_xfer_last_status (dev : UsbDev) (c : AnlogicCable) (d mem : List Nat)
    (p : Option Nat) (l : Nat) :
    (anlogic_usb_xfer dev c d mem p l).cable.last_status =
      anlogic_cell d l (ANLOGIC_JTAG_MAX_XFER_SIZE - 1) := by
  unfold anlogic_usb_xfer
  simp only
  split_ifs <;> exact anlogic_pack_last d l

theorem testBit_ite_or (b : Prop) [Decidable b] (s p i : Nat) :
    (if b then s ||| 1 <<< p else s).testBit i = (s.testBit i || (decide b && decide (p = i))) := by
  by_cases h : b <;> simp [h, Nat.testBit_or, Nat.one_shiftLeft, Nat.testBit_two_pow]

theorem testBit_cnot (x i : Nat) : (cnot x).testBit i = (decide (i < 32) ^^ x.testBit i) := by
  have eF : (0xFFFFFFFF : Nat) = 2 ^ 32 - 1 := by decide
  rw [cnot, eF, Nat.testBit_xor, Nat.testBit_two_pow_sub_one]

theorem testBit_mod_256 (x i : Nat) : (x % 256).testBit i = (decide (i < 8) && x.testBit i) := by
  have e256 : (256 : Nat) = 2 ^ 8 := by decide
  rw [e256, Nat.testBit_mod_two_pow]

theorem testBit_bit (p i : Nat) : (1 <<< p).testBit i = decide (p = i) := by
  rw [Nat.one_shiftLeft, Nat.testBit_two_pow]

/-- One `if (mask & L) { if (val & L) status |= B; else status &= ~B; }` step on a byte,
seen at a bit `i` of the byte. -/
theorem testBit_status_step (mb vb : Prop) [Decidable mb] [Decidable vb] (s p i : Nat)
    (hi : i < 8) :
    (if mb then (if vb then (s ||| 1 <<< p) % 256 else (s &&& cnot (1 <<< p)) % 256)
      else s).testBit i =
      (if p = i then (if mb then decide vb else s.testBit i) else s.testBit i) := by
  have hi32 : i < 32 := by omega
  by_cases hm : mb <;> by_cases hv : vb <;> by_cases hpi : p = i <;>
    simp [hm, hv, hpi, hi, hi32, testBit_mod_256, Nat.testBit_or, Nat.testBit_and, testBit_cnot, Nat.one_shiftLeft, Nat.testBit_two_pow,
      testBit_bit]

theorem anlogic_set_signal_status (P : PodSig) (dev : UsbDev) (c : AnlogicCable) (m v : Nat) :
    let s := (anlogic_set_signal P dev c m v).2.last_status
    s.testBit 2 = (if m.testBit P.tck then v.testBit P.tck else c.last_status.testBit 2) ∧
    s.testBit 0 = (if m.testBit P.tms then v.testBit P.tms else c.last_status.testBit 0) ∧
    s.testBit 1 = (if m.testBit P.tdi then v.testBit P.tdi else c.last_status.testBit 1) := by
  intro s
  have hs : s = _ := anlogic_usb_xfer_last_status dev c _ [] none 1
  have e7 : (7 : Nat) = 2 ^ 3 - 1 := by decide
  have hc : ∀ x : Nat, anlogic_cell [x] 1 (ANLOGIC_JTAG_MAX_XFER_SIZE - 1) = x &&& (2 ^ 3 - 1) := by
    intro x
    simp [anlogic_cell, ANLOGIC_JTAG_MAX_XFER_SIZE, ANLOGIC_JTAG_OUT_MASK]
  rw [hs, hc]
  simp only [Nat.testBit_and, Nat.testBit_two_pow_sub_one, ANLOGIC_JTAG_TCK, ANLOGIC_JTAG_TMS,
    ANLOGIC_JTAG_TDI, PodSig.URJ_POD_CS_TCK, PodSig.URJ_POD_CS_TMS, PodSig.URJ_POD_CS_TDI,
    and_bit_ne_zero]
  refine ⟨?_, ?_, ?_⟩
  · rw [testBit_status_step _ _ _ _ _ (by decide), testBit_status_step _ _ _ _ _ (by decide),
      testBit_status_step _ _ _ _ _ (by decide)]
    cases m.testBit P.tck <;> simp
  · rw [testBit_status_step _ _ _ _ _ (by decide), testBit_status_step _ _ _ _ _ (by decide),
      testBit_status_step _ _ _ _ _ (by decide)]
    cases m.testBit P.tms <;> simp
  · rw [testBit_status_step _ _ _ _ _ (by decide), testBit_status_step _ _ _ _ _ (by decide),
      testBit_status_step _ _ _ _ _ (by decide)]
    cases m.testBit P.tdi <;> simp

theorem anlogic_get_signal_testBit (P : PodSig) (c : AnlogicCable) (sig i : Nat) :
    (anlogic_get_signal P c sig).testBit i =
      ((decide (P.tck = i) && (sig.testBit P.tck && c.last_status.testBit 2)) ||
       (decide (P.tms = i) && (sig.testBit P.tms && c.last_status.testBit 0)) ||
       (decide (P.tdi = i) && (sig.testBit P.tdi && c.last_status.testBit 1))) := by
  unfold anlogic_get_signal
  simp only [PodSig.URJ_POD_CS_TCK, PodSig.URJ_POD_CS_TMS, PodSig.URJ_POD_CS_TDI,
    ANLOGIC_JTAG_TCK, ANLOGIC_JTAG_TMS, ANLOGIC_JTAG_TDI, and_bit_ne_zero, testBit_ite_or,
    Nat.zero_testBit, Bool.false_or, Bool.decide_and, Bool.decide_eq_true]
  cases decide (P.tck = i) <;> cases decide (P.tms = i) <;> cases decide (P.tdi = i) <;>
    cases sig.testBit P.tck <;> cases sig.testBit P.tms <;> cases sig.testBit P.tdi <;> simp

/-! ### C1 -/

theorem testBit_of_and_eq_zero {x m : Nat} (h : x &&& m = 0) (i : Nat) :
    (x.testBit i && m.testBit i) = false := by
  rw [← Nat.testBit_and, h, Nat.zero_testBit]

/-- C1.  Round trip of the anlogic driver: for every prior state, every mask `m` and value
`v`, every assignment of the signal bits and every device (so whatever the outcome of the USB
exchange), after `anlogic_set_signal (m, v)` the answer of `anlogic_get_signal` for
TCK|TMS|TDI, restricted to the lines of `m`, is `v & m & (TCK|TMS|TDI)`, and restricted to
any set of lines `x` disjoint from `m` it is what `anlogic_get_signal` answered before. -/
theorem anlogic_set_get_roundtrip (P : PodSig) (dev : UsbDev) (c : AnlogicCable) (m v : Nat) :
    anlogic_get_signal P (anlogic_set_signal P dev c m v).2 P.jtag_lines &&&
        (m &&& P.jtag_lines) = v &&& m &&& P.jtag_lines ∧
    ∀ x, x &&& m = 0 →
      anlogic_get_signal P (anlogic_set_signal P dev c m v).2 P.jtag_lines &&& x =
        anlogic_get_signal P c P.jtag_lines &&& x := by
  generalize hJ' : P.jtag_lines = J
  generalize hc' : (anlogic_set_signal P dev c m v).2 = c'
  have hst := anlogic_set_signal_status P dev c m v
  rw [hc'] at hst
  obtain ⟨h2, h0, h1⟩ := hst
  have hJ : ∀ i, J.testBit i = (decide (P.tck = i) || decide (P.tms = i) || decide (P.tdi = i)) := by
    intro i
    simp only [← hJ', PodSig.jtag_lines, PodSig.URJ_POD_CS_TCK, PodSig.URJ_POD_CS_TMS,
      PodSig.URJ_POD_CS_TDI, Nat.testBit_or, testBit_bit]
  constructor
  · apply Nat.eq_of_testBit_eq
    intro i
    simp only [Nat.testBit_and, anlogic_get_signal_testBit, hJ, h2, h0, h1]
    by_cases e1 : P.tck = i <;> by_cases e2 : P.tms = i <;> by_cases e3 : P.tdi = i <;>
      simp [e1, e2, e3] <;> (try subst e1) <;> (try subst e2) <;> (try subst e3) <;>
      cases m.testBit _ <;> cases v.testBit _ <;> simp
  · intro x hx
    apply Nat.eq_of_testBit_eq
    intro i
    have hxi := testBit_of_and_eq_zero hx i
    simp only [Nat.testBit_and, anlogic_get_signal_testBit, hJ, h2, h0, h1]
    by_cases e1 : P.tck = i <;> by_cases e2 : P.tms = i <;> by_cases e3 : P.tdi = i <;>
      simp [e1, e2, e3] <;> (try subst e1) <;> (try subst e2) <;> (try subst e3) <;>
      revert hxi <;> cases m.testBit _ <;> cases x.testBit _ <;> simp

/-! ### C2 -/

theorem testBit_lt_256 {s : Nat} (hs : s < 256) {i : Nat} (h : s.testBit i = true) : i < 8 := by
  by_contra hi
  have : s.testBit i = false := by
    apply Nat.testBit_lt_two_pow
    calc s < 2 ^ 8 := hs
      _ ≤ 2 ^ i := Nat.pow_le_pow_right (by decide) (by omega)
  rw [this] at h
  exact Bool.false_ne_true h

theorem dirtyjtag_set_signal_shadow (P : PodSig) (dev : DirtyDev) (c : DirtyCable) (m v : Nat) :
    (dirtyjtag_set_signal P dev c m v).2.current_signals =
      (((c.current_signals &&& cnot (m &&& (P.URJ_POD_CS_TMS ||| P.URJ_POD_CS_TCK |||
          P.URJ_POD_CS_TDI ||| P.URJ_POD_CS_TRST ||| P.URJ_POD_CS_RESET))) % 256) |||
        (v &&& (m &&& (P.URJ_POD_CS_TMS ||| P.URJ_POD_CS_TCK |||
          P.URJ_POD_CS_TDI ||| P.URJ_POD_CS_TRST ||| P.URJ_POD_CS_RESET)))) % 256 := rfl

theorem pod_all_testBit (P : PodSig) (i : Nat) :
    (P.URJ_POD_CS_TMS ||| P.URJ_POD_CS_TCK ||| P.URJ_POD_CS_TDI ||| P.URJ_POD_CS_TRST |||
      P.URJ_POD_CS_RESET).testBit i =
      (decide (P.tms = i) || decide (P.tck = i) || decide (P.tdi = i) || decide (P.trst = i) ||
        decide (P.reset = i)) := by
  simp only [PodSig.URJ_POD_CS_TCK, PodSig.URJ_POD_CS_TMS, PodSig.URJ_POD_CS_TDI,
    PodSig.URJ_POD_CS_TRST, PodSig.URJ_POD_CS_RESET, Nat.testBit_or, testBit_bit]

theorem pod_all_lt (P : PodSig) (hP : P.FitsByte) {i : Nat}
    (h : (P.URJ_POD_CS_TMS ||| P.URJ_POD_CS_TCK ||| P.URJ_POD_CS_TDI ||| P.URJ_POD_CS_TRST |||
      P.URJ_POD_CS_RESET).testBit i = true) : i < 8 := by
  rw [pod_all_testBit] at h
  obtain ⟨h1, h2, h3, h4, h5⟩ := hP
  simp only [Bool.or_eq_true, decide_eq_true_eq] at h
  omega

theorem shadow_update_testBit (cs mask val i : Nat) :
    ((((cs &&& cnot mask) % 256) ||| val) % 256).testBit i =
      (decide (i < 8) && ((cs.testBit i && !mask.testBit i) || val.testBit i)) := by
  simp only [Nat.testBit_and, Nat.testBit_or, testBit_mod_256, testBit_cnot]
  by_cases h : i < 8
  · have h32 : i < 32 := by omega
    simp [h, h32]
  · simp [h]

theorem shadow_update_roundtrip (cs m v A : Nat) (hA : ∀ i, A.testBit i = true → i < 8)
    (hcs : ∀ i, cs.testBit i = true → i < 8) :
    (m &&& A) &&& ((((cs &&& cnot (m &&& A)) % 256) ||| (v &&& (m &&& A))) % 256) =
        v &&& m &&& A ∧
    ∀ i, m.testBit i = false →
      ((((cs &&& cnot (m &&& A)) % 256) ||| (v &&& (m &&& A))) % 256).testBit i =
        cs.testBit i := by
  constructor
  · apply Nat.eq_of_testBit_eq
    intro i
    rw [Nat.testBit_and, shadow_update_testBit]
    simp only [Nat.testBit_and]
    by_cases hAi : A.testBit i = true
    · have h8 := hA i hAi
      simp only [hAi, h8, decide_True, Bool.and_true, Bool.true_and]
      cases m.testBit i <;> cases v.testBit i <;> simp
    · simp only [Bool.not_eq_true] at hAi
      simp [hAi]
  · intro i hi
    rw [shadow_update_testBit]
    simp only [Nat.testBit_and, hi, Bool.false_and, Bool.and_false, Bool.not_false,
      Bool.and_true, Bool.or_false]
    by_cases hci : cs.testBit i = true
    · simp [hci, hcs i hci]
    · simp only [Bool.not_eq_true] at hci
      simp [hci]

/-- C2.  Round trip of the dirtyjtag driver: when the five lines lie in the low byte of the
signal vector and the prior `current_signals` is a byte, after `dirtyjtag_set_signal (m, v)`
the answer of `dirtyjtag_get_signal` for the lines `m & (TMS|TCK|TDI|TRST|RESET)` is
`v & m & (TMS|TCK|TDI|TRST|RESET)`, and every shadow bit outside `m` has its prior value. -/
theorem dirtyjtag_set_get_roundtrip (P : PodSig) (hP : P.FitsByte) (dev : DirtyDev)
    (c : DirtyCable) (hc : c.current_signals < 256) (m v : Nat) :
    dirtyjtag_get_signal (dirtyjtag_set_signal P dev c m v).2 (m &&& P.all_lines) =
        v &&& m &&& P.all_lines ∧
    ∀ i, m.testBit i = false →
      (dirtyjtag_set_signal P dev c m v).2.current_signals.testBit i =
        c.current_signals.testBit i :=
  shadow_update_roundtrip c.current_signals m v _ (fun _ h => pod_all_lt P hP h)
    (fun _ h => testBit_lt_256 hc h)

/-! ### C3 -/

theorem bsdgpio_set_signal_state (P : PodSig) (p : BsdGpio) (m v : Nat) :
    (bsdgpio_set_signal P p m v).2.signals = p.signals ∧
    (bsdgpio_set_signal P p m v).2.lastout =
      (v &&& (m &&& (P.URJ_POD_CS_TDI ||| P.URJ_POD_CS_TCK ||| P.URJ_POD_CS_TMS))) %
        4294967296 := by
  unfold bsdgpio_set_signal gpio_pin_set
  simp only
  split_ifs <;> simp

theorem testBit_mod_2_32 (x i : Nat) :
    (x % 4294967296).testBit i = (decide (i < 32) && x.testBit i) := by
  have e : (4294967296 : Nat) = 2 ^ 32 := by decide
  rw [e, Nat.testBit_mod_two_pow]

/-- What `bsdgpio_set_signal` leaves in the shadow: the bits of `signals` outside
TDI, TCK, TMS and the new levels of the masked lines; the previous levels of the lines
outside the mask are not kept. -/
theorem bsdgpio_set_signal_shadow (P : PodSig) (h32 : P.tdi < 32 ∧ P.tck < 32 ∧ P.tms < 32)
    (p : BsdGpio) (m v : Nat) :
    bsdgpio_current_signals P (bsdgpio_set_signal P p m v).2 =
      (p.signals &&& cnot (P.URJ_POD_CS_TMS ||| P.URJ_POD_CS_TDI ||| P.URJ_POD_CS_TCK)) |||
        (v &&& (m &&& (P.URJ_POD_CS_TDI ||| P.URJ_POD_CS_TCK ||| P.URJ_POD_CS_TMS))) := by
  obtain ⟨hs, hl⟩ := bsdgpio_set_signal_state P p m v
  obtain ⟨a1, a2, a3⟩ := h32
  unfold bsdgpio_current_signals
  rw [hs, hl]
  apply Nat.eq_of_testBit_eq
  intro i
  simp only [PodSig.URJ_POD_CS_TCK, PodSig.URJ_POD_CS_TMS, PodSig.URJ_POD_CS_TDI,
    and_bit_ne_zero, testBit_ite_or, Nat.testBit_or, Nat.testBit_and, testBit_cnot,
    testBit_bit, testBit_mod_2_32, Bool.decide_and, Bool.decide_eq_true, a1, a2, a3,
    decide_True, Bool.true_and, decide_eq_true_eq]
  by_cases e1 : P.tck = i <;> by_cases e2 : P.tms = i <;> by_cases e3 : P.tdi = i <;>
    simp [e1, e2, e3]

/-- C3, the code at the failing input.  After `bsdgpio_init`, `bsdgpio_set_signal (TCK, TCK)`
raises the TCK pin and the shadow reports TRST|TCK; the following
`bsdgpio_set_signal (TDI, TDI)` writes the TDI pin only, yet the shadow then reports TRST|TDI:
the level of TCK, a line outside the mask, is lost from the shadow. -/
theorem bsdgpio_set_signal_forgets_unmasked :
    bsdgpio_current_signals urjPod bsdgpio_tck_high =
      urjPod.URJ_POD_CS_TRST ||| urjPod.URJ_POD_CS_TCK ∧
    bsdgpio_current_signals urjPod
      (bsdgpio_set_signal urjPod bsdgpio_tck_high urjPod.URJ_POD_CS_TDI
        urjPod.URJ_POD_CS_TDI).2 = urjPod.URJ_POD_CS_TRST ||| urjPod.URJ_POD_CS_TDI ∧
    bsdgpio_get_signal urjPod bsdgpio_tck_high urjPod.URJ_POD_CS_TCK = 1 ∧
    bsdgpio_get_signal urjPod
      (bsdgpio_set_signal urjPod bsdgpio_tck_high urjPod.URJ_POD_CS_TDI
        urjPod.URJ_POD_CS_TDI).2 urjPod.URJ_POD_CS_TCK = 0 ∧
    (bsdgpio_set_signal urjPod bsdgpio_tck_high urjPod.URJ_POD_CS_TDI
      urjPod.URJ_POD_CS_TDI).2.pin_sets = [(27, 2), (17, 1)] := by
  decide

/-! ### C5 and C7 at their failing inputs -/

theorem dirtyjtag_clock_fill_sum (sig : Nat) :
    ∀ (k cp : Nat), cp ≤ 255 * k → clk_pulse_sum (dirtyjtag_clock_fill sig k cp) = cp := by
  intro k
  induction k with
  | zero =>
    intro cp h
    have : cp = 0 := by omega
    subst this
    rfl
  | succ k ih =>
    intro cp h
    have hm : dirtyjtag_min 255 cp ≤ 255 ∧ dirtyjtag_min 255 cp ≤ cp ∧
        (cp ≤ 255 → dirtyjtag_min 255 cp = cp) ∧ (255 < cp → dirtyjtag_min 255 cp = 255) := by
      unfold dirtyjtag_min
      split_ifs <;> omega
    show dirtyjtag_min 255 cp % 256 +
      clk_pulse_sum (dirtyjtag_clock_fill sig k (cp - dirtyjtag_min 255 cp)) = cp
    rw [ih _ (by omega)]
    omega

/-- Up to 255 * 255 pulses the pulse-count bytes of `dirtyjtag_clock` add up to the request. -/
theorem dirtyjtag_clock_buffer_sum (tms tdi : Int) (n : Nat) (h : n ≤ 65025) :
    clk_pulse_sum (dirtyjtag_clock_buffer tms tdi n) = n := by
  unfold dirtyjtag_clock_buffer
  simp only
  have e : ((n + 254) / 255) % 256 = (n + 254) / 255 := by omega
  rw [e]
  exact dirtyjtag_clock_fill_sum _ _ _ (by omega)

/-- C5, the code at the failing input.  For 65026 pulses the `uint8_t` packet counter of
`dirtyjtag_clock` wraps to 0: the command buffer is empty, its pulse counts add up to 0 and
only the terminating 0x00 is sent; for 65025 pulses the counts still add up to 65025. -/
theorem dirtyjtag_clock_65026_sends_no_pulse :
    dirtyjtag_clock_buffer 1 0 65026 = [] ∧
    clk_pulse_sum (dirtyjtag_clock_buffer 1 0 65026) = 0 ∧
    dirty_written dirty_idle (dirtyjtag_clock dirty_all_ok dirty_idle 1 0 65026) = [[0x00]] ∧
    clk_pulse_sum (dirtyjtag_clock_buffer 1 0 65025) = 65025 := by
  exact ⟨by decide, by decide, by decide, dirtyjtag_clock_buffer_sum 1 0 65025 (by decide)⟩

/-- C7, the code at the failing input.  A one-bit `dirtyjtag_transfer` whose bulk read
times out returns 0, the same value as the transfer that completes. -/
theorem dirtyjtag_transfer_read_failure_returns_zero :
    (dirtyjtag_transfer urjPod dirty_read_fails dirty_idle 1 [1] (some [0])).result = 0 ∧
    (dirtyjtag_transfer urjPod dirty_all_ok dirty_idle 1 [1] (some [0])).result = 0 := by
  decide

/-! ### C7, in general -/

/-- A `dirtyjtag_transfer` of at least one bit whose first bulk read fails returns 0 after
one packet and leaves `out` and `current_signals` as they were. -/
theorem dirtyjtag_transfer_first_read_fails (P : PodSig) (dev : DirtyDev) (c : DirtyCable)
    (len : Nat) (inp : List Nat) (out : Option (List Nat)) (hlen : 1 ≤ len)
    (hf : dev.read_result c.reads ≠ 0) :
    (dirtyjtag_transfer P dev c len inp out).result = 0 ∧
    (dirtyjtag_transfer P dev c len inp out).out = out ∧
    (dirtyjtag_transfer P dev c len inp out).cable.current_signals = c.current_signals ∧
    (dirtyjtag_transfer_packets P dev c len inp out).length = 1 := by
  obtain ⟨k, hk⟩ : ∃ k, ((len + 7) / 8 + 29) / 30 = k + 1 :=
    ⟨((len + 7) / 8 + 29) / 30 - 1, by omega⟩
  unfold dirtyjtag_transfer_packets dirty_written dirtyjtag_transfer
  simp only [hk, dirtyjtag_transfer_loop, dirtyjtag_read, dirtyjtag_send, ne_eq, hf,
    not_false_eq_true, ↓reduceIte, List.drop_left, List.length_singleton, and_self]

/-! ### The chunk loop of `anlogic_clock` in closed form -/

theorem anlogic_usb_xfer_sent (dev : UsbDev) (c : AnlogicCable) (d mem : List Nat)
    (p : Option Nat) (l : Nat) :
    (anlogic_usb_xfer dev c d mem p l).cable.sent = c.sent ++ [anlogic_pack d l] := by
  unfold anlogic_usb_xfer
  simp only
  split_ifs <;> rfl

theorem anlogic_cell_drop (buf : List Nat) (size g : Nat)
    (h : ANLOGIC_JTAG_MAX_XFER_SIZE < size) :
    anlogic_cell (buf.drop ANLOGIC_JTAG_MAX_XFER_SIZE) (size - ANLOGIC_JTAG_MAX_XFER_SIZE) g =
      anlogic_cell buf size (ANLOGIC_JTAG_MAX_XFER_SIZE + g) := by
  unfold anlogic_cell
  generalize ANLOGIC_JTAG_MAX_XFER_SIZE = M at *
  rw [List.getD_eq_getElem?_getD, List.getD_eq_getElem?_getD, List.getElem?_drop]
  have e : M + (if g ≥ size - M then size - M - 1 else g) =
      (if M + g ≥ size then size - 1 else M + g) := by
    split_ifs <;> omega
  rw [e]

theorem anlogic_cell_full (buf : List Nat) (size g : Nat)
    (h : ANLOGIC_JTAG_MAX_XFER_SIZE < size) (hg : g < ANLOGIC_JTAG_MAX_XFER_SIZE) :
    anlogic_cell buf ANLOGIC_JTAG_MAX_XFER_SIZE g = anlogic_cell buf size g := by
  unfold anlogic_cell
  generalize ANLOGIC_JTAG_MAX_XFER_SIZE = M at *
  have e : (if g ≥ M then M - 1 else g) = (if g ≥ size then size - 1 else g) := by
    split_ifs <;> omega
  rw [e]

theorem range_add_map {α : Type} (f : Nat → α) (a b : Nat) :
    (List.range (a + b)).map f = (List.range a).map f ++ (List.range b).map (fun g => f (a + g)) := by
  rw [List.range_add, List.map_append, List.map_map]
  rfl


theorem anlogic_chunks_step (size : Nat) (h : ANLOGIC_JTAG_MAX_XFER_SIZE < size) :
    anlogic_chunks size = anlogic_chunks (size - ANLOGIC_JTAG_MAX_XFER_SIZE) + 1 := by
  unfold anlogic_chunks at *
  simp only [ANLOGIC_JTAG_MAX_XFER_SIZE] at *
  omega

theorem anlogic_chunks_one (size : Nat) (h0 : 0 < size)
    (h : ¬ ANLOGIC_JTAG_MAX_XFER_SIZE < size) : anlogic_chunks size = 1 := by
  unfold anlogic_chunks at *
  simp only [ANLOGIC_JTAG_MAX_XFER_SIZE] at *
  omega

theorem anlogic_clock_loop_sent (dev : UsbDev) (size : Nat) :
    ∀ (buf : List Nat) (c : AnlogicCable),
      ∃ L, (anlogic_clock_loop dev buf size c).sent = c.sent ++ L ∧
        L.length = anlogic_chunks size ∧
        L.flatMap anlogic_nibbles =
          (List.range (ANLOGIC_JTAG_MAX_XFER_SIZE * anlogic_chunks size)).map
            (anlogic_cell buf size) := by
  induction size using Nat.strong_induction_on with
  | _ size ih =>
    intro buf c
    rw [anlogic_clock_loop]
    by_cases h0 : size > 0
    · simp only [h0, ↓reduceIte]
      by_cases h1 : size > ANLOGIC_JTAG_MAX_XFER_SIZE
      · simp only [h1, ↓reduceIte]
        have hlt : size - ANLOGIC_JTAG_MAX_XFER_SIZE < size := by
          simp only [ANLOGIC_JTAG_MAX_XFER_SIZE] at *; omega
        obtain ⟨L, hL, hlen, hs⟩ := ih _ hlt (buf.drop ANLOGIC_JTAG_MAX_XFER_SIZE)
          (anlogic_usb_xfer dev c buf [] none ANLOGIC_JTAG_MAX_XFER_SIZE).cable
        refine ⟨anlogic_pack buf ANLOGIC_JTAG_MAX_XFER_SIZE :: L, ?_, ?_, ?_⟩
        · rw [hL, anlogic_usb_xfer_sent, List.append_assoc]; rfl
        · rw [List.length_cons, hlen, anlogic_chunks_step size h1]
        · rw [List.flatMap_cons, hs, anlogic_nibbles_pack, anlogic_chunks_step size h1,
            Nat.mul_add, Nat.mul_one, Nat.add_comm _ ANLOGIC_JTAG_MAX_XFER_SIZE, range_add_map]
          refine congrArg₂ (fun a b => a ++ b) ?_ ?_
          · apply List.map_congr_left
            intro g hg
            exact anlogic_cell_full buf size g h1 (List.mem_range.mp hg)
          · apply List.map_congr_left
            intro g _
            exact anlogic_cell_drop buf size g h1
      · simp only [h1, ↓reduceIte, Nat.sub_self]
        rw [anlogic_clock_loop]
        simp only [gt_iff_lt, lt_self_iff_false, ↓reduceIte]
        refine ⟨[anlogic_pack buf size], ?_, ?_, ?_⟩
        · rw [anlogic_usb_xfer_sent]
        · rw [anlogic_chunks_one size h0 h1]; rfl
        · rw [anlogic_chunks_one size h0 h1, Nat.mul_one]
          simp [anlogic_nibbles_pack]
    · have : size = 0 := by omega
      subst this
      simp only [gt_iff_lt, lt_self_iff_false, ↓reduceIte]
      refine ⟨[], by simp, by decide, ?_⟩
      have : anlogic_chunks 0 = 0 := by decide
      rw [this]
      rfl

/-! ### Rising edges of a cell stream -/

theorem filter_range_eq_map (M n : Nat) (e : Nat → Nat) (p : Nat → Bool) (he : StrictMono e)
    (hp : ∀ g, g < M → (p g = true ↔ ∃ k, k < n ∧ e k = g)) (hM : ∀ k, k < n → e k < M) :
    (List.range M).filter p = (List.range n).map e := by
  have s1 : ((List.range M).filter p).Sorted (· < ·) := (List.sorted_lt_range M).filter _
  have s2 : ((List.range n).map e).Sorted (· < ·) := by
    unfold List.Sorted
    rw [List.pairwise_map]
    exact (List.sorted_lt_range n).imp (fun h => he h)
  apply List.eq_of_perm_of_sorted _ s1 s2
  rw [List.perm_ext_iff_of_nodup s1.nodup s2.nodup]
  intro g
  simp only [List.mem_filter, List.mem_range, List.mem_map]
  constructor
  · rintro ⟨hg, hpg⟩
    exact (hp g hg).mp hpg
  · rintro ⟨k, hk, rfl⟩
    exact ⟨hM k hk, (hp _ (hM k hk)).mpr ⟨k, hk, rfl⟩⟩

theorem tck_rising_positions_map (N : Nat) (F : Nat → Nat) (n : Nat) (e : Nat → Nat)
    (he : StrictMono e)
    (hp : ∀ g, g + 1 < N → ((F g &&& ANLOGIC_JTAG_TCK = 0 ∧ F (g + 1) &&& ANLOGIC_JTAG_TCK ≠ 0) ↔
      ∃ k, k < n ∧ e k = g))
    (hM : ∀ k, k < n → e k + 1 < N) :
    tck_rising_positions ((List.range N).map F) = (List.range n).map (fun k => e k + 1) := by
  unfold tck_rising_positions
  simp only [List.length_map, List.length_range]
  rw [filter_range_eq_map (N - 1) n e _ he, List.map_map]
  · rfl
  · intro g hg
    have h1 : g < N := by omega
    have h2 : g + 1 < N := by omega
    simp only [List.length_map, List.length_range, List.getD_eq_getElem?_getD, List.getElem?_map,
      List.getElem?_range h1, List.getElem?_range h2, Option.map_some', Option.getD_some,
      Bool.and_eq_true, decide_eq_true_eq]
    exact hp g h2
  · intro k hk
    have := hM k hk
    omega

/-! ### C4 -/

theorem anlogic_clock_cell (tms tdi : Int) (n g : Nat) :
    anlogic_cell (anlogic_clock_buf tms tdi n) (n * 2 + 1) g =
      ((if tms ≠ 0 then 1 else 0) ||| (if tdi ≠ 0 then 2 else 0) |||
        (if g % 2 = 1 ∧ g ≤ 2 * n then 4 else 0)) := by
  unfold anlogic_cell anlogic_clock_buf
  have hidx : (if g ≥ n * 2 + 1 then n * 2 + 1 - 1 else g) < n * 2 + 1 := by
    split_ifs <;> omega
  rw [List.getD_eq_getElem?_getD, List.getElem?_map, List.getElem?_range hidx]
  simp only [Option.map_some', Option.getD_some, ANLOGIC_JTAG_TMS, ANLOGIC_JTAG_TDI,
    ANLOGIC_JTAG_TCK, ANLOGIC_JTAG_OUT_MASK]
  have hpar : ((if g ≥ n * 2 + 1 then n * 2 + 1 - 1 else g) % 2 ≠ 0) ↔ (g % 2 = 1 ∧ g ≤ 2 * n) := by
    split_ifs <;> omega
  simp only [hpar]
  split_ifs <;> decide

theorem anlogic_chunks_ge (size : Nat) :
    size ≤ ANLOGIC_JTAG_MAX_XFER_SIZE * anlogic_chunks size := by
  unfold anlogic_chunks
  simp only [ANLOGIC_JTAG_MAX_XFER_SIZE]
  omega

theorem anlogic_written_clock (dev : UsbDev) (c : AnlogicCable) (tms tdi : Int) (n : Nat) :
    anlogic_written c (anlogic_clock dev c tms tdi n) =
      (List.range (ANLOGIC_JTAG_MAX_XFER_SIZE * anlogic_chunks (n * 2 + 1))).map fun g =>
        ((if tms ≠ 0 then 1 else 0) ||| (if tdi ≠ 0 then 2 else 0) |||
          (if g % 2 = 1 ∧ g ≤ 2 * n then 4 else 0)) := by
  obtain ⟨L, hL, _, hs⟩ :=
    anlogic_clock_loop_sent dev (n * 2 + 1) (anlogic_clock_buf tms tdi n) c
  unfold anlogic_written anlogic_clock
  simp only
  rw [hL, List.drop_left, hs]
  apply List.map_congr_left
  intro g _
  exact anlogic_clock_cell tms tdi n g

theorem clock_cell_bits (tms tdi : Int) (b : Prop) [Decidable b] :
    let x := ((if tms ≠ 0 then 1 else 0) ||| (if tdi ≠ 0 then 2 else 0) ||| (if b then 4 else 0))
    (x &&& ANLOGIC_JTAG_TCK ≠ 0 ↔ b) ∧ (x &&& ANLOGIC_JTAG_TCK = 0 ↔ ¬ b) ∧
      (x &&& ANLOGIC_JTAG_TMS ≠ 0 ↔ tms ≠ 0) ∧ (x &&& ANLOGIC_JTAG_TDI ≠ 0 ↔ tdi ≠ 0) := by
  intro x
  simp only [x, ANLOGIC_JTAG_TCK, ANLOGIC_JTAG_TMS, ANLOGIC_JTAG_TDI]
  by_cases h1 : tms = 0 <;> by_cases h2 : tdi = 0 <;> by_cases h3 : b <;>
    simp only [h1, h2, h3, ne_eq, not_true_eq_false, not_false_eq_true, if_true, if_false,
      iff_true, iff_false, true_and, and_true] <;> decide

/-- C4.  The function `anlogic_clock` emits exactly `n` TCK pulses: for every `n`, `tms`,
`tdi`, every prior state and every device, the cell stream written over all chunks of the call
(1024 cells per chunk, padding included) has exactly `n` low-to-high TCK transitions, starts
and ends with TCK low, and every cell has its TMS bit set iff `tms != 0` and its TDI bit set
iff `tdi != 0`. -/
theorem anlogic_clock_emits_pulses (dev : UsbDev) (c : AnlogicCable) (tms tdi : Int) (n : Nat) :
    (anlogic_clock_stream dev c tms tdi n).length =
      ANLOGIC_JTAG_MAX_XFER_SIZE * anlogic_chunks (n * 2 + 1) ∧
    tck_rising_edges (anlogic_clock_stream dev c tms tdi n) = n ∧
    (∃ a, (anlogic_clock_stream dev c tms tdi n).head? = some a ∧
      a &&& ANLOGIC_JTAG_TCK = 0) ∧
    (∃ z, (anlogic_clock_stream dev c tms tdi n).getLast? = some z ∧
      z &&& ANLOGIC_JTAG_TCK = 0) ∧
    ∀ x ∈ anlogic_clock_stream dev c tms tdi n,
      ((x &&& ANLOGIC_JTAG_TMS ≠ 0) ↔ tms ≠ 0) ∧ ((x &&& ANLOGIC_JTAG_TDI ≠ 0) ↔ tdi ≠ 0) := by
  have hs : anlogic_clock_stream dev c tms tdi n = _ := anlogic_written_clock dev c tms tdi n
  have hN := anlogic_chunks_ge (n * 2 + 1)
  generalize ANLOGIC_JTAG_MAX_XFER_SIZE * anlogic_chunks (n * 2 + 1) = N at hs hN
  rw [hs]
  refine ⟨by simp, ?_, ?_, ?_, ?_⟩
  · unfold tck_rising_edges
    rw [tck_rising_positions_map N _ n (fun k => 2 * k)]
    · simp
    · intro a b hab
      simp only
      omega
    · intro g hg
      have b1 := (clock_cell_bits tms tdi (g % 2 = 1 ∧ g ≤ 2 * n)).2.1
      have b2 := (clock_cell_bits tms tdi ((g + 1) % 2 = 1 ∧ g + 1 ≤ 2 * n)).1
      rw [b2, b1]
      constructor
      · rintro ⟨h1, h2, h3⟩
        exact ⟨g / 2, by omega, by omega⟩
      · rintro ⟨k, hk, rfl⟩
        refine ⟨?_, ?_, ?_⟩ <;> omega
    · intro k hk
      omega
  · obtain ⟨N', rfl⟩ : ∃ N', N = N' + 1 := ⟨N - 1, by omega⟩
    refine ⟨_, by rw [List.range_succ_eq_map]; rfl, ?_⟩
    have b1 := (clock_cell_bits tms tdi (0 % 2 = 1 ∧ 0 ≤ 2 * n)).2.1
    refine b1.mpr ?_
    omega
  · obtain ⟨N', rfl⟩ : ∃ N', N = N' + 1 := ⟨N - 1, by omega⟩
    refine ⟨_, by rw [List.range_succ, List.map_append, List.map_singleton,
      List.getLast?_append, List.getLast?_singleton]; rfl, ?_⟩
    have b1 := (clock_cell_bits tms tdi (N' % 2 = 1 ∧ N' ≤ 2 * n)).2.1
    refine b1.mpr ?_
    omega
  · intro x hx
    simp only [List.mem_map, List.mem_range] at hx
    obtain ⟨g, _, rfl⟩ := hx
    have b := clock_cell_bits tms tdi (g % 2 = 1 ∧ g ≤ 2 * n)
    exact ⟨b.2.2.1, b.2.2.2⟩

/-! ### The packing loop of `dirtyjtag_transfer`, bit by bit -/

theorem shift_0x80 (k : Nat) (hk : k < 8) : 0x80 >>> k = 2 ^ (7 - k) := by
  interval_cases k <;> decide

theorem and_0x80_ne_zero (x k : Nat) (hk : k < 8) :
    x &&& (0x80 >>> k) ≠ 0 ↔ x.testBit (7 - k) = true := by
  rw [shift_0x80 k hk, ← Nat.one_shiftLeft]
  exact and_bit_ne_zero x (7 - k)

theorem dirtyjtag_pack_succ (inp : List Nat) (sb n : Nat) (pkt0 : List Nat) :
    dirtyjtag_pack inp sb (n + 1) pkt0 =
      (dirtyjtag_pack inp sb n pkt0).set (2 + n / 8)
        (((dirtyjtag_pack inp sb n pkt0).getD (2 + n / 8) 0 |||
          (if inp.getD (sb + n) 0 ≠ 0 then 0x80 >>> (n % 8) else 0)) % 256) := by
  unfold dirtyjtag_pack
  rw [List.range_succ, List.foldl_append]
  rfl

theorem dirtyjtag_pack_spec (inp : List Nat) (sb : Nat) (pkt0 : List Nat)
    (hlen : pkt0.length = 32) (hz : ∀ j, 2 ≤ j → pkt0.getD j 0 = 0) :
    ∀ n, n ≤ 240 →
      (dirtyjtag_pack inp sb n pkt0).length = 32 ∧
      (dirtyjtag_pack inp sb n pkt0).getD 0 0 = pkt0.getD 0 0 ∧
      (dirtyjtag_pack inp sb n pkt0).getD 1 0 = pkt0.getD 1 0 ∧
      ∀ j b, j < 30 → b < 8 →
        (((dirtyjtag_pack inp sb n pkt0).getD (2 + j) 0).testBit (7 - b) = true ↔
          (8 * j + b < n ∧ inp.getD (sb + (8 * j + b)) 0 ≠ 0)) := by
  intro n
  induction n with
  | zero =>
    intro _
    refine ⟨hlen, rfl, rfl, ?_⟩
    intro j b _ _
    have : (dirtyjtag_pack inp sb 0 pkt0) = pkt0 := rfl
    rw [this, hz (2 + j) (by omega)]
    simp
  | succ n ih =>
    intro hn
    obtain ⟨h1, h2, h3, h4⟩ := ih (by omega)
    rw [dirtyjtag_pack_succ]
    have hidx : 2 + n / 8 < (dirtyjtag_pack inp sb n pkt0).length := by rw [h1]; omega
    refine ⟨by rw [List.length_set, h1], ?_, ?_, ?_⟩
    · rw [List.getD_eq_getElem?_getD, List.getElem?_set_ne (by omega),
        ← List.getD_eq_getElem?_getD, h2]
    · rw [List.getD_eq_getElem?_getD, List.getElem?_set_ne (by omega),
        ← List.getD_eq_getElem?_getD, h3]
    · intro j b hj hb
      by_cases hjn : j = n / 8
      · subst hjn
        rw [List.getD_eq_getElem?_getD, List.getElem?_set_self hidx, Option.getD_some,
          testBit_mod_256, Nat.testBit_or]
        have h8 : 7 - b < 8 := by omega
        have hw : (if inp.getD (sb + n) 0 ≠ 0 then 0x80 >>> (n % 8) else 0).testBit (7 - b) = true ↔
            (inp.getD (sb + n) 0 ≠ 0 ∧ b = n % 8) := by
          split_ifs with hi
          · rw [shift_0x80 _ (Nat.mod_lt _ (by decide)), Nat.testBit_two_pow]
            simp only [decide_eq_true_eq, ne_eq, hi, not_false_eq_true, true_and]
            omega
          · simp only [Nat.zero_testBit, Bool.false_eq_true, false_iff, not_and]
            intro h
            exact absurd h hi
        simp only [h8, decide_True, Bool.true_and, Bool.or_eq_true, h4 _ b hj hb, hw]
        constructor
        · rintro (⟨ha, hb'⟩ | ⟨ha, hb'⟩)
          · exact ⟨by omega, hb'⟩
          · have e : 8 * (n / 8) + b = n := by omega
            rw [e]
            exact ⟨by omega, ha⟩
        · rintro ⟨ha, hb'⟩
          by_cases hlt : 8 * (n / 8) + b < n
          · exact Or.inl ⟨hlt, hb'⟩
          · have e : 8 * (n / 8) + b = n := by omega
            rw [e] at hb'
            exact Or.inr ⟨hb', by omega⟩
      · rw [List.getD_eq_getElem?_getD, List.getElem?_set_ne (by omega),
          ← List.getD_eq_getElem?_getD, h4 j b hj hb]
        have : 8 * j + b ≠ n := by omega
        constructor
        · rintro ⟨ha, hb'⟩; exact ⟨by omega, hb'⟩
        · rintro ⟨ha, hb'⟩; exact ⟨by omega, hb'⟩

theorem dirtyjtag_packet_spec (inp : List Nat) (sb bits : Nat) (hb : bits ≤ 240) :
    (dirtyjtag_packet inp sb bits).length = 32 ∧
    (dirtyjtag_packet inp sb bits).getD 0 0 = CMD_XFER ∧
    (dirtyjtag_packet inp sb bits).getD 1 0 = bits ∧
    ∀ i, i < bits →
      (((dirtyjtag_packet inp sb bits).getD (2 + i / 8) 0).testBit (7 - i % 8) = true ↔
        inp.getD (sb + i) 0 ≠ 0) := by
  have hlen : (((List.replicate 32 0).set 0 CMD_XFER).set 1 bits).length = 32 := by
    simp
  have hz : ∀ j, 2 ≤ j → (((List.replicate 32 0).set 0 CMD_XFER).set 1 bits).getD j 0 = 0 := by
    intro j hj
    rw [List.getD_eq_getElem?_getD, List.getElem?_set_ne (by omega),
      List.getElem?_set_ne (by omega)]
    by_cases h : j < 32
    · rw [List.getElem?_replicate_of_lt h]; rfl
    · rw [List.getElem?_eq_none (by simp; omega)]; rfl
  obtain ⟨h1, h2, h3, h4⟩ := dirtyjtag_pack_spec inp sb _ hlen hz bits hb
  refine ⟨h1, ?_, ?_, ?_⟩
  · unfold dirtyjtag_packet; rw [h2]; rfl
  · unfold dirtyjtag_packet; rw [h3]; rfl
  · intro i hi
    have := h4 (i / 8) (i % 8) (by omega) (Nat.mod_lt _ (by decide))
    unfold dirtyjtag_packet
    rw [this]
    have e : 8 * (i / 8) + i % 8 = i := by omega
    rw [e]
    constructor
    · exact fun h => h.2
    · exact fun h => ⟨hi, h⟩

theorem dirtyjtag_min_240 (len : Nat) : dirtyjtag_min 240 len % 256 = min 240 len := by
  unfold dirtyjtag_min
  split_ifs <;> omega

/-- The packets of a transfer of `len` bits starting at bit `sb`, as submitted (with the
0x00 that `dirtyjtag_send` appends). -/
theorem dirtyjtag_transfer_loop_ok (dev : DirtyDev) (inp : List Nat) :
    ∀ (k len sb : Nat) (out : Option (List Nat)) (c : DirtyCable),
      k = (len + 239) / 240 → (∀ j, j < k → dev.read_result (c.reads + j) = 0) →
      (dirtyjtag_transfer_loop dev inp k len sb out c).early = false ∧
      (dirtyjtag_transfer_loop dev inp k len sb out c).len = 0 ∧
      (dirtyjtag_transfer_loop dev inp k len sb out c).cable.current_signals =
        c.current_signals ∧
      (dirtyjtag_transfer_loop dev inp k len sb out c).cable.reads = c.reads + k ∧
      (dirtyjtag_transfer_loop dev inp k len sb out c).cable.sent =
        c.sent ++ (List.range k).map
          (fun j => dirtyjtag_packet inp (sb + 240 * j) (min 240 (len - 240 * j)) ++ [0x00]) := by
  intro k
  induction k with
  | zero =>
    intro len sb out c hk _
    have : len = 0 := by omega
    subst this
    simp [dirtyjtag_transfer_loop]
  | succ k ih =>
    intro len sb out c hk hr
    have h0 : dev.read_result c.reads = 0 := by simpa using hr 0 (by omega)
    have hbits := dirtyjtag_min_240 len
    have hlen32 := (dirtyjtag_packet_spec inp sb (min 240 len) (by omega)).1
    have ih' := ih (len - min 240 len) (sb + min 240 len)
      (out.map (dirtyjtag_unpack ((dev.read_data c.reads).take 32) sb (min 240 len)))
      { current_signals := c.current_signals,
        sent := c.sent ++ [List.take 32 (dirtyjtag_packet inp sb (min 240 len)) ++ [0x00]],
        reads := c.reads + 1 }
      (by omega)
      (by intro j hj; have := hr (j + 1) (by omega); simpa [Nat.add_assoc, Nat.add_comm 1 j] using this)
    have hstep : dirtyjtag_transfer_loop dev inp (k + 1) len sb out c =
        dirtyjtag_transfer_loop dev inp k (len - min 240 len) (sb + min 240 len)
          (out.map (dirtyjtag_unpack ((dev.read_data c.reads).take 32) sb (min 240 len)))
          { current_signals := c.current_signals,
            sent := c.sent ++ [List.take 32 (dirtyjtag_packet inp sb (min 240 len)) ++ [0x00]],
            reads := c.reads + 1 } := by
      simp only [dirtyjtag_transfer_loop, dirtyjtag_read, dirtyjtag_send, hbits, h0, ne_eq,
        not_true_eq_false, ↓reduceIte, dirtyjtag_packet]
    rw [hstep]
    obtain ⟨i1, i2, i3, i4, i5⟩ := ih'
    refine ⟨i1, i2, i3, ?_, ?_⟩
    · rw [i4]; simp only; omega
    · rw [i5]
      have hm : List.map
          (fun j => dirtyjtag_packet inp (sb + min 240 len + 240 * j)
            (min 240 (len - min 240 len - 240 * j)) ++ [0x00]) (List.range k) =
          List.map ((fun j => dirtyjtag_packet inp (sb + 240 * j) (min 240 (len - 240 * j)) ++
            [0x00]) ∘ Nat.succ) (List.range k) := by
        apply List.map_congr_left
        intro j hj
        have hj' := List.mem_range.mp hj
        have hbig : 240 < len := by omega
        have e1 : sb + min 240 len + 240 * j = sb + 240 * (j + 1) := by omega
        have e2 : min 240 (len - min 240 len - 240 * j) = min 240 (len - 240 * (j + 1)) := by
          omega
        simp only [Function.comp, Nat.succ_eq_add_one, e1, e2]
      rw [hm, List.range_succ_eq_map, List.map_cons, List.map_map,
        List.take_of_length_le (by omega)]
      simp only [List.append_assoc, List.singleton_append, Nat.mul_zero, Nat.add_zero,
        Nat.sub_zero]

/-! ### C6 -/

theorem sum_chunk_sizes : ∀ (k len : Nat), k = (len + 239) / 240 →
    ((List.range k).map (fun j => min 240 (len - 240 * j))).sum = len := by
  intro k
  induction k with
  | zero =>
    intro len h
    have : len = 0 := by omega
    subst this
    rfl
  | succ k ih =>
    intro len h
    rw [List.range_succ_eq_map, List.map_cons, List.map_map, List.sum_cons]
    have hm : List.map ((fun j => min 240 (len - 240 * j)) ∘ Nat.succ) (List.range k) =
        List.map (fun j => min 240 (len - 240 - 240 * j)) (List.range k) := by
      apply List.map_congr_left
      intro j _
      simp only [Function.comp, Nat.succ_eq_add_one]
      omega
    rw [hm, ih (len - 240) (by omega)]
    omega

theorem dirtyjtag_transfer_ok (P : PodSig) (dev : DirtyDev) (c : DirtyCable) (len : Nat)
    (inp : List Nat) (out : Option (List Nat))
    (hok : ∀ j, j < (len + 239) / 240 → dev.read_result (c.reads + j) = 0) :
    (dirtyjtag_transfer P dev c len inp out).result = 0 ∧
    dirty_written c (dirtyjtag_transfer P dev c len inp out).cable =
      (List.range ((len + 239) / 240)).map
        (fun j => dirtyjtag_packet inp (240 * j) (min 240 (len - 240 * j)) ++ [0x00]) := by
  have hk : ((len + 7) / 8 + 29) / 30 = (len + 239) / 240 := by omega
  obtain ⟨h1, h2, _, _, h5⟩ :=
    dirtyjtag_transfer_loop_ok dev inp ((len + 239) / 240) len 0 out c rfl hok
  unfold dirtyjtag_transfer dirty_written
  simp only [hk, h1, h2, h5, Bool.false_eq_true, ↓reduceIte, List.drop_left, Nat.zero_add,
    Nat.cast_zero, and_self]

/-- C6.  Full completion of `dirtyjtag_transfer`: when every bulk read of the call succeeds,
the call returns 0, the bit-count bytes `packet[1]` of the packets it sends add up to `len`,
every packet is a CMD_XFER packet, and packet `k` has bit count `min 240 (len - 240 k)` and
carries the input bits `240 k + i`, `i < min 240 (len - 240 k)`, in order, most significant
bit of each payload byte first. -/
theorem dirtyjtag_transfer_completes (P : PodSig) (dev : DirtyDev) (c : DirtyCable) (len : Nat)
    (inp : List Nat) (out : Option (List Nat))
    (hok : ∀ j, j < (len + 239) / 240 → dev.read_result (c.reads + j) = 0) :
    (dirtyjtag_transfer P dev c len inp out).result = 0 ∧
    ((dirtyjtag_transfer_packets P dev c len inp out).map (fun p => p.getD 1 0)).sum = len ∧
    (∀ p ∈ dirtyjtag_transfer_packets P dev c len inp out, p.getD 0 0 = CMD_XFER) ∧
    ∀ k, 240 * k < len → ∃ p, (dirtyjtag_transfer_packets P dev c len inp out)[k]? = some p ∧
        p.getD 1 0 = min 240 (len - 240 * k) ∧
        ∀ i, i < min 240 (len - 240 * k) →
          ((p.getD (2 + i / 8) 0).testBit (7 - i % 8) = true ↔ inp.getD (240 * k + i) 0 ≠ 0) := by
  generalize hpk' : dirtyjtag_transfer_packets P dev c len inp out = pkts
  obtain ⟨hr, hp⟩ := dirtyjtag_transfer_ok P dev c len inp out hok
  have hpk : pkts = (List.range ((len + 239) / 240)).map
      (fun j => dirtyjtag_packet inp (240 * j) (min 240 (len - 240 * j)) ++ [0x00]) := by
    rw [← hpk']
    exact hp
  have hget : ∀ (j idx : Nat), idx < 32 →
      (dirtyjtag_packet inp (240 * j) (min 240 (len - 240 * j)) ++ [0x00]).getD idx 0 =
        (dirtyjtag_packet inp (240 * j) (min 240 (len - 240 * j))).getD idx 0 := by
    intro j idx hidx
    have hl := (dirtyjtag_packet_spec inp (240 * j) (min 240 (len - 240 * j)) (by omega)).1
    rw [List.getD_eq_getElem?_getD, List.getD_eq_getElem?_getD,
      List.getElem?_append_left (by omega)]
  refine ⟨hr, ?_, ?_, ?_⟩
  · rw [hpk, List.map_map]
    have hm : List.map ((fun p => p.getD 1 0) ∘ fun j =>
          dirtyjtag_packet inp (240 * j) (min 240 (len - 240 * j)) ++ [0x00])
          (List.range ((len + 239) / 240)) =
        List.map (fun j => min 240 (len - 240 * j)) (List.range ((len + 239) / 240)) := by
      apply List.map_congr_left
      intro j _
      simp only [Function.comp]
      rw [hget j 1 (by omega)]
      exact (dirtyjtag_packet_spec inp (240 * j) (min 240 (len - 240 * j)) (by omega)).2.2.1
    rw [hm]
    exact sum_chunk_sizes _ len rfl
  · intro p hp'
    rw [hpk] at hp'
    simp only [List.mem_map, List.mem_range] at hp'
    obtain ⟨j, _, rfl⟩ := hp'
    rw [hget j 0 (by omega)]
    exact (dirtyjtag_packet_spec inp (240 * j) (min 240 (len - 240 * j)) (by omega)).2.1
  · intro k hk
    have hkl : k < (len + 239) / 240 := by omega
    refine ⟨dirtyjtag_packet inp (240 * k) (min 240 (len - 240 * k)) ++ [0x00], ?_, ?_, ?_⟩
    · rw [hpk, List.getElem?_map, List.getElem?_range hkl]
      rfl
    · rw [hget k 1 (by omega)]
      exact (dirtyjtag_packet_spec inp (240 * k) (min 240 (len - 240 * k)) (by omega)).2.2.1
    · intro i hi
      rw [hget k (2 + i / 8) (by omega)]
      exact (dirtyjtag_packet_spec inp (240 * k) (min 240 (len - 240 * k)) (by omega)).2.2.2 i hi

/-! ### The unpacking loop of `dirtyjtag_transfer` and C9 -/

theorem dirtyjtag_unpack_succ (resp : List Nat) (sb n : Nat) (out : List Nat) :
    dirtyjtag_unpack resp sb (n + 1) out =
      (dirtyjtag_unpack resp sb n out).set (sb + n)
        (if resp.getD (n / 8) 0 &&& (0x80 >>> (n % 8)) ≠ 0 then 1 else 0) := by
  unfold dirtyjtag_unpack
  rw [List.range_succ, List.foldl_append]
  rfl

theorem dirtyjtag_unpack_spec (resp : List Nat) (sb : Nat) (out : List Nat) :
    ∀ n, sb + n ≤ out.length →
      (dirtyjtag_unpack resp sb n out).length = out.length ∧
      (∀ i, i < n → (dirtyjtag_unpack resp sb n out).getD (sb + i) 0 =
        if (resp.getD (i / 8) 0).testBit (7 - i % 8) = true then 1 else 0) ∧
      (∀ idx, idx < sb ∨ sb + n ≤ idx →
        (dirtyjtag_unpack resp sb n out).getD idx 0 = out.getD idx 0) := by
  intro n
  induction n with
  | zero =>
    intro _
    exact ⟨rfl, fun i hi => absurd hi (Nat.not_lt_zero i), fun _ _ => rfl⟩
  | succ n ih =>
    intro hn
    obtain ⟨h1, h2, h3⟩ := ih (by omega)
    rw [dirtyjtag_unpack_succ]
    have hidx : sb + n < (dirtyjtag_unpack resp sb n out).length := by rw [h1]; omega
    refine ⟨by rw [List.length_set, h1], ?_, ?_⟩
    · intro i hi
      by_cases hin : i = n
      · subst hin
        rw [List.getD_eq_getElem?_getD, List.getElem?_set_self hidx, Option.getD_some]
        have := and_0x80_ne_zero (resp.getD (i / 8) 0) (i % 8) (Nat.mod_lt _ (by decide))
        simp only [this]
      · rw [List.getD_eq_getElem?_getD, List.getElem?_set_ne (by omega),
          ← List.getD_eq_getElem?_getD]
        exact h2 i (by omega)
    · intro idx hidx'
      rw [List.getD_eq_getElem?_getD, List.getElem?_set_ne (by omega),
        ← List.getD_eq_getElem?_getD]
      exact h3 idx (by omega)

theorem dirtyjtag_transfer_loop_out (dev : DirtyDev) (inp : List Nat) :
    ∀ (k len sb : Nat) (o : List Nat) (c : DirtyCable),
      k = (len + 239) / 240 → sb + len ≤ o.length →
      (∀ j, j < k → dev.read_result (c.reads + j) = 0) →
      (∀ j, j < k → ∀ b, b < 30 → (dev.read_data (c.reads + j)).getD b 0 =
        (dirtyjtag_packet inp (sb + 240 * j) (min 240 (len - 240 * j))).getD (2 + b) 0) →
      ∃ o', (dirtyjtag_transfer_loop dev inp k len sb (some o) c).out = some o' ∧
        o'.length = o.length ∧
        (∀ idx, idx < sb → o'.getD idx 0 = o.getD idx 0) ∧
        ∀ i, i < len → o'.getD (sb + i) 0 = if inp.getD (sb + i) 0 ≠ 0 then 1 else 0 := by
  intro k
  induction k with
  | zero =>
    intro len sb o c hk _ _ _
    have : len = 0 := by omega
    subst this
    exact ⟨o, rfl, rfl, fun _ _ => rfl, fun i hi => absurd hi (Nat.not_lt_zero i)⟩
  | succ k ih =>
    intro len sb o c hk hlen hr hd
    have h0 : dev.read_result c.reads = 0 := by simpa using hr 0 (by omega)
    have hbits := dirtyjtag_min_240 len
    obtain ⟨u1, u2, u3⟩ := dirtyjtag_unpack_spec ((dev.read_data c.reads).take 32) sb o
      (min 240 len) (by omega)
    have ih' := ih (len - min 240 len) (sb + min 240 len)
      (dirtyjtag_unpack ((dev.read_data c.reads).take 32) sb (min 240 len) o)
      { current_signals := c.current_signals,
        sent := c.sent ++ [List.take 32 (dirtyjtag_packet inp sb (min 240 len)) ++ [0x00]],
        reads := c.reads + 1 }
      (by omega) (by rw [u1]; omega)
      (by intro j hj; have := hr (j + 1) (by omega); simpa [Nat.add_assoc, Nat.add_comm 1 j] using this)
      (by
        intro j hj b hb
        have := hd (j + 1) (by omega) b hb
        have hbig : 240 < len := by omega
        have e1 : sb + min 240 len + 240 * j = sb + 240 * (j + 1) := by omega
        have e2 : min 240 (len - min 240 len - 240 * j) = min 240 (len - 240 * (j + 1)) := by
          omega
        rw [e1, e2, ← this]
        simp only [Nat.add_assoc, Nat.add_comm 1 j])
    have hstep : dirtyjtag_transfer_loop dev inp (k + 1) len sb (some o) c =
        dirtyjtag_transfer_loop dev inp k (len - min 240 len) (sb + min 240 len)
          (some (dirtyjtag_unpack ((dev.read_data c.reads).take 32) sb (min 240 len) o))
          { current_signals := c.current_signals,
            sent := c.sent ++ [List.take 32 (dirtyjtag_packet inp sb (min 240 len)) ++ [0x00]],
            reads := c.reads + 1 } := by
      simp only [dirtyjtag_transfer_loop, dirtyjtag_read, dirtyjtag_send, hbits, h0, ne_eq,
        not_true_eq_false, ↓reduceIte, dirtyjtag_packet, Option.map_some']
    rw [hstep]
    obtain ⟨o', e1, e2, e3, e4⟩ := ih'
    refine ⟨o', e1, by rw [e2, u1], ?_, ?_⟩
    · intro idx hidx
      rw [e3 idx (by omega), u3 idx (Or.inl hidx)]
    · intro i hi
      by_cases hib : i < min 240 len
      · rw [e3 (sb + i) (by omega), u2 i hib]
        have hp := (dirtyjtag_packet_spec inp sb (min 240 len) (by omega)).2.2.2 i hib
        have hd0 := hd 0 (by omega) (i / 8) (by omega)
        simp only [Nat.add_zero, Nat.mul_zero, Nat.sub_zero] at hd0
        have ht : ((dev.read_data c.reads).take 32).getD (i / 8) 0 =
            (dev.read_data c.reads).getD (i / 8) 0 := by
          rw [List.getD_eq_getElem?_getD, List.getD_eq_getElem?_getD,
            List.getElem?_take_of_lt (by omega)]
        rw [ht, hd0]
        simp only [hp]
      · have := e4 (i - min 240 len) (by omega)
        have e : sb + min 240 len + (i - min 240 len) = sb + i := by omega
        rw [e] at this
        exact this

/-- C9.  Chunking of `dirtyjtag_transfer` is not observable: when `out` is supplied with
room for `len` cells and the device answers each packet of the call with a response that
has the bytes 0..29 (the read delivers at least 30 bytes) and whose bytes 0..29 are the
payload bytes 2..31 of that packet, then after the call `out[k] = (in[k] != 0 ? 1 : 0)` for
every `k < len`, whatever the number of packets. -/
theorem dirtyjtag_transfer_loopback (P : PodSig) (dev : DirtyDev) (c : DirtyCable) (len : Nat)
    (inp out : List Nat) (hout : len ≤ out.length)
    (hloop : ∀ j, j < (len + 239) / 240 →
      dev.read_result (c.reads + j) = 0 ∧
      30 ≤ (dev.read_data (c.reads + j)).length ∧
      ∀ b, b < 30 → (dev.read_data (c.reads + j)).getD b 0 =
        ((dirtyjtag_transfer_packets P dev c len inp (some out)).getD j []).getD (2 + b) 0) :
    ∃ o, (dirtyjtag_transfer P dev c len inp (some out)).out = some o ∧
      o.length = out.length ∧
      ∀ k, k < len → o.getD k 0 = if inp.getD k 0 ≠ 0 then 1 else 0 := by
  have hok : ∀ j, j < (len + 239) / 240 → dev.read_result (c.reads + j) = 0 :=
    fun j hj => (hloop j hj).1
  obtain ⟨_, hw⟩ := dirtyjtag_transfer_ok P dev c len inp (some out) hok
  have hd : ∀ j, j < (len + 239) / 240 → ∀ b, b < 30 → (dev.read_data (c.reads + j)).getD b 0 =
      (dirtyjtag_packet inp (0 + 240 * j) (min 240 (len - 240 * j))).getD (2 + b) 0 := by
    intro j hj b hb
    have hl := (dirtyjtag_packet_spec inp (240 * j) (min 240 (len - 240 * j)) (by omega)).1
    have hg : (List.map
        (fun j => dirtyjtag_packet inp (240 * j) (min 240 (len - 240 * j)) ++ [0x00])
        (List.range ((len + 239) / 240))).getD j [] =
        dirtyjtag_packet inp (240 * j) (min 240 (len - 240 * j)) ++ [0x00] := by
      rw [List.getD_eq_getElem?_getD, List.getElem?_map, List.getElem?_range hj]
      rfl
    rw [(hloop j hj).2.2 b hb, dirtyjtag_transfer_packets, hw, hg, Nat.zero_add, List.getD_eq_getElem?_getD,
      List.getD_eq_getElem?_getD, List.getElem?_append_left (by omega)]
  obtain ⟨o, e1, e2, _, e4⟩ :=
    dirtyjtag_transfer_loop_out dev inp ((len + 239) / 240) len 0 out c rfl (by omega) hok hd
  obtain ⟨l1, _⟩ :=
    dirtyjtag_transfer_loop_ok dev inp ((len + 239) / 240) len 0 (some out) c rfl hok
  have hk : ((len + 7) / 8 + 29) / 30 = (len + 239) / 240 := by omega
  refine ⟨o, ?_, e2, ?_⟩
  · unfold dirtyjtag_transfer
    simp only [hk, l1, e1, Bool.false_eq_true, ↓reduceIte]
  · intro k hk'
    have := e4 k hk'
    simpa only [Nat.zero_add] using this

/-- Witness of C9: three bits `101` through a device that echoes the payload. -/
theorem dirtyjtag_transfer_loopback_witness :
    ∃ o, (dirtyjtag_transfer urjPod dirty_echo_101 dirty_idle 3 [1, 0, 1] (some [0, 0, 0])).out =
        some o ∧ o.length = [0, 0, 0].length ∧
      ∀ k, k < 3 → o.getD k 0 = if [1, 0, 1].getD k 0 ≠ 0 then 1 else 0 :=
  dirtyjtag_transfer_loopback urjPod dirty_echo_101 dirty_idle 3 [1, 0, 1] [0, 0, 0]
    (by decide) (by decide)

/-- Witness of C6: three bits on a device whose transfers all succeed. -/
theorem dirtyjtag_transfer_completes_witness :
    (dirtyjtag_transfer urjPod dirty_all_ok dirty_idle 3 [1, 0, 1] none).result = 0 ∧
    ((dirtyjtag_transfer_packets urjPod dirty_all_ok dirty_idle 3 [1, 0, 1] none).map
      (fun p => p.getD 1 0)).sum = 3 ∧
    (∀ p ∈ dirtyjtag_transfer_packets urjPod dirty_all_ok dirty_idle 3 [1, 0, 1] none,
      p.getD 0 0 = CMD_XFER) ∧
    ∀ k, 240 * k < 3 →
      ∃ p, (dirtyjtag_transfer_packets urjPod dirty_all_ok dirty_idle 3 [1, 0, 1] none)[k]? =
          some p ∧
        p.getD 1 0 = min 240 (3 - 240 * k) ∧
        ∀ i, i < min 240 (3 - 240 * k) →
          ((p.getD (2 + i / 8) 0).testBit (7 - i % 8) = true ↔
            [1, 0, 1].getD (240 * k + i) 0 ≠ 0) :=
  dirtyjtag_transfer_completes urjPod dirty_all_ok dirty_idle 3 [1, 0, 1] none
    (fun _ _ => rfl)

/-- Witness of C2: mask TCK|TMS, value TCK, upstream bit assignment, idle driver. -/
theorem dirtyjtag_set_get_roundtrip_witness :
    urjPod.FitsByte ∧ dirty_idle.current_signals < 256 ∧
    dirtyjtag_get_signal (dirtyjtag_set_signal urjPod dirty_all_ok dirty_idle 6 2).2
        (6 &&& urjPod.all_lines) = 2 &&& 6 &&& urjPod.all_lines ∧
    ∀ i, (6 : Nat).testBit i = false →
      (dirtyjtag_set_signal urjPod dirty_all_ok dirty_idle 6 2).2.current_signals.testBit i =
        dirty_idle.current_signals.testBit i :=
  ⟨by decide, by decide,
    dirtyjtag_set_get_roundtrip urjPod (by decide) dirty_all_ok dirty_idle (by decide) 6 2⟩

/-! ### The chunk loop of `anlogic_transfer` -/

theorem anlogic_usb_xfer_result (dev : UsbDev) (c : AnlogicCable) (d mem : List Nat)
    (p : Option Nat) (l : Nat) :
    (anlogic_usb_xfer dev c d mem p l).result = anlogic_xfer_code (dev c.sent.length) := by
  unfold anlogic_usb_xfer anlogic_xfer_code
  simp only
  split_ifs <;> rfl

theorem anlogic_usb_xfer_mem_of_fail (dev : UsbDev) (c : AnlogicCable) (d mem : List Nat)
    (p : Option Nat) (l : Nat) (h : anlogic_xfer_code (dev c.sent.length) ≠ 0) :
    (anlogic_usb_xfer dev c d mem p l).mem = mem := by
  unfold anlogic_xfer_code at h
  unfold anlogic_usb_xfer
  simp only
  split_ifs with h1 h2
  · rfl
  · rfl
  · rw [if_neg h1] at h
    exact absurd h h2

theorem anlogic_chunks_pos (size : Nat) (h : 0 < size) : 0 < anlogic_chunks size := by
  unfold anlogic_chunks
  simp only [ANLOGIC_JTAG_MAX_XFER_SIZE]
  omega

theorem anlogic_chunks_big (size : Nat) (h : 1 < anlogic_chunks size) :
    ANLOGIC_JTAG_MAX_XFER_SIZE < size := by
  unfold anlogic_chunks at h
  simp only [ANLOGIC_JTAG_MAX_XFER_SIZE] at *
  omega

theorem anlogic_chunks_zero (size : Nat) (h : anlogic_chunks size = 0) : size = 0 := by
  unfold anlogic_chunks at h
  simp only [ANLOGIC_JTAG_MAX_XFER_SIZE] at *
  omega

/-- The transfer loop when every exchange succeeds. -/
theorem anlogic_transfer_loop_ok (dev : UsbDev) (size : Nat) :
    ∀ (buf res : List Nat) (off : Nat) (c : AnlogicCable),
      (∀ j, j < anlogic_chunks size → anlogic_xfer_code (dev (c.sent.length + j)) = 0) →
      (anlogic_transfer_loop dev buf res off size c).result = 0 ∧
      ∃ L, (anlogic_transfer_loop dev buf res off size c).cable.sent = c.sent ++ L ∧
        L.length = anlogic_chunks size ∧
        L.flatMap anlogic_nibbles =
          (List.range (ANLOGIC_JTAG_MAX_XFER_SIZE * anlogic_chunks size)).map
            (anlogic_cell buf size) := by
  induction size using Nat.strong_induction_on with
  | _ size ih =>
    intro buf res off c hok
    rw [anlogic_transfer_loop]
    by_cases h0 : size > 0
    · have hc0 : anlogic_xfer_code (dev c.sent.length) = 0 := by
        simpa using hok 0 (anlogic_chunks_pos size h0)
      simp only [h0, ↓reduceIte]
      by_cases h1 : size > ANLOGIC_JTAG_MAX_XFER_SIZE
      · simp only [h1, ↓reduceIte, anlogic_usb_xfer_result, hc0, ne_eq, not_true_eq_false]
        have hlt : size - ANLOGIC_JTAG_MAX_XFER_SIZE < size := by
          simp only [ANLOGIC_JTAG_MAX_XFER_SIZE] at *; omega
        obtain ⟨hres, L, hL, hlen, hs⟩ := ih _ hlt (buf.drop ANLOGIC_JTAG_MAX_XFER_SIZE)
          (anlogic_usb_xfer dev c buf res (some off) ANLOGIC_JTAG_MAX_XFER_SIZE).mem
          (off + ANLOGIC_JTAG_MAX_XFER_SIZE)
          (anlogic_usb_xfer dev c buf res (some off) ANLOGIC_JTAG_MAX_XFER_SIZE).cable
          (by
            intro j hj
            rw [anlogic_usb_xfer_sent, List.length_append, List.length_singleton, Nat.add_assoc,
              Nat.add_comm 1 j]
            apply hok
            rw [anlogic_chunks_step size h1]
            omega)
        refine ⟨hres, anlogic_pack buf ANLOGIC_JTAG_MAX_XFER_SIZE :: L, ?_, ?_, ?_⟩
        · rw [hL, anlogic_usb_xfer_sent, List.append_assoc]; rfl
        · rw [List.length_cons, hlen, anlogic_chunks_step size h1]
        · rw [List.flatMap_cons, hs, anlogic_nibbles_pack, anlogic_chunks_step size h1,
            Nat.mul_add, Nat.mul_one, Nat.add_comm _ ANLOGIC_JTAG_MAX_XFER_SIZE, range_add_map]
          refine congrArg₂ (fun a b => a ++ b) ?_ ?_
          · apply List.map_congr_left
            intro g hg
            exact anlogic_cell_full buf size g h1 (List.mem_range.mp hg)
          · apply List.map_congr_left
            intro g _
            exact anlogic_cell_drop buf size g h1
      · simp only [h1, ↓reduceIte, Nat.sub_self, anlogic_usb_xfer_result, hc0, ne_eq,
          not_true_eq_false]
        rw [anlogic_transfer_loop]
        simp only [gt_iff_lt, lt_self_iff_false, ↓reduceIte, true_and]
        refine ⟨[anlogic_pack buf size], ?_, ?_, ?_⟩
        · rw [anlogic_usb_xfer_sent]
        · rw [anlogic_chunks_one size h0 h1]; rfl
        · rw [anlogic_chunks_one size h0 h1, Nat.mul_one]
          simp [anlogic_nibbles_pack]
    · have : size = 0 := by omega
      subst this
      simp only [gt_iff_lt, lt_self_iff_false, ↓reduceIte, true_and]
      refine ⟨[], by simp, by decide, ?_⟩
      have : anlogic_chunks 0 = 0 := by decide
      rw [this]
      rfl

/-- The transfer loop when exchange `k` is the first to fail. -/
theorem anlogic_transfer_loop_fail (dev : UsbDev) (e : Int) (he : e ≠ 0) :
    ∀ (k size : Nat) (buf res : List Nat) (off : Nat) (c : AnlogicCable),
      k < anlogic_chunks size →
      (∀ j, j < k → anlogic_xfer_code (dev (c.sent.length + j)) = 0) →
      anlogic_xfer_code (dev (c.sent.length + k)) = e →
      (anlogic_transfer_loop dev buf res off size c).result = e ∧
      (anlogic_transfer_loop dev buf res off size c).cable.sent.length = c.sent.length + k + 1 := by
  intro k
  induction k with
  | zero =>
    intro size buf res off c hk _ hf
    have h0 : size > 0 := by
      by_contra h
      have : size = 0 := by omega
      subst this
      revert hk
      decide
    rw [anlogic_transfer_loop]
    simp only [h0, ↓reduceIte, anlogic_usb_xfer_result]
    rw [Nat.add_zero] at hf
    simp only [hf, ne_eq, he, not_false_eq_true, ↓reduceIte, anlogic_usb_xfer_result,
      anlogic_usb_xfer_sent, List.length_append, List.length_singleton, Nat.add_zero, and_self]
  | succ k ih =>
    intro size buf res off c hk hok hf
    have h1 : size > ANLOGIC_JTAG_MAX_XFER_SIZE := anlogic_chunks_big size (by omega)
    have h0 : size > 0 := by omega
    have hc0 : anlogic_xfer_code (dev c.sent.length) = 0 := by simpa using hok 0 (by omega)
    rw [anlogic_transfer_loop]
    simp only [h0, h1, ↓reduceIte, anlogic_usb_xfer_result, hc0, ne_eq, not_true_eq_false]
    have := ih (size - ANLOGIC_JTAG_MAX_XFER_SIZE) (buf.drop ANLOGIC_JTAG_MAX_XFER_SIZE)
      (anlogic_usb_xfer dev c buf res (some off) ANLOGIC_JTAG_MAX_XFER_SIZE).mem
      (off + ANLOGIC_JTAG_MAX_XFER_SIZE)
      (anlogic_usb_xfer dev c buf res (some off) ANLOGIC_JTAG_MAX_XFER_SIZE).cable
      (by rw [anlogic_chunks_step size h1] at hk; omega)
      (by
        intro j hj
        rw [anlogic_usb_xfer_sent, List.length_append, List.length_singleton, Nat.add_assoc,
          Nat.add_comm 1 j]
        exact hok (j + 1) (by omega))
      (by
        rw [anlogic_usb_xfer_sent, List.length_append, List.length_singleton, Nat.add_assoc,
          Nat.add_comm 1 k]
        exact hf)
    rw [anlogic_usb_xfer_sent, List.length_append, List.length_singleton] at this
    refine ⟨this.1, ?_⟩
    rw [this.2]
    omega

/-! ### C8 -/

/-- C8.  Error propagation of `anlogic_transfer`: if `anlogic_usb_xfer` returns a non-zero
code `e` for chunk `k` and 0 for all earlier chunks, then `anlogic_transfer` returns `e`, has
submitted exactly the chunks `0..k` (none after `k`) and leaves `out` as it was; if the
transfer of every chunk returns 0, `anlogic_transfer` returns 0. -/
theorem anlogic_transfer_error_propagation (dev : UsbDev) (c : AnlogicCable) (len : Nat)
    (inp : List Nat) (out : Option (List Nat)) :
    (∀ k e, k < anlogic_chunks (len * 3) →
      (∀ j, j < k → anlogic_xfer_code (dev (c.sent.length + j)) = 0) →
      anlogic_xfer_code (dev (c.sent.length + k)) = e → e ≠ 0 →
        (anlogic_transfer dev c len inp out).result = e ∧
        (anlogic_transfer dev c len inp out).cable.sent.length = c.sent.length + k + 1 ∧
        (anlogic_transfer dev c len inp out).out = out) ∧
    ((∀ j, j < anlogic_chunks (len * 3) →
        anlogic_xfer_code (dev (c.sent.length + j)) = 0) →
      (anlogic_transfer dev c len inp out).result = 0) := by
  constructor
  · intro k e hk hok hf he
    obtain ⟨h1, h2⟩ := anlogic_transfer_loop_fail dev e he k (len * 3)
      (anlogic_transfer_buf len inp) (List.replicate (len * 3) 0) 0 c hk hok hf
    unfold anlogic_transfer
    simp only [h1, ne_eq, he, not_false_eq_true, ↓reduceIte, h2, and_self]
  · intro hok
    obtain ⟨h1, _⟩ := anlogic_transfer_loop_ok dev (len * 3)
      (anlogic_transfer_buf len inp) (List.replicate (len * 3) 0) 0 c hok
    unfold anlogic_transfer
    simp only [h1, ne_eq, not_true_eq_false, ↓reduceIte, URJ_STATUS_OK]

/-- Witness of C8: a one-bit transfer whose first bulk read times out returns -7. -/
theorem anlogic_transfer_error_propagation_witness :
    (anlogic_transfer anlogic_read_fails anlogic_idle 1 [1] (some [0])).result = -7 ∧
    (anlogic_transfer anlogic_read_fails anlogic_idle 1 [1] (some [0])).cable.sent.length =
      anlogic_idle.sent.length + 0 + 1 ∧
    (anlogic_transfer anlogic_read_fails anlogic_idle 1 [1] (some [0])).out = some [0] :=
  (anlogic_transfer_error_propagation anlogic_read_fails anlogic_idle 1 [1] (some [0])).1 0 (-7)
    (by decide) (fun j hj => absurd hj (Nat.not_lt_zero j)) (by decide) (by decide)

/-! ### C10 -/

theorem anlogic_transfer_cell (len : Nat) (inp : List Nat) (g : Nat) (hlen : 1 ≤ len) :
    anlogic_cell (anlogic_transfer_buf len inp) (len * 3) g =
      ((if inp.getD ((if g ≥ len * 3 then len * 3 - 1 else g) / 3) 0 ≠ 0 then 2 else 0) |||
        (if g % 3 = 1 ∧ g < len * 3 then 4 else 0)) := by
  unfold anlogic_cell anlogic_transfer_buf
  generalize hidx : (if g ≥ len * 3 then len * 3 - 1 else g) = idx
  have hlt : idx < len * 3 := by
    rw [← hidx]; split_ifs <;> omega
  have hmod : (idx % 3 = 1) ↔ (g % 3 = 1 ∧ g < len * 3) := by
    rw [← hidx]; split_ifs <;> omega
  simp only [ANLOGIC_JTAG_TDI, ANLOGIC_JTAG_TCK, ANLOGIC_JTAG_OUT_MASK]
  rw [List.getD_eq_getElem?_getD, List.getElem?_set]
  simp only [List.length_map, List.length_range, List.getElem?_map, List.getElem?_range hlt,
    Option.map_some']
  by_cases hlast : len * 3 - 1 = idx
  · have h3 : idx / 3 = len - 1 := by omega
    have h4 : ¬ (idx % 3 = 1) := by omega
    have h5 : len * 3 - 1 < len * 3 := by omega
    simp only [hlast, hlt, ↓reduceIte, Option.getD_some, h3, ← hmod, h4]
    split_ifs <;> decide
  · simp only [hlast, ↓reduceIte, Option.getD_some, ← hmod]
    split_ifs <;> decide

theorem xfer_cell_bits (a b : Prop) [Decidable a] [Decidable b] :
    let x := ((if a then 2 else 0) ||| (if b then 4 else 0))
    (x &&& ANLOGIC_JTAG_TCK ≠ 0 ↔ b) ∧ (x &&& ANLOGIC_JTAG_TCK = 0 ↔ ¬ b) ∧
      x &&& ANLOGIC_JTAG_TMS = 0 ∧ (x &&& ANLOGIC_JTAG_TDI ≠ 0 ↔ a) := by
  intro x
  simp only [x, ANLOGIC_JTAG_TCK, ANLOGIC_JTAG_TMS, ANLOGIC_JTAG_TDI]
  by_cases h1 : a <;> by_cases h2 : b <;>
    simp only [h1, h2, ne_eq, not_true_eq_false, not_false_eq_true, if_true, if_false,
      iff_true, iff_false, true_and, and_true] <;> decide

/-- The cell stream of a transfer all of whose exchanges succeed. -/
theorem anlogic_written_transfer (dev : UsbDev) (c : AnlogicCable) (len : Nat)
    (inp : List Nat) (out : Option (List Nat)) (hlen : 1 ≤ len)
    (hok : ∀ j, j < anlogic_chunks (len * 3) →
      anlogic_xfer_code (dev (c.sent.length + j)) = 0) :
    anlogic_written c (anlogic_transfer dev c len inp out).cable =
      (List.range (ANLOGIC_JTAG_MAX_XFER_SIZE * anlogic_chunks (len * 3))).map fun g =>
        ((if inp.getD ((if g ≥ len * 3 then len * 3 - 1 else g) / 3) 0 ≠ 0 then 2 else 0) |||
          (if g % 3 = 1 ∧ g < len * 3 then 4 else 0)) := by
  obtain ⟨h1, L, hL, _, hs⟩ := anlogic_transfer_loop_ok dev (len * 3)
    (anlogic_transfer_buf len inp) (List.replicate (len * 3) 0) 0 c hok
  have hc : (anlogic_transfer dev c len inp out).cable =
      (anlogic_transfer_loop dev (anlogic_transfer_buf len inp) (List.replicate (len * 3) 0) 0
        (len * 3) c).cable := by
    unfold anlogic_transfer
    simp only [h1, ne_eq, not_true_eq_false, ↓reduceIte]
  unfold anlogic_written
  rw [hc, hL, List.drop_left, hs]
  apply List.map_congr_left
  intro g _
  exact anlogic_transfer_cell len inp g hlen

/-- C10, as amended.  When `len >= 1` and the USB exchange of every chunk returns 0, the
cell stream that `anlogic_transfer` writes over all chunks (padding of the last chunk
included) has exactly `len` low-to-high TCK transitions, the `k`-th of them at cell
`3 k + 1`; TMS is 0 in every cell; and the TDI bit of the cells `3 k`, `3 k + 1`, `3 k + 2`
(the rising edge of bit `k` and its two neighbours) is set iff `in[k] != 0`. -/
theorem anlogic_transfer_one_bit_per_pulse (dev : UsbDev) (c : AnlogicCable) (len : Nat)
    (inp : List Nat) (out : Option (List Nat)) (hlen : 1 ≤ len)
    (hok : ∀ j, j < anlogic_chunks (len * 3) →
      anlogic_xfer_code (dev (c.sent.length + j)) = 0) :
    (anlogic_transfer_stream dev c len inp out).length =
      ANLOGIC_JTAG_MAX_XFER_SIZE * anlogic_chunks (len * 3) ∧
    tck_rising_edges (anlogic_transfer_stream dev c len inp out) = len ∧
    tck_rising_positions (anlogic_transfer_stream dev c len inp out) =
      (List.range len).map (fun k => 3 * k + 1) ∧
    (∀ x ∈ anlogic_transfer_stream dev c len inp out, x &&& ANLOGIC_JTAG_TMS = 0) ∧
    ∀ k, k < len → ∀ d, d < 3 →
      ((anlogic_transfer_stream dev c len inp out).getD (3 * k + d) 0 &&& ANLOGIC_JTAG_TDI ≠ 0 ↔
        inp.getD k 0 ≠ 0) := by
  have hs : anlogic_transfer_stream dev c len inp out = _ :=
    anlogic_written_transfer dev c len inp out hlen hok
  generalize anlogic_transfer_stream dev c len inp out = s at hs ⊢
  have hN := anlogic_chunks_ge (len * 3)
  generalize ANLOGIC_JTAG_MAX_XFER_SIZE * anlogic_chunks (len * 3) = N at hs hN
  have hpos : tck_rising_positions s = (List.range len).map (fun k => 3 * k + 1) := by
    rw [hs, tck_rising_positions_map N _ len (fun k => 3 * k)]
    · intro a b hab
      simp only
      omega
    · intro g hg
      have b1 := (xfer_cell_bits
        (inp.getD ((if g ≥ len * 3 then len * 3 - 1 else g) / 3) 0 ≠ 0)
        (g % 3 = 1 ∧ g < len * 3)).2.1
      have b2 := (xfer_cell_bits
        (inp.getD ((if g + 1 ≥ len * 3 then len * 3 - 1 else g + 1) / 3) 0 ≠ 0)
        ((g + 1) % 3 = 1 ∧ g + 1 < len * 3)).1
      rw [b2, b1]
      constructor
      · rintro ⟨h1, h2, h3⟩
        exact ⟨g / 3, by omega, by omega⟩
      · rintro ⟨k, hk, rfl⟩
        refine ⟨?_, ?_, ?_⟩ <;> omega
    · intro k hk
      omega
  refine ⟨by rw [hs]; simp, ?_, hpos, ?_, ?_⟩
  · unfold tck_rising_edges
    rw [hpos]
    simp
  · intro x hx
    rw [hs] at hx
    simp only [List.mem_map, List.mem_range] at hx
    obtain ⟨g, _, rfl⟩ := hx
    exact (xfer_cell_bits _ _).2.2.1
  · intro k hk d hd
    have hg : 3 * k + d < N := by omega
    rw [hs, List.getD_eq_getElem?_getD, List.getElem?_map, List.getElem?_range hg]
    simp only [Option.map_some', Option.getD_some]
    rw [(xfer_cell_bits _ _).2.2.2]
    have e : (if 3 * k + d ≥ len * 3 then len * 3 - 1 else 3 * k + d) / 3 = k := by
      split_ifs <;> omega
    rw [e]

/-- Witness of C10 as amended: two bits on a device whose transfers all succeed. -/
theorem anlogic_transfer_one_bit_per_pulse_witness :
    (anlogic_transfer_stream anlogic_all_ok anlogic_idle 2 [1, 0] none).length =
      ANLOGIC_JTAG_MAX_XFER_SIZE * anlogic_chunks (2 * 3) ∧
    tck_rising_edges (anlogic_transfer_stream anlogic_all_ok anlogic_idle 2 [1, 0] none) = 2 ∧
    tck_rising_positions (anlogic_transfer_stream anlogic_all_ok anlogic_idle 2 [1, 0] none) =
      (List.range 2).map (fun k => 3 * k + 1) ∧
    (∀ x ∈ anlogic_transfer_stream anlogic_all_ok anlogic_idle 2 [1, 0] none,
      x &&& ANLOGIC_JTAG_TMS = 0) ∧
    ∀ k, k < 2 → ∀ d, d < 3 →
      ((anlogic_transfer_stream anlogic_all_ok anlogic_idle 2 [1, 0] none).getD (3 * k + d) 0 &&&
        ANLOGIC_JTAG_TDI ≠ 0 ↔ [1, 0].getD k 0 ≠ 0) :=
  anlogic_transfer_one_bit_per_pulse anlogic_all_ok anlogic_idle 2 [1, 0] none (by decide)
    (fun _ _ => rfl)

/-- The cell stream of a transfer of more than one chunk whose first exchange fails: the
first chunk only. -/
theorem anlogic_written_transfer_fail (dev : UsbDev) (c : AnlogicCable) (len : Nat)
    (inp : List Nat) (out : Option (List Nat))
    (hbig : ANLOGIC_JTAG_MAX_XFER_SIZE < len * 3)
    (hf : anlogic_xfer_code (dev c.sent.length) ≠ 0) :
    anlogic_written c (anlogic_transfer dev c len inp out).cable =
      (List.range ANLOGIC_JTAG_MAX_XFER_SIZE).map fun g =>
        ((if inp.getD ((if g ≥ len * 3 then len * 3 - 1 else g) / 3) 0 ≠ 0 then 2 else 0) |||
          (if g % 3 = 1 ∧ g < len * 3 then 4 else 0)) := by
  have hlen : 1 ≤ len := by
    have : ANLOGIC_JTAG_MAX_XFER_SIZE = 1024 := rfl
    omega
  have h0 : len * 3 > 0 := by omega
  have hloop : (anlogic_transfer_loop dev (anlogic_transfer_buf len inp)
      (List.replicate (len * 3) 0) 0 (len * 3) c) =
      anlogic_usb_xfer dev c (anlogic_transfer_buf len inp) (List.replicate (len * 3) 0)
        (some 0) ANLOGIC_JTAG_MAX_XFER_SIZE := by
    rw [anlogic_transfer_loop]
    simp only [h0, gt_iff_lt, hbig, ↓reduceIte, anlogic_usb_xfer_result, ne_eq, hf,
      not_false_eq_true]
  have hc : (anlogic_transfer dev c len inp out).cable =
      (anlogic_usb_xfer dev c (anlogic_transfer_buf len inp) (List.replicate (len * 3) 0)
        (some 0) ANLOGIC_JTAG_MAX_XFER_SIZE).cable := by
    unfold anlogic_transfer
    simp only [hloop, anlogic_usb_xfer_result, ne_eq, hf, not_false_eq_true, ↓reduceIte]
  unfold anlogic_written
  rw [hc, anlogic_usb_xfer_sent, List.drop_left, List.flatMap_cons, List.flatMap_nil,
    List.append_nil, anlogic_nibbles_pack]
  apply List.map_congr_left
  intro g hg
  rw [anlogic_cell_full _ (len * 3) g hbig (List.mem_range.mp hg)]
  exact anlogic_transfer_cell len inp g hlen

theorem anlogic_transfer_fail_edges (dev : UsbDev) (c : AnlogicCable) (len : Nat)
    (inp : List Nat) (out : Option (List Nat))
    (hbig : ANLOGIC_JTAG_MAX_XFER_SIZE < len * 3)
    (hf : anlogic_xfer_code (dev c.sent.length) ≠ 0) :
    tck_rising_edges (anlogic_written c (anlogic_transfer dev c len inp out).cable) = 341 := by
  have hM : ANLOGIC_JTAG_MAX_XFER_SIZE = 1024 := rfl
  unfold tck_rising_edges
  rw [anlogic_written_transfer_fail dev c len inp out hbig hf,
    tck_rising_positions_map ANLOGIC_JTAG_MAX_XFER_SIZE _ 341 (fun k => 3 * k)]
  · rw [List.length_map, List.length_range]
  · intro a b hab
    simp only
    omega
  · intro g hg
    have b1 := (xfer_cell_bits
      (inp.getD ((if g ≥ len * 3 then len * 3 - 1 else g) / 3) 0 ≠ 0)
      (g % 3 = 1 ∧ g < len * 3)).2.1
    have b2 := (xfer_cell_bits
      (inp.getD ((if g + 1 ≥ len * 3 then len * 3 - 1 else g + 1) / 3) 0 ≠ 0)
      ((g + 1) % 3 = 1 ∧ g + 1 < len * 3)).1
    rw [b2, b1]
    constructor
    · rintro ⟨h1, h2, h3⟩
      exact ⟨g / 3, by omega, by omega⟩
    · rintro ⟨k, hk, rfl⟩
      refine ⟨?_, ?_, ?_⟩ <;> omega
  · intro k hk
    omega

/-- C10, as stated, fails when an exchange fails: for `len = 342` (two chunks) on a device
whose bulk read times out, `anlogic_transfer` returns after the first chunk and the cell
stream it wrote does not have 342 low-to-high TCK transitions (it has 341). -/
theorem anlogic_transfer_truncated_on_failure :
    tck_rising_edges
      (anlogic_transfer_stream anlogic_read_fails anlogic_idle 342 (List.replicate 342 1) none)
      ≠ 342 := by
  rw [anlogic_transfer_stream, anlogic_transfer_fail_edges anlogic_read_fails anlogic_idle 342 _ none (by decide)
    (by decide)]
  decide

/-! ### The unpacking loop of `anlogic_usb_xfer` and C11 -/

theorem anlogic_unpack_spec (raw : List Nat) (off : Nat) (mem : List Nat) :
    ∀ n, off + n ≤ mem.length →
      ((List.range n).foldl (anlogic_unpack_step raw off) mem).length = mem.length ∧
      (∀ i, i < n → ((List.range n).foldl (anlogic_unpack_step raw off) mem).getD (off + i) 0 =
        if i % 2 ≠ 0 then (raw.getD (i / 2) 0 >>> 4) &&& 1 else raw.getD (i / 2) 0 &&& 1) ∧
      (∀ idx, idx < off ∨ off + n ≤ idx →
        ((List.range n).foldl (anlogic_unpack_step raw off) mem).getD idx 0 =
          mem.getD idx 0) := by
  intro n
  induction n with
  | zero =>
    intro _
    exact ⟨rfl, fun i hi => absurd hi (Nat.not_lt_zero i), fun _ _ => rfl⟩
  | succ n ih =>
    intro hn
    obtain ⟨h1, h2, h3⟩ := ih (by omega)
    rw [List.range_succ, List.foldl_append, List.foldl_cons, List.foldl_nil]
    generalize (List.range n).foldl (anlogic_unpack_step raw off) mem = m at h1 h2 h3
    have hidx : off + n < m.length := by rw [h1]; omega
    have hstep : anlogic_unpack_step raw off m n =
        m.set (off + n)
          (if n % 2 ≠ 0 then (raw.getD (n / 2) 0 >>> 4) &&& 1 else raw.getD (n / 2) 0 &&& 1) := by
      unfold anlogic_unpack_step
      split_ifs <;> rfl
    rw [hstep]
    refine ⟨by rw [List.length_set, h1], ?_, ?_⟩
    · intro i hi
      by_cases hin : i = n
      · subst hin
        rw [List.getD_eq_getElem?_getD, List.getElem?_set_self hidx, Option.getD_some]
      · rw [List.getD_eq_getElem?_getD, List.getElem?_set_ne (by omega),
          ← List.getD_eq_getElem?_getD]
        exact h2 i (by omega)
    · intro idx hidx'
      rw [List.getD_eq_getElem?_getD, List.getElem?_set_ne (by omega),
        ← List.getD_eq_getElem?_getD]
      exact h3 idx (by omega)

theorem anlogic_xfer_code_zero (r : UsbReply) (h : anlogic_xfer_code r = 0) :
    r.wres = 0 ∧ r.rres = 0 := by
  unfold anlogic_xfer_code at h
  split_ifs at h with h1
  · exact absurd h h1
  · exact ⟨not_not.mp h1, h⟩

theorem anlogic_usb_xfer_mem_of_ok (dev : UsbDev) (c : AnlogicCable) (d mem : List Nat)
    (off l : Nat) (h : anlogic_xfer_code (dev c.sent.length) = 0) :
    (anlogic_usb_xfer dev c d mem (some off) l).mem =
      (List.range l).foldl (anlogic_unpack_step (dev c.sent.length).data off) mem := by
  obtain ⟨h1, h2⟩ := anlogic_xfer_code_zero _ h
  unfold anlogic_usb_xfer
  simp only [h1, h2, ne_eq, not_true_eq_false, ↓reduceIte]

theorem and_0xF_and_one (x : Nat) : (x &&& 0xF) &&& 1 = x &&& 1 := by
  rw [Nat.and_assoc]
  rfl

theorem anlogic_reply_nibble_bit (dev : UsbDev) (first g : Nat)
    (hg : g < ANLOGIC_JTAG_MAX_XFER_SIZE) :
    anlogic_reply_nibble dev first g &&& 1 =
      if g % 2 ≠ 0 then ((dev first).data.getD (g / 2) 0 >>> 4) &&& 1
      else (dev first).data.getD (g / 2) 0 &&& 1 := by
  unfold anlogic_reply_nibble
  rw [Nat.mod_eq_of_lt hg, Nat.div_eq_of_lt hg, Nat.add_zero]
  by_cases h : g % 2 = 0
  · simp only [h, ↓reduceIte, ne_eq, not_true_eq_false, and_0xF_and_one]
  · simp only [h, ↓reduceIte, ne_eq, not_false_eq_true, and_0xF_and_one]

theorem anlogic_reply_nibble_shift (dev : UsbDev) (first g : Nat) :
    anlogic_reply_nibble dev (first + 1) g =
      anlogic_reply_nibble dev first (ANLOGIC_JTAG_MAX_XFER_SIZE + g) := by
  unfold anlogic_reply_nibble
  have e1 : (ANLOGIC_JTAG_MAX_XFER_SIZE + g) % ANLOGIC_JTAG_MAX_XFER_SIZE =
      g % ANLOGIC_JTAG_MAX_XFER_SIZE := by
    simp only [ANLOGIC_JTAG_MAX_XFER_SIZE]; omega
  have e2 : first + (ANLOGIC_JTAG_MAX_XFER_SIZE + g) / ANLOGIC_JTAG_MAX_XFER_SIZE =
      first + 1 + g / ANLOGIC_JTAG_MAX_XFER_SIZE := by
    simp only [ANLOGIC_JTAG_MAX_XFER_SIZE]; omega
  rw [e1, e2]

/-- The block `res_buf` after a transfer loop all of whose exchanges succeed. -/
theorem anlogic_transfer_loop_mem (dev : UsbDev) (size : Nat) :
    ∀ (buf res : List Nat) (off : Nat) (c : AnlogicCable),
      off + size ≤ res.length →
      (∀ j, j < anlogic_chunks size → anlogic_xfer_code (dev (c.sent.length + j)) = 0) →
      (anlogic_transfer_loop dev buf res off size c).mem.length = res.length ∧
      (∀ g, g < size → (anlogic_transfer_loop dev buf res off size c).mem.getD (off + g) 0 =
        anlogic_reply_nibble dev c.sent.length g &&& 1) ∧
      (∀ idx, idx < off →
        (anlogic_transfer_loop dev buf res off size c).mem.getD idx 0 = res.getD idx 0) := by
  induction size using Nat.strong_induction_on with
  | _ size ih =>
    intro buf res off c hroom hok
    have hM : ANLOGIC_JTAG_MAX_XFER_SIZE = 1024 := rfl
    rw [anlogic_transfer_loop]
    by_cases h0 : size > 0
    · have hc0 : anlogic_xfer_code (dev c.sent.length) = 0 := by
        simpa using hok 0 (anlogic_chunks_pos size h0)
      simp only [h0, ↓reduceIte]
      by_cases h1 : size > ANLOGIC_JTAG_MAX_XFER_SIZE
      · simp only [h1, ↓reduceIte, anlogic_usb_xfer_result, hc0, ne_eq, not_true_eq_false]
        obtain ⟨u1, u2, u3⟩ := anlogic_unpack_spec (dev c.sent.length).data off res
          ANLOGIC_JTAG_MAX_XFER_SIZE (by omega)
        rw [← anlogic_usb_xfer_mem_of_ok dev c buf res off _ hc0] at u1 u2 u3
        obtain ⟨i1, i2, i3⟩ := ih (size - ANLOGIC_JTAG_MAX_XFER_SIZE) (by omega)
          (buf.drop ANLOGIC_JTAG_MAX_XFER_SIZE)
          (anlogic_usb_xfer dev c buf res (some off) ANLOGIC_JTAG_MAX_XFER_SIZE).mem
          (off + ANLOGIC_JTAG_MAX_XFER_SIZE)
          (anlogic_usb_xfer dev c buf res (some off) ANLOGIC_JTAG_MAX_XFER_SIZE).cable
          (by rw [u1]; omega)
          (by
            intro j hj
            rw [anlogic_usb_xfer_sent, List.length_append, List.length_singleton, Nat.add_assoc,
              Nat.add_comm 1 j]
            apply hok
            rw [anlogic_chunks_step size h1]
            omega)
        rw [anlogic_usb_xfer_sent, List.length_append, List.length_singleton] at i2
        refine ⟨by rw [i1, u1], ?_, ?_⟩
        · intro g hg
          by_cases hgl : g < ANLOGIC_JTAG_MAX_XFER_SIZE
          · rw [i3 (off + g) (by omega), u2 g hgl, anlogic_reply_nibble_bit dev _ g hgl]
          · have := i2 (g - ANLOGIC_JTAG_MAX_XFER_SIZE) (by omega)
            rw [anlogic_reply_nibble_shift] at this
            have e : off + ANLOGIC_JTAG_MAX_XFER_SIZE + (g - ANLOGIC_JTAG_MAX_XFER_SIZE) =
                off + g := by omega
            have e' : ANLOGIC_JTAG_MAX_XFER_SIZE + (g - ANLOGIC_JTAG_MAX_XFER_SIZE) = g := by
              omega
            rw [e, e'] at this
            exact this
        · intro idx hidx
          rw [i3 idx (by omega), u3 idx (Or.inl hidx)]
      · simp only [h1, ↓reduceIte, Nat.sub_self, anlogic_usb_xfer_result, hc0, ne_eq,
          not_true_eq_false]
        rw [anlogic_transfer_loop]
        simp only [gt_iff_lt, lt_self_iff_false, ↓reduceIte]
        obtain ⟨u1, u2, u3⟩ := anlogic_unpack_spec (dev c.sent.length).data off res size hroom
        rw [← anlogic_usb_xfer_mem_of_ok dev c buf res off _ hc0] at u1 u2 u3
        refine ⟨u1, ?_, ?_⟩
        · intro g hg
          rw [u2 g hg, anlogic_reply_nibble_bit dev _ g (by omega)]
        · intro idx hidx
          exact u3 idx (Or.inl hidx)
    · have : size = 0 := by omega
      subst this
      simp only [gt_iff_lt, lt_self_iff_false, ↓reduceIte]
      exact ⟨trivial, fun g hg => absurd hg (Nat.not_lt_zero g), fun _ _ => trivial⟩

theorem copy_out_spec (mem : List Nat) :
    ∀ (n : Nat) (o : List Nat), n ≤ o.length →
      ((List.range n).foldl (fun o i => o.set i (mem.getD (i * 3) 0)) o).length = o.length ∧
      (∀ i, i < n →
        ((List.range n).foldl (fun o i => o.set i (mem.getD (i * 3) 0)) o).getD i 0 =
          mem.getD (i * 3) 0) ∧
      (∀ i, n ≤ i →
        ((List.range n).foldl (fun o i => o.set i (mem.getD (i * 3) 0)) o).getD i 0 =
          o.getD i 0) := by
  intro n
  induction n with
  | zero =>
    intro o _
    exact ⟨rfl, fun i hi => absurd hi (Nat.not_lt_zero i), fun _ _ => rfl⟩
  | succ n ih =>
    intro o hn
    obtain ⟨h1, h2, h3⟩ := ih o (by omega)
    rw [List.range_succ, List.foldl_append, List.foldl_cons, List.foldl_nil]
    generalize (List.range n).foldl (fun o i => o.set i (mem.getD (i * 3) 0)) o = m at h1 h2 h3
    have hidx : n < m.length := by rw [h1]; omega
    refine ⟨by rw [List.length_set, h1], ?_, ?_⟩
    · intro i hi
      by_cases hin : i = n
      · subst hin
        rw [List.getD_eq_getElem?_getD, List.getElem?_set_self hidx, Option.getD_some]
      · rw [List.getD_eq_getElem?_getD, List.getElem?_set_ne (by omega),
          ← List.getD_eq_getElem?_getD]
        exact h2 i (by omega)
    · intro i hi
      rw [List.getD_eq_getElem?_getD, List.getElem?_set_ne (by omega),
        ← List.getD_eq_getElem?_getD]
      exact h3 i (by omega)

/-- C11.  Reassembly of `anlogic_transfer` does not depend on the chunk boundaries: when
`len >= 1`, every exchange of the call succeeds and delivers a reply of 512 bytes, and `out`
is supplied with room for `len` cells, then after the call `out[i]`, for every `i < len`, is bit 0 of the response nibble of
global sub-step `3 i`, the nibble `3 i mod 1024` of the reply to chunk `3 i div 1024`, so
that the first `len` cells of `out` are what one unchunked transfer over the concatenated
response stream would produce; the
cells of `out` from `len` on are untouched.  (The call with `len = 0` is the subject
of C13.) -/
theorem anlogic_transfer_reassembles (dev : UsbDev) (c : AnlogicCable) (len : Nat)
    (inp out : List Nat) (_hlen : 1 ≤ len) (hout : len ≤ out.length)
    (hok : ∀ j, j < anlogic_chunks (len * 3) →
      anlogic_xfer_code (dev (c.sent.length + j)) = 0)
    (_hfull : ∀ j, j < anlogic_chunks (len * 3) →
      (dev (c.sent.length + j)).data.length = ANLOGIC_JTAG_MAX_XFER_SIZE / 2) :
    ∃ o, (anlogic_transfer dev c len inp (some out)).out = some o ∧
      o.length = out.length ∧
      (∀ i, i < len → o.getD i 0 = anlogic_reply_nibble dev c.sent.length (3 * i) &&& 1) ∧
      o.take len = anlogic_unchunked_out dev c.sent.length len ∧
      ∀ i, len ≤ i → o.getD i 0 = out.getD i 0 := by
  obtain ⟨h1, _⟩ := anlogic_transfer_loop_ok dev (len * 3)
    (anlogic_transfer_buf len inp) (List.replicate (len * 3) 0) 0 c hok
  obtain ⟨_, m2, _⟩ := anlogic_transfer_loop_mem dev (len * 3)
    (anlogic_transfer_buf len inp) (List.replicate (len * 3) 0) 0 c
    (by rw [List.length_replicate]; omega) hok
  obtain ⟨o1, o2, o3⟩ := copy_out_spec
    (anlogic_transfer_loop dev (anlogic_transfer_buf len inp) (List.replicate (len * 3) 0) 0
      (len * 3) c).mem len out hout
  have hbit : ∀ i, i < len →
      ((List.range len).foldl (fun o i => o.set i
        ((anlogic_transfer_loop dev (anlogic_transfer_buf len inp) (List.replicate (len * 3) 0) 0
          (len * 3) c).mem.getD (i * 3) 0)) out).getD i 0 =
        anlogic_reply_nibble dev c.sent.length (3 * i) &&& 1 := by
    intro i hi
    rw [o2 i hi]
    have := m2 (i * 3) (by omega)
    rw [Nat.zero_add] at this
    rw [this, Nat.mul_comm]
  refine ⟨_, ?_, o1, hbit, ?_, o3⟩
  · unfold anlogic_transfer
    simp only [h1, ne_eq, not_true_eq_false, ↓reduceIte]
  · unfold anlogic_unchunked_out
    apply List.ext_getElem
    · rw [List.length_take, o1, List.length_map, List.length_range]
      omega
    · intro i hi1 hi2
      rw [List.length_map, List.length_range] at hi2
      have hb := hbit i hi2
      rw [List.getD_eq_getElem?_getD, List.getElem?_eq_getElem (by rw [o1]; omega),
        Option.getD_some] at hb
      rw [List.getElem_take, hb, List.getElem_map, List.getElem_range]

/-- Witness of C11: two bits on a device whose transfers all succeed. -/
theorem anlogic_transfer_reassembles_witness :
    ∃ o, (anlogic_transfer anlogic_all_ok anlogic_idle 2 [1, 0] (some [5, 5, 5])).out = some o ∧
      o.length = [5, 5, 5].length ∧
      (∀ i, i < 2 →
        o.getD i 0 = anlogic_reply_nibble anlogic_all_ok anlogic_idle.sent.length (3 * i) &&& 1) ∧
      o.take 2 = anlogic_unchunked_out anlogic_all_ok anlogic_idle.sent.length 2 ∧
      ∀ i, 2 ≤ i → o.getD i 0 = [5, 5, 5].getD i 0 :=
  anlogic_transfer_reassembles anlogic_all_ok anlogic_idle 2 [1, 0] [5, 5, 5] (by decide)
    (by decide) (fun _ _ => rfl) (fun _ _ => List.length_replicate 512 0)

/-! ### C12, C14 -/

/-- C12.  Chunk count of `dirtyjtag_transfer`: when `len >= 1` and every bulk read of the
call succeeds, the number of packets sent is `ceil (len / 240)` (the least `n` with
`len <= 240 n`), every packet is a CMD_XFER packet that carries at least one bit, and for
`len = 240 k` with `k >= 1` exactly `k` packets are sent, each with bit count 240. -/
theorem dirtyjtag_transfer_chunk_count (P : PodSig) (dev : DirtyDev) (c : DirtyCable)
    (len : Nat) (inp : List Nat) (out : Option (List Nat)) (hlen : 1 ≤ len)
    (hok : ∀ j, j < (len + 239) / 240 → dev.read_result (c.reads + j) = 0) :
    (dirtyjtag_transfer_packets P dev c len inp out).length = (len + 239) / 240 ∧
    len ≤ 240 * (dirtyjtag_transfer_packets P dev c len inp out).length ∧
    240 * ((dirtyjtag_transfer_packets P dev c len inp out).length - 1) < len ∧
    (∀ p ∈ dirtyjtag_transfer_packets P dev c len inp out,
      p.getD 0 0 = CMD_XFER ∧ 1 ≤ p.getD 1 0) ∧
    ∀ k, 1 ≤ k → len = 240 * k →
      (dirtyjtag_transfer_packets P dev c len inp out).length = k ∧
      ∀ p ∈ dirtyjtag_transfer_packets P dev c len inp out, p.getD 1 0 = 240 := by
  obtain ⟨_, hp⟩ := dirtyjtag_transfer_ok P dev c len inp out hok
  have hpk : dirtyjtag_transfer_packets P dev c len inp out =
      (List.range ((len + 239) / 240)).map
        (fun j => dirtyjtag_packet inp (240 * j) (min 240 (len - 240 * j)) ++ [0x00]) := hp
  have hget : ∀ (j idx : Nat), idx < 32 →
      (dirtyjtag_packet inp (240 * j) (min 240 (len - 240 * j)) ++ [0x00]).getD idx 0 =
        (dirtyjtag_packet inp (240 * j) (min 240 (len - 240 * j))).getD idx 0 := by
    intro j idx hidx
    have hl := (dirtyjtag_packet_spec inp (240 * j) (min 240 (len - 240 * j)) (by omega)).1
    rw [List.getD_eq_getElem?_getD, List.getD_eq_getElem?_getD,
      List.getElem?_append_left (by omega)]
  have hlenp : (dirtyjtag_transfer_packets P dev c len inp out).length = (len + 239) / 240 := by
    rw [hpk, List.length_map, List.length_range]
  have hcnt : ∀ p ∈ dirtyjtag_transfer_packets P dev c len inp out,
      ∃ j, j < (len + 239) / 240 ∧ p.getD 0 0 = CMD_XFER ∧
        p.getD 1 0 = min 240 (len - 240 * j) := by
    intro p hp'
    rw [hpk] at hp'
    simp only [List.mem_map, List.mem_range] at hp'
    obtain ⟨j, hj, rfl⟩ := hp'
    have hs := dirtyjtag_packet_spec inp (240 * j) (min 240 (len - 240 * j)) (by omega)
    exact ⟨j, hj, by rw [hget j 0 (by omega)]; exact hs.2.1,
      by rw [hget j 1 (by omega)]; exact hs.2.2.1⟩
  refine ⟨hlenp, by rw [hlenp]; omega, by rw [hlenp]; omega, ?_, ?_⟩
  · intro p hp'
    obtain ⟨j, hj, h0, h1⟩ := hcnt p hp'
    exact ⟨h0, by rw [h1]; omega⟩
  · intro k hk hlk
    refine ⟨by rw [hlenp]; omega, ?_⟩
    intro p hp'
    obtain ⟨j, hj, _, h1⟩ := hcnt p hp'
    rw [h1]
    omega

/-- Witness of C12: 240 bits on a device whose transfers all succeed. -/
theorem dirtyjtag_transfer_chunk_count_witness :
    (dirtyjtag_transfer_packets urjPod dirty_all_ok dirty_idle 240 [] none).length =
      (240 + 239) / 240 ∧
    240 ≤ 240 * (dirtyjtag_transfer_packets urjPod dirty_all_ok dirty_idle 240 [] none).length ∧
    240 * ((dirtyjtag_transfer_packets urjPod dirty_all_ok dirty_idle 240 [] none).length - 1) <
      240 ∧
    (∀ p ∈ dirtyjtag_transfer_packets urjPod dirty_all_ok dirty_idle 240 [] none,
      p.getD 0 0 = CMD_XFER ∧ 1 ≤ p.getD 1 0) ∧
    ∀ k, 1 ≤ k → 240 = 240 * k →
      (dirtyjtag_transfer_packets urjPod dirty_all_ok dirty_idle 240 [] none).length = k ∧
      ∀ p ∈ dirtyjtag_transfer_packets urjPod dirty_all_ok dirty_idle 240 [] none,
        p.getD 1 0 = 240 :=
  dirtyjtag_transfer_chunk_count urjPod dirty_all_ok dirty_idle 240 [] none (by decide)
    (fun _ _ => rfl)

/-- C14.  A `dirtyjtag_transfer` of length 0 succeeds trivially: for every state, device,
`in` and `out` it returns 0, calls neither `dirtyjtag_send` (the trace of sent buffers is
unchanged) nor `dirtyjtag_read` (the count of reads is unchanged) and leaves `out` as it
was. -/
theorem dirtyjtag_transfer_zero (P : PodSig) (dev : DirtyDev) (c : DirtyCable)
    (inp : List Nat) (out : Option (List Nat)) :
    (dirtyjtag_transfer P dev c 0 inp out).result = 0 ∧
    (dirtyjtag_transfer P dev c 0 inp out).cable.sent = c.sent ∧
    (dirtyjtag_transfer P dev c 0 inp out).cable.reads = c.reads ∧
    (dirtyjtag_transfer P dev c 0 inp out).out = out :=
  ⟨rfl, rfl, rfl, rfl⟩

/-! ### C13 -/

/-- For `len >= 1` every index that `anlogic_transfer` uses on `in` and on `buf` while it
fills `buf` is within bounds. -/
theorem anlogic_transfer_indices_in_bounds (len : Nat) (hlen : 1 ≤ len) :
    (∀ idx ∈ anlogic_transfer_in_indices len, 0 ≤ idx ∧ idx < (len : Int)) ∧
    ∀ idx ∈ anlogic_transfer_buf_indices len, 0 ≤ idx ∧ idx < ((len * 3 : Nat) : Int) := by
  constructor
  · intro idx h
    simp only [anlogic_transfer_in_indices, List.mem_append, List.mem_map, List.mem_range,
      List.mem_singleton] at h
    rcases h with ⟨i, hi, rfl⟩ | rfl
    · have : i / 3 < len := by omega
      omega
    · omega
  · intro idx h
    simp only [anlogic_transfer_buf_indices, List.mem_append, List.mem_map, List.mem_range,
      List.mem_singleton] at h
    rcases h with ⟨i, hi, rfl⟩ | rfl
    · omega
    · omega

/-- C13, the code at the failing input.  For `len = 0` the call returns 0 and submits
nothing, but line 260, `buf[buf_size - 1] = in[len - 1] ? ... : 0`, reads `in` at index -1
and writes the empty `buf` at index -1. -/
theorem anlogic_transfer_zero_out_of_bounds (dev : UsbDev) (c : AnlogicCable)
    (inp : List Nat) (out : Option (List Nat)) :
    (anlogic_transfer dev c 0 inp out).result = 0 ∧
    (anlogic_transfer dev c 0 inp out).cable.sent = c.sent ∧
    anlogic_transfer_in_indices 0 = [-1] ∧
    anlogic_transfer_buf_indices 0 = [-1] := by
  have hloop : anlogic_transfer_loop dev (anlogic_transfer_buf 0 inp)
      (List.replicate (0 * 3) 0) 0 (0 * 3) c = ⟨0, List.replicate (0 * 3) 0, c⟩ := by
    rw [anlogic_transfer_loop]
    simp
  refine ⟨?_, ?_, by decide, by decide⟩
  · unfold anlogic_transfer
    simp only [hloop, ne_eq, not_true_eq_false, ↓reduceIte, URJ_STATUS_OK]
  · unfold anlogic_transfer
    simp only [hloop, ne_eq, not_true_eq_false, ↓reduceIte]

/-! ### C15, C16 -/

theorem anlogic_speed_rate_values :
    anlogic_speed_rate ANLOGIC_JTAG_SPEED_6M = 6000000 ∧
    anlogic_speed_rate ANLOGIC_JTAG_SPEED_3M = 3000000 ∧
    anlogic_speed_rate ANLOGIC_JTAG_SPEED_2M = 2000000 ∧
    anlogic_speed_rate ANLOGIC_JTAG_SPEED_1M = 1000000 ∧
    anlogic_speed_rate ANLOGIC_JTAG_SPEED_600K = 600000 ∧
    anlogic_speed_rate ANLOGIC_JTAG_SPEED_400K = 400000 ∧
    anlogic_speed_rate ANLOGIC_JTAG_SPEED_200K = 200000 ∧
    anlogic_speed_rate ANLOGIC_JTAG_SPEED_100K = 100000 ∧
    anlogic_speed_rate ANLOGIC_JTAG_SPEED_90K = 90000 := by
  decide

theorem anlogic_rates_forall (Q : Nat → Prop) :
    (∀ r ∈ anlogic_rates, Q r) ↔
      (Q 90000 ∧ Q 100000 ∧ Q 200000 ∧ Q 400000 ∧ Q 600000 ∧ Q 1000000 ∧ Q 2000000 ∧
        Q 3000000 ∧ Q 6000000) := by
  unfold anlogic_rates
  simp only [List.forall_mem_cons, List.not_mem_nil, false_implies, implies_true, and_true]

theorem anlogic_set_frequency_shape (f : Nat) :
    (anlogic_set_frequency f).length = 2 ∧
    (anlogic_set_frequency f).getD 0 0 = ANLOGIC_JTAG_JTAG_MODE ∧
    (anlogic_set_frequency f).getD 1 0 =
      (if f ≥ 6000000 then ANLOGIC_JTAG_SPEED_6M
      else if f ≥ 3000000 then ANLOGIC_JTAG_SPEED_3M
      else if f ≥ 2000000 then ANLOGIC_JTAG_SPEED_2M
      else if f ≥ 1000000 then ANLOGIC_JTAG_SPEED_1M
      else if f ≥ 600000 then ANLOGIC_JTAG_SPEED_600K
      else if f ≥ 400000 then ANLOGIC_JTAG_SPEED_400K
      else if f ≥ 200000 then ANLOGIC_JTAG_SPEED_200K
      else if f ≥ 100000 then ANLOGIC_JTAG_SPEED_100K
      else ANLOGIC_JTAG_SPEED_90K) :=
  ⟨rfl, rfl, rfl⟩

theorem anlogic_set_frequency_rate (f : Nat) :
    anlogic_speed_rate ((anlogic_set_frequency f).getD 1 0) =
      (if f ≥ 6000000 then 6000000
      else if f ≥ 3000000 then 3000000
      else if f ≥ 2000000 then 2000000
      else if f ≥ 1000000 then 1000000
      else if f ≥ 600000 then 600000
      else if f ≥ 400000 then 400000
      else if f ≥ 200000 then 200000
      else if f ≥ 100000 then 100000
      else 90000) := by
  obtain ⟨r6, r3, r2, r1, r600, r400, r200, r100, r90⟩ := anlogic_speed_rate_values
  rw [(anlogic_set_frequency_shape f).2.2]
  split_ifs
  · exact r6
  · exact r3
  · exact r2
  · exact r1
  · exact r600
  · exact r400
  · exact r200
  · exact r100
  · exact r90

theorem anlogic_set_frequency_rounds_down_aux (f : Nat) (hf : 90000 ≤ f) :
    anlogic_speed_rate ((anlogic_set_frequency f).getD 1 0) ≤ f := by
  have hrate := anlogic_set_frequency_rate f
  generalize anlogic_speed_rate ((anlogic_set_frequency f).getD 1 0) = rate at hrate ⊢
  split_ifs at hrate <;> omega

/-- C16.  The function `anlogic_set_frequency` rounds down to the nearest supported step:
for every request `f >= 90000` Hz the command sent is the JTAG mode byte followed by the
speed code of the greatest rate of {90k, 100k, 200k, 400k, 600k, 1M, 2M, 3M, 6M} that is
`<= f`; for `f = 150000` the code is 0xe8 (100 kHz). -/
theorem anlogic_set_frequency_rounds_down (f : Nat) (hf : 90000 ≤ f) :
    (anlogic_set_frequency f).length = 2 ∧
    (anlogic_set_frequency f).getD 0 0 = ANLOGIC_JTAG_JTAG_MODE ∧
    anlogic_speed_rate ((anlogic_set_frequency f).getD 1 0) ∈ anlogic_rates ∧
    anlogic_speed_rate ((anlogic_set_frequency f).getD 1 0) ≤ f ∧
    (∀ r ∈ anlogic_rates, r ≤ f → r ≤ anlogic_speed_rate ((anlogic_set_frequency f).getD 1 0)) ∧
    anlogic_set_frequency 150000 = [ANLOGIC_JTAG_JTAG_MODE, 0xe8] := by
  obtain ⟨s1, s2, _⟩ := anlogic_set_frequency_shape f
  have hmem : ∀ r ∈ anlogic_rates, r ∈ anlogic_rates := fun _ h => h
  rw [anlogic_rates_forall] at hmem
  obtain ⟨m90, m100, m200, m400, m600, m1, m2, m3, m6⟩ := hmem
  have hrate := anlogic_set_frequency_rate f
  rw [anlogic_rates_forall]
  refine ⟨s1, s2, ?_⟩
  generalize anlogic_speed_rate ((anlogic_set_frequency f).getD 1 0) = rate at hrate ⊢
  split_ifs at hrate <;> subst hrate <;>
    refine ⟨by assumption, by omega, ⟨?_, ?_, ?_, ?_, ?_, ?_, ?_, ?_, ?_⟩, by decide⟩ <;> omega

/-- Witness of C16: the request of 150000 Hz. -/
theorem anlogic_set_frequency_rounds_down_witness :
    (anlogic_set_frequency 150000).length = 2 ∧
    (anlogic_set_frequency 150000).getD 0 0 = ANLOGIC_JTAG_JTAG_MODE ∧
    anlogic_speed_rate ((anlogic_set_frequency 150000).getD 1 0) ∈ anlogic_rates ∧
    anlogic_speed_rate ((anlogic_set_frequency 150000).getD 1 0) ≤ 150000 ∧
    (∀ r ∈ anlogic_rates, r ≤ 150000 →
      r ≤ anlogic_speed_rate ((anlogic_set_frequency 150000).getD 1 0)) ∧
    anlogic_set_frequency 150000 = [ANLOGIC_JTAG_JTAG_MODE, 0xe8] :=
  anlogic_set_frequency_rounds_down 150000 (by decide)

/-- The byte in `command[1]` is one of the nine speed codes, for every request. -/
theorem anlogic_set_frequency_code_mem (f : Nat) :
    (anlogic_set_frequency f).getD 1 0 ∈
      [ANLOGIC_JTAG_SPEED_6M, ANLOGIC_JTAG_SPEED_3M, ANLOGIC_JTAG_SPEED_2M,
       ANLOGIC_JTAG_SPEED_1M, ANLOGIC_JTAG_SPEED_600K, ANLOGIC_JTAG_SPEED_400K,
       ANLOGIC_JTAG_SPEED_200K, ANLOGIC_JTAG_SPEED_100K, ANLOGIC_JTAG_SPEED_90K] := by
  rw [(anlogic_set_frequency_shape f).2.2]
  split_ifs <;> simp

/-- The nominal rate of the byte in `command[1]` is one of the nine rates, for every
request. -/
theorem anlogic_set_frequency_rate_mem (f : Nat) :
    anlogic_speed_rate ((anlogic_set_frequency f).getD 1 0) ∈ anlogic_rates := by
  rw [anlogic_set_frequency_rate]
  unfold anlogic_rates
  split_ifs <;> simp

/-- C15, as amended.  For every request `f` the command is the JTAG mode byte followed by one
of the nine speed codes (0x00, 0x04, 0x08, 0x14, 0x24, 0x38, 0x70, 0xe8, 0xff), whose nominal
rate is one of the nine rates; for every request `f >= 90000` Hz that rate is `<= f`; for
every request below 90000 Hz the code is 0xff, whose rate of 90 kHz is the slowest rate the
adapter has. -/
theorem anlogic_set_frequency_not_above (f : Nat) :
    (anlogic_set_frequency f).length = 2 ∧
    (anlogic_set_frequency f).getD 0 0 = ANLOGIC_JTAG_JTAG_MODE ∧
    (anlogic_set_frequency f).getD 1 0 ∈
      [ANLOGIC_JTAG_SPEED_6M, ANLOGIC_JTAG_SPEED_3M, ANLOGIC_JTAG_SPEED_2M,
       ANLOGIC_JTAG_SPEED_1M, ANLOGIC_JTAG_SPEED_600K, ANLOGIC_JTAG_SPEED_400K,
       ANLOGIC_JTAG_SPEED_200K, ANLOGIC_JTAG_SPEED_100K, ANLOGIC_JTAG_SPEED_90K] ∧
    anlogic_speed_rate ((anlogic_set_frequency f).getD 1 0) ∈ anlogic_rates ∧
    (90000 ≤ f → anlogic_speed_rate ((anlogic_set_frequency f).getD 1 0) ≤ f) ∧
    (f < 90000 → (anlogic_set_frequency f).getD 1 0 = ANLOGIC_JTAG_SPEED_90K ∧
      anlogic_speed_rate ((anlogic_set_frequency f).getD 1 0) = 90000) ∧
    ∀ r ∈ anlogic_rates, 90000 ≤ r := by
  refine ⟨(anlogic_set_frequency_shape f).1, (anlogic_set_frequency_shape f).2.1,
    anlogic_set_frequency_code_mem f, anlogic_set_frequency_rate_mem f,
    fun hf => (anlogic_set_frequency_rounds_down_aux f hf), ?_, by decide⟩
  intro hf
  have hc : (anlogic_set_frequency f).getD 1 0 = ANLOGIC_JTAG_SPEED_90K := by
    rw [(anlogic_set_frequency_shape f).2.2]
    split_ifs <;> first | rfl | omega
  exact ⟨hc, by rw [hc]; exact anlogic_speed_rate_values.2.2.2.2.2.2.2.2⟩

/-- Witness of C15 as amended: the requests of 150000 Hz and of 50000 Hz. -/
theorem anlogic_set_frequency_not_above_witness :
    anlogic_speed_rate ((anlogic_set_frequency 150000).getD 1 0) ≤ 150000 ∧
    (anlogic_set_frequency 50000).getD 1 0 = ANLOGIC_JTAG_SPEED_90K ∧
    anlogic_speed_rate ((anlogic_set_frequency 50000).getD 1 0) = 90000 :=
  ⟨(anlogic_set_frequency_not_above 150000).2.2.2.2.1 (by decide),
    (anlogic_set_frequency_not_above 50000).2.2.2.2.2.1 (by decide)⟩

/-- C15, as stated, fails below the slowest step: for the request of 50000 Hz the code
placed in `command[1]` is 0xff, whose nominal rate of 90000 Hz is above the request. -/
theorem anlogic_set_frequency_above_request :
    ¬ (anlogic_speed_rate ((anlogic_set_frequency 50000).getD 1 0) ≤ 50000) := by
  decide

/-! ### C17 -/

theorem anlogic_cell_last (d : List Nat) (l : Nat) (h1 : 1 ≤ l)
    (h2 : l ≤ ANLOGIC_JTAG_MAX_XFER_SIZE) :
    anlogic_cell d l (ANLOGIC_JTAG_MAX_XFER_SIZE - 1) =
      d.getD (l - 1) 0 &&& ANLOGIC_JTAG_OUT_MASK := by
  unfold anlogic_cell
  have e : (if ANLOGIC_JTAG_MAX_XFER_SIZE - 1 ≥ l then l - 1
      else ANLOGIC_JTAG_MAX_XFER_SIZE - 1) = l - 1 := by
    split_ifs <;> omega
  rw [e]

theorem anlogic_usb_xfer_last_tdo_of_fail (dev : UsbDev) (c : AnlogicCable) (d mem : List Nat)
    (p : Option Nat) (l : Nat) (h : anlogic_xfer_code (dev c.sent.length) ≠ 0) :
    (anlogic_usb_xfer dev c d mem p l).cable.last_tdo = c.last_tdo := by
  obtain ⟨ls, lt, s⟩ := c
  unfold anlogic_xfer_code at h
  unfold anlogic_usb_xfer
  simp only
  split_ifs with h1 h2
  · rfl
  · rfl
  · simp only at h
    rw [if_neg h1] at h
    exact absurd h h2

/-- C17, as amended.  For every call of `anlogic_usb_xfer` with `1 <= length <= 1024` in
which the bulk write or the bulk read fails (the call returns a non-zero code), `last_tdo`
after the call is `last_tdo` before the call and the block behind `in_data` is not written;
`last_status` is set to `out_data[length - 1] & 7`, the last nibble packed, whatever the
outcome. -/
theorem anlogic_usb_xfer_failure_shadow (dev : UsbDev) (c : AnlogicCable) (d mem : List Nat)
    (p : Option Nat) (l : Nat) (h1 : 1 ≤ l) (h2 : l ≤ ANLOGIC_JTAG_MAX_XFER_SIZE)
    (hf : (anlogic_usb_xfer dev c d mem p l).result ≠ 0) :
    (anlogic_usb_xfer dev c d mem p l).cable.last_tdo = c.last_tdo ∧
    (anlogic_usb_xfer dev c d mem p l).mem = mem ∧
    (anlogic_usb_xfer dev c d mem p l).cable.last_status =
      d.getD (l - 1) 0 &&& ANLOGIC_JTAG_OUT_MASK := by
  rw [anlogic_usb_xfer_result] at hf
  exact ⟨anlogic_usb_xfer_last_tdo_of_fail dev c d mem p l hf,
    anlogic_usb_xfer_mem_of_fail dev c d mem p l hf,
    by rw [anlogic_usb_xfer_last_status, anlogic_cell_last d l h1 h2]⟩

/-- Witness of C17 as amended: one cell 7 on a device whose bulk read times out. -/
theorem anlogic_usb_xfer_failure_shadow_witness :
    (anlogic_usb_xfer anlogic_read_fails anlogic_idle [7] [] none 1).cable.last_tdo =
      anlogic_idle.last_tdo ∧
    (anlogic_usb_xfer anlogic_read_fails anlogic_idle [7] [] none 1).mem = [] ∧
    (anlogic_usb_xfer anlogic_read_fails anlogic_idle [7] [] none 1).cable.last_status =
      [7].getD (1 - 1) 0 &&& ANLOGIC_JTAG_OUT_MASK :=
  anlogic_usb_xfer_failure_shadow anlogic_read_fails anlogic_idle [7] [] none 1 (by decide)
    (by decide) (by rw [anlogic_usb_xfer_result]; decide)

/-- C17, as stated, fails: with `last_status = 0`, a call of `anlogic_usb_xfer` for the one
cell 7 whose bulk read times out returns a non-zero code and leaves `last_status = 7`. -/
theorem anlogic_usb_xfer_failure_changes_last_status :
    (anlogic_usb_xfer anlogic_read_fails anlogic_idle [7] [] none 1).result ≠ 0 ∧
    (anlogic_usb_xfer anlogic_read_fails anlogic_idle [7] [] none 1).cable.last_status ≠
      anlogic_idle.last_status := by
  rw [anlogic_usb_xfer_result, anlogic_usb_xfer_last_status,
    anlogic_cell_last [7] 1 (by decide) (by decide)]
  decide

/-! ### C18, C19, C20 -/

/-- The value `anlogic_set_signal` returns is the request `val & mask`. -/
theorem anlogic_set_signal_returns_request (P : PodSig) (dev : UsbDev) (c : AnlogicCable)
    (m v : Nat) : (anlogic_set_signal P dev c m v).1 = v &&& m := rfl

/-- C18, the code at the failing input.  With all lines low, `anlogic_set_signal (TCK, TCK)`
returns TCK, the value just written, while `anlogic_get_signal (TCK)` was 0 before the
call. -/
theorem anlogic_set_signal_returns_new_value :
    anlogic_get_signal urjPod anlogic_idle urjPod.URJ_POD_CS_TCK = 0 ∧
    (anlogic_set_signal urjPod anlogic_all_ok anlogic_idle urjPod.URJ_POD_CS_TCK
      urjPod.URJ_POD_CS_TCK).1 = urjPod.URJ_POD_CS_TCK ∧
    urjPod.URJ_POD_CS_TCK ≠ 0 :=
  ⟨by decide, by rw [anlogic_set_signal_returns_request]; decide, by decide⟩

/-- The value `dirtyjtag_set_signal` returns is the request `val & mask` cut down to the
five lines. -/
theorem dirtyjtag_set_signal_returns_request (P : PodSig) (dev : DirtyDev) (c : DirtyCable)
    (m v : Nat) : (dirtyjtag_set_signal P dev c m v).1 = v &&& (m &&& P.all_lines) := rfl

/-- C19, the code at the failing input.  With all lines low, `dirtyjtag_set_signal (TCK, TCK)`
returns TCK, the value just written, while `dirtyjtag_get_signal (TCK)` was 0 before the
call. -/
theorem dirtyjtag_set_signal_returns_new_value :
    dirtyjtag_get_signal dirty_idle urjPod.URJ_POD_CS_TCK = 0 ∧
    (dirtyjtag_set_signal urjPod dirty_all_ok dirty_idle urjPod.URJ_POD_CS_TCK
      urjPod.URJ_POD_CS_TCK).1 = urjPod.URJ_POD_CS_TCK ∧
    urjPod.URJ_POD_CS_TCK ≠ 0 := by
  decide

/-- C20, as amended.  The function `bsdgpio_set_signal` returns the whole shadow vector
`bsdgpio_current_signals` as it was before the call, not restricted to the mask. -/
theorem bsdgpio_set_signal_returns_previous (P : PodSig) (p : BsdGpio) (m v : Nat) :
    (bsdgpio_set_signal P p m v).1 = bsdgpio_current_signals P p := rfl

/-- C20, as stated, fails: after `bsdgpio_init` the call `bsdgpio_set_signal (TCK, TCK)`
returns TRST, a bit outside the mask, and not the previous vector restricted to TCK,
which is 0. -/
theorem bsdgpio_set_signal_returns_unmasked :
    (bsdgpio_set_signal urjPod bsdgpio_initialised urjPod.URJ_POD_CS_TCK
      urjPod.URJ_POD_CS_TCK).1 = urjPod.URJ_POD_CS_TRST ∧
    (bsdgpio_set_signal urjPod bsdgpio_initialised urjPod.URJ_POD_CS_TCK
      urjPod.URJ_POD_CS_TCK).1 ≠
      bsdgpio_current_signals urjPod bsdgpio_initialised &&& urjPod.URJ_POD_CS_TCK := by
  decide

/-- The shadow `last_status` after the chunk loop of `anlogic_clock`: the last cell of the last
raw buffer, whatever the device answered. -/
theorem anlogic_clock_loop_last_status (dev : UsbDev) (size : Nat) :
    ∀ (buf : List Nat) (c : AnlogicCable), 0 < size →
      (anlogic_clock_loop dev buf size c).last_status =
        anlogic_cell buf size (ANLOGIC_JTAG_MAX_XFER_SIZE * anlogic_chunks size - 1) := by
  induction size using Nat.strong_induction_on with
  | _ size ih =>
    intro buf c h0
    rw [anlogic_clock_loop]
    simp only [gt_iff_lt, h0, ↓reduceIte]
    by_cases h1 : size > ANLOGIC_JTAG_MAX_XFER_SIZE
    · simp only [gt_iff_lt] at h1
      simp only [h1, ↓reduceIte]
      have hlt : size - ANLOGIC_JTAG_MAX_XFER_SIZE < size := by
        simp only [ANLOGIC_JTAG_MAX_XFER_SIZE] at *; omega
      have hpos : 0 < size - ANLOGIC_JTAG_MAX_XFER_SIZE := by omega
      rw [ih _ hlt _ _ hpos, anlogic_cell_drop buf size _ h1, anlogic_chunks_step size h1]
      have hc := anlogic_chunks_pos _ hpos
      congr 1
      generalize anlogic_chunks (size - ANLOGIC_JTAG_MAX_XFER_SIZE) = k at hc
      simp only [ANLOGIC_JTAG_MAX_XFER_SIZE]
      omega
    · simp only [gt_iff_lt] at h1
      simp only [h1, ↓reduceIte, Nat.sub_self]
      rw [anlogic_clock_loop]
      simp only [gt_iff_lt, lt_self_iff_false, ↓reduceIte]
      rw [anlogic_usb_xfer_last_status, anlogic_chunks_one size h0 h1, Nat.mul_one]

/-- C22.  The anlogic shadow follows clock writes: for every prior shadow state, every `tms`,
`tdi` and `n >= 0`, and whatever the device answers to the USB transfers, after
`anlogic_clock (tms, tdi, n)` the query `anlogic_get_signal (TCK|TMS|TDI)` equals
`(tms != 0 ? TMS : 0) | (tdi != 0 ? TDI : 0)`: the levels of the last nibble written, with
TCK low. -/
theorem anlogic_clock_shadow (P : PodSig) (dev : UsbDev) (c : AnlogicCable) (tms tdi : Int)
    (n : Nat) :
    anlogic_get_signal P (anlogic_clock dev c tms tdi n) P.jtag_lines =
      (if tms ≠ 0 then P.URJ_POD_CS_TMS else 0) ||| (if tdi ≠ 0 then P.URJ_POD_CS_TDI else 0) := by
  have hs : (anlogic_clock dev c tms tdi n).last_status = _ :=
    anlogic_clock_loop_last_status dev (n * 2 + 1) (anlogic_clock_buf tms tdi n) c (by omega)
  rw [anlogic_clock_cell] at hs
  have hN := anlogic_chunks_ge (n * 2 + 1)
  have hodd : ¬ ((ANLOGIC_JTAG_MAX_XFER_SIZE * anlogic_chunks (n * 2 + 1) - 1) % 2 = 1 ∧
      ANLOGIC_JTAG_MAX_XFER_SIZE * anlogic_chunks (n * 2 + 1) - 1 ≤ 2 * n) := by
    generalize anlogic_chunks (n * 2 + 1) = k at hN
    simp only [ANLOGIC_JTAG_MAX_XFER_SIZE] at *
    omega
  have b := clock_cell_bits tms tdi
    ((ANLOGIC_JTAG_MAX_XFER_SIZE * anlogic_chunks (n * 2 + 1) - 1) % 2 = 1 ∧
      ANLOGIC_JTAG_MAX_XFER_SIZE * anlogic_chunks (n * 2 + 1) - 1 ≤ 2 * n)
  simp only at b
  rw [← hs] at b
  have mTMS : P.jtag_lines &&& P.URJ_POD_CS_TMS ≠ 0 := by
    unfold PodSig.jtag_lines PodSig.URJ_POD_CS_TMS
    rw [and_bit_ne_zero]
    simp [Nat.testBit_or, PodSig.URJ_POD_CS_TMS, Nat.one_shiftLeft, Nat.testBit_two_pow]
  have mTDI : P.jtag_lines &&& P.URJ_POD_CS_TDI ≠ 0 := by
    unfold PodSig.jtag_lines PodSig.URJ_POD_CS_TDI
    rw [and_bit_ne_zero]
    simp [Nat.testBit_or, PodSig.URJ_POD_CS_TDI, Nat.one_shiftLeft, Nat.testBit_two_pow]
  have bTCK : ¬ ((anlogic_clock dev c tms tdi n).last_status &&& ANLOGIC_JTAG_TCK ≠ 0) :=
    fun h => hodd (b.1.mp h)
  unfold anlogic_get_signal
  simp only [bTCK, and_false, ↓reduceIte, mTMS, mTDI, true_and, b.2.2.1, b.2.2.2, ne_eq,
    not_false_eq_true]
  by_cases h1 : tms = 0 <;> by_cases h2 : tdi = 0 <;> simp [h1, h2]

/-- A successful exchange stores bit 0 of the high nibble of reply byte 511 in `last_tdo`. -/
theorem anlogic_usb_xfer_last_tdo_of_ok (dev : UsbDev) (c : AnlogicCable) (d mem : List Nat)
    (p : Option Nat) (l : Nat) (h : anlogic_xfer_code (dev c.sent.length) = 0) :
    (anlogic_usb_xfer dev c d mem p l).cable.last_tdo =
      ((dev c.sent.length).data.getD (ANLOGIC_JTAG_MAX_XFER_SIZE / 2 - 1) 0 >>> 4) &&& 1 := by
  obtain ⟨ls, lt, s⟩ := c
  unfold anlogic_xfer_code at h
  unfold anlogic_usb_xfer
  simp only at h ⊢
  split_ifs with h1 h2
  · rw [if_pos h1] at h
    exact absurd h h1
  · rw [if_neg h1] at h
    exact absurd h h2
  · rfl

/-- The number of exchanges after the chunk loop of `anlogic_clock`. -/
theorem anlogic_clock_loop_sent_length (dev : UsbDev) (size : Nat) (buf : List Nat)
    (c : AnlogicCable) :
    (anlogic_clock_loop dev buf size c).sent.length = c.sent.length + anlogic_chunks size := by
  obtain ⟨L, hL, hlen, _⟩ := anlogic_clock_loop_sent dev size buf c
  rw [hL, List.length_append, hlen]

/-- The shadow `last_tdo` after the chunk loop of `anlogic_clock` when the last exchange
succeeded. -/
theorem anlogic_clock_loop_last_tdo (dev : UsbDev) (size : Nat) :
    ∀ (buf : List Nat) (c : AnlogicCable), 0 < size →
      anlogic_xfer_code (dev (c.sent.length + (anlogic_chunks size - 1))) = 0 →
      (anlogic_clock_loop dev buf size c).last_tdo =
        ((dev (c.sent.length + (anlogic_chunks size - 1))).data.getD
          (ANLOGIC_JTAG_MAX_XFER_SIZE / 2 - 1) 0 >>> 4) &&& 1 := by
  induction size using Nat.strong_induction_on with
  | _ size ih =>
    intro buf c h0 hok
    rw [anlogic_clock_loop]
    simp only [gt_iff_lt, h0, ↓reduceIte]
    by_cases h1 : size > ANLOGIC_JTAG_MAX_XFER_SIZE
    · simp only [gt_iff_lt] at h1
      simp only [h1, ↓reduceIte]
      have hlt : size - ANLOGIC_JTAG_MAX_XFER_SIZE < size := by
        simp only [ANLOGIC_JTAG_MAX_XFER_SIZE] at *; omega
      have hpos : 0 < size - ANLOGIC_JTAG_MAX_XFER_SIZE := by omega
      have hc := anlogic_chunks_pos _ hpos
      have hidx : (anlogic_usb_xfer dev c buf [] none ANLOGIC_JTAG_MAX_XFER_SIZE).cable.sent.length
          + (anlogic_chunks (size - ANLOGIC_JTAG_MAX_XFER_SIZE) - 1) =
          c.sent.length + (anlogic_chunks size - 1) := by
        rw [anlogic_usb_xfer_sent, List.length_append, anlogic_chunks_step size h1]
        simp only [List.length_singleton]
        omega
      rw [ih _ hlt _ _ hpos (by rw [hidx]; exact hok), hidx]
    · simp only [gt_iff_lt] at h1
      simp only [h1, ↓reduceIte, Nat.sub_self]
      rw [anlogic_clock_loop]
      simp only [gt_iff_lt, lt_self_iff_false, ↓reduceIte]
      rw [anlogic_chunks_one size h0 h1] at hok ⊢
      exact anlogic_usb_xfer_last_tdo_of_ok dev c buf [] none size hok

/-- The positions of the rising TCK edges in the cell stream of `anlogic_clock`. -/
theorem anlogic_clock_rising_positions (dev : UsbDev) (c : AnlogicCable) (tms tdi : Int)
    (n : Nat) :
    tck_rising_positions (anlogic_clock_stream dev c tms tdi n) =
      (List.range n).map (fun k => 2 * k + 1) := by
  have hs : anlogic_clock_stream dev c tms tdi n = _ := anlogic_written_clock dev c tms tdi n
  have hN := anlogic_chunks_ge (n * 2 + 1)
  generalize ANLOGIC_JTAG_MAX_XFER_SIZE * anlogic_chunks (n * 2 + 1) = N at hs hN
  rw [hs, tck_rising_positions_map N _ n (fun k => 2 * k)]
  · intro a b hab
    simp only
    omega
  · intro g hg
    have b1 := (clock_cell_bits tms tdi (g % 2 = 1 ∧ g ≤ 2 * n)).2.1
    have b2 := (clock_cell_bits tms tdi ((g + 1) % 2 = 1 ∧ g + 1 ≤ 2 * n)).1
    rw [b2, b1]
    constructor
    · rintro ⟨h1, h2, h3⟩
      exact ⟨g / 2, by omega, by omega⟩
    · rintro ⟨k, hk, rfl⟩
      refine ⟨?_, ?_, ?_⟩ <;> omega
  · intro k hk
    omega

/-- C21.  After `anlogic_clock` the function `anlogic_get_tdo` returns the final sample: for
every `n >= 1` and every `tms`, `tdi`, when all USB transfers of the call succeed and deliver
replies of 512 bytes, `anlogic_get_tdo` on the resulting state returns bit 0 of the high
nibble of byte 511 of the reply to the final chunk.  That nibble is cell `1024 * chunks - 1` of the stream; the rising
TCK edges of the stream are at the cells `1, 3, ..., 2 n - 1`, so the `n`-th one, at
`2 (n - 1) + 1`, comes before the sample.  `anlogic_get_tdo` only reads the static `last_tdo`:
it takes no device and returns no state. -/
theorem anlogic_get_tdo_after_clock (dev : UsbDev) (c : AnlogicCable) (tms tdi : Int) (n : Nat)
    (hn : 1 ≤ n)
    (hok : ∀ j, j < anlogic_chunks (n * 2 + 1) →
      anlogic_xfer_code (dev (c.sent.length + j)) = 0)
    (_hfull : ∀ j, j < anlogic_chunks (n * 2 + 1) →
      (dev (c.sent.length + j)).data.length = ANLOGIC_JTAG_MAX_XFER_SIZE / 2) :
    anlogic_get_tdo (anlogic_clock dev c tms tdi n) =
        ((dev (c.sent.length + (anlogic_chunks (n * 2 + 1) - 1))).data.getD 511 0 >>> 4) &&& 1 ∧
      anlogic_get_tdo (anlogic_clock dev c tms tdi n) =
        anlogic_reply_nibble dev c.sent.length
          (ANLOGIC_JTAG_MAX_XFER_SIZE * anlogic_chunks (n * 2 + 1) - 1) &&& 1 ∧
      (tck_rising_positions (anlogic_clock_stream dev c tms tdi n)).length = n ∧
      (tck_rising_positions (anlogic_clock_stream dev c tms tdi n)).getLast? =
        some (2 * (n - 1) + 1) ∧
      2 * (n - 1) + 1 < ANLOGIC_JTAG_MAX_XFER_SIZE * anlogic_chunks (n * 2 + 1) - 1 ∧
      (anlogic_clock dev c tms tdi n).sent.length =
        c.sent.length + anlogic_chunks (n * 2 + 1) := by
  have hpos := anlogic_chunks_pos (n * 2 + 1) (by omega)
  have hlast := hok (anlogic_chunks (n * 2 + 1) - 1) (by omega)
  have ht : (anlogic_clock dev c tms tdi n).last_tdo = _ :=
    anlogic_clock_loop_last_tdo dev (n * 2 + 1) (anlogic_clock_buf tms tdi n) c (by omega) hlast
  have hN := anlogic_chunks_ge (n * 2 + 1)
  refine ⟨ht, ?_, ?_, ?_, ?_, ?_⟩
  · unfold anlogic_get_tdo
    rw [ht]
    unfold anlogic_reply_nibble
    generalize anlogic_chunks (n * 2 + 1) = k at hpos
    have e1 : (ANLOGIC_JTAG_MAX_XFER_SIZE * k - 1) % ANLOGIC_JTAG_MAX_XFER_SIZE =
        ANLOGIC_JTAG_MAX_XFER_SIZE - 1 := by
      simp only [ANLOGIC_JTAG_MAX_XFER_SIZE]; omega
    have e2 : (ANLOGIC_JTAG_MAX_XFER_SIZE * k - 1) / ANLOGIC_JTAG_MAX_XFER_SIZE = k - 1 := by
      simp only [ANLOGIC_JTAG_MAX_XFER_SIZE]; omega
    rw [e1, e2]
    have e3 : ¬ ((ANLOGIC_JTAG_MAX_XFER_SIZE - 1) % 2 = 0) := by decide
    have e4 : (ANLOGIC_JTAG_MAX_XFER_SIZE - 1) / 2 = ANLOGIC_JTAG_MAX_XFER_SIZE / 2 - 1 := by
      decide
    simp only [e3, ↓reduceIte, e4]
    rw [Nat.and_assoc]
    rfl
  · rw [anlogic_clock_rising_positions]
    simp
  · rw [anlogic_clock_rising_positions]
    obtain ⟨m, rfl⟩ : ∃ m, n = m + 1 := ⟨n - 1, by omega⟩
    rw [List.range_succ, List.map_append, List.map_singleton, List.getLast?_append,
      List.getLast?_singleton]
    rfl
  · generalize anlogic_chunks (n * 2 + 1) = k at hN
    simp only [ANLOGIC_JTAG_MAX_XFER_SIZE] at *
    omega
  · exact anlogic_clock_loop_sent_length dev (n * 2 + 1) (anlogic_clock_buf tms tdi n) c

/-- Every reply byte of the device `anlogic_all_ok` is zero. -/
theorem anlogic_all_ok_byte (k i : Nat) : (anlogic_all_ok k).data.getD i 0 = 0 := by
  show (List.replicate 512 0).getD i 0 = 0
  rw [List.getD_eq_getElem?_getD, List.getElem?_replicate]
  split_ifs <;> rfl

/-- Every reply of the device `anlogic_tdo_high` has 512 bytes. -/
theorem anlogic_tdo_high_length (k : Nat) :
    (anlogic_tdo_high k).data.length = ANLOGIC_JTAG_MAX_XFER_SIZE / 2 := by
  show (List.replicate 511 0 ++ [0x10]).length = 512
  rw [List.length_append, List.length_replicate]
  rfl

/-- Byte 511 of every reply of the device `anlogic_tdo_high` is 0x10. -/
theorem anlogic_tdo_high_byte (k : Nat) : (anlogic_tdo_high k).data.getD 511 0 = 0x10 := by
  show (List.replicate 511 0 ++ [0x10]).getD 511 0 = 0x10
  rw [List.getD_eq_getElem?_getD,
    List.getElem?_append_right (by rw [List.length_replicate]), List.length_replicate]
  rfl

/-- Witness for C21: `tms = 1`, `tdi = 0`, `n = 5` from the idle state, whose `last_tdo` is
0, on a device whose replies end in 0x10: the sample returned is 1. -/
theorem anlogic_get_tdo_after_clock_witness :
    anlogic_idle.last_tdo = 0 ∧
      anlogic_get_tdo (anlogic_clock anlogic_tdo_high anlogic_idle 1 0 5) = 1 :=
  ⟨rfl, (anlogic_get_tdo_after_clock anlogic_tdo_high anlogic_idle 1 0 5 (by decide)
    (fun _ _ => rfl) (fun _ _ => anlogic_tdo_high_length _)).1.trans
    (by rw [anlogic_tdo_high_byte]; decide)⟩

/-- The `for` loop of `bsdgpio_clock` appends three TCK writes per round and changes nothing
else. -/
theorem bsdgpio_clock_loop_trace (n : Nat) : ∀ (p : BsdGpio),
    (List.range n).foldl
      (fun p _ =>
        let p := gpio_pin_set p (p.jtag_bsdgpios.getD GPIO_TCK 0) 0
        let p := gpio_pin_set p (p.jtag_bsdgpios.getD GPIO_TCK 0) 1
        let p := gpio_pin_set p (p.jtag_bsdgpios.getD GPIO_TCK 0) 0
        p) p =
      { p with pin_sets := p.pin_sets ++
          (List.replicate n
            [(p.jtag_bsdgpios.getD GPIO_TCK 0, 0), (p.jtag_bsdgpios.getD GPIO_TCK 0, 1),
             (p.jtag_bsdgpios.getD GPIO_TCK 0, 0)]).flatten } := by
  induction n with
  | zero => intro p; simp
  | succ n ih =>
    intro p
    rw [List.range_succ, List.foldl_append, ih]
    simp [gpio_pin_set, List.replicate_succ', List.flatten_append]

/-- C23.  Pulse shape of `bsdgpio_clock`: for every `tms`, `tdi` and `n >= 0` the pin writes
issued by the call are exactly: TMS pin := (`tms != 0`), TDI pin := (`tdi != 0`), followed by
`n` repetitions of (TCK pin := 0, TCK pin := 1, TCK pin := 0).  Every write after the first two
is a write to the TCK pin, and there are exactly `3 n` of them. -/
theorem bsdgpio_clock_pulse_shape (p : BsdGpio) (tms tdi : Int) (n : Nat) :
    (bsdgpio_clock p tms tdi n).pin_sets =
        p.pin_sets ++
          [(p.jtag_bsdgpios.getD GPIO_TMS 0, if tms ≠ 0 then 1 else 0),
           (p.jtag_bsdgpios.getD GPIO_TDI 0, if tdi ≠ 0 then 1 else 0)] ++
          (List.replicate n
            [(p.jtag_bsdgpios.getD GPIO_TCK 0, 0), (p.jtag_bsdgpios.getD GPIO_TCK 0, 1),
             (p.jtag_bsdgpios.getD GPIO_TCK 0, 0)]).flatten ∧
      (∀ w ∈ ((bsdgpio_clock p tms tdi n).pin_sets.drop (p.pin_sets.length + 2)),
        w.1 = p.jtag_bsdgpios.getD GPIO_TCK 0) ∧
      ((bsdgpio_clock p tms tdi n).pin_sets.drop (p.pin_sets.length + 2)).length = 3 * n ∧
      (bsdgpio_clock p tms tdi n).jtag_bsdgpios = p.jtag_bsdgpios := by
  have h : bsdgpio_clock p tms tdi n = { p with pin_sets := p.pin_sets ++
          [(p.jtag_bsdgpios.getD GPIO_TMS 0, if tms ≠ 0 then 1 else 0),
           (p.jtag_bsdgpios.getD GPIO_TDI 0, if tdi ≠ 0 then 1 else 0)] ++
          (List.replicate n
            [(p.jtag_bsdgpios.getD GPIO_TCK 0, 0), (p.jtag_bsdgpios.getD GPIO_TCK 0, 1),
             (p.jtag_bsdgpios.getD GPIO_TCK 0, 0)]).flatten } := by
    unfold bsdgpio_clock
    simp only [Int.toNat_ofNat]
    rw [bsdgpio_clock_loop_trace]
    simp [gpio_pin_set]
  have hd : (bsdgpio_clock p tms tdi n).pin_sets.drop (p.pin_sets.length + 2) =
      (List.replicate n
            [(p.jtag_bsdgpios.getD GPIO_TCK 0, 0), (p.jtag_bsdgpios.getD GPIO_TCK 0, 1),
             (p.jtag_bsdgpios.getD GPIO_TCK 0, 0)]).flatten := by
    rw [h]
    simp only
    rw [List.drop_append_eq_append_drop]
    simp
  refine ⟨by rw [h], ?_, ?_, by rw [h]⟩
  · rw [hd]
    intro w hw
    simp only [List.mem_flatten, List.mem_replicate] at hw
    obtain ⟨l, ⟨_, rfl⟩, hw⟩ := hw
    simp only [List.mem_cons, List.mem_singleton, List.not_mem_nil, or_false] at hw
    rcases hw with rfl | rfl | rfl <;> rfl
  · rw [hd]
    simp [List.length_flatten, Nat.mul_comm]

/-- Two pulses on the cable `bsdgpio_fresh` (TDI 17, TCK 27, TMS 22) with `tms = 1`,
`tdi = 0`. -/
theorem bsdgpio_clock_two_pulses :
    (bsdgpio_clock bsdgpio_fresh 1 0 2).pin_sets =
      [(22, 1), (17, 0), (27, 0), (27, 1), (27, 0), (27, 0), (27, 1), (27, 0)] := by
  decide

theorem bsdgpio_pin_after_append (key : urj_cable_param_key_t) (d : Nat)
    (l : List urj_param_t) (e : urj_param_t) :
    bsdgpio_pin_after key d (l ++ [e]) =
      if e.key = key then e.lu % 4294967296 else bsdgpio_pin_after key d l := by
  unfold bsdgpio_pin_after
  rw [List.filter_append]
  by_cases h : e.key = key
  · simp [h, List.getLast?_append]
  · simp [h]

/-- The parameter loop of `bsdgpio_connect` in closed form. -/
theorem bsdgpio_connect_loop (a b c d : Nat) (params : List urj_param_t) :
    params.foldl bsdgpio_connect_param [a, b, c, d] =
      [bsdgpio_pin_after URJ_CABLE_PARAM_KEY_TDI a params,
       bsdgpio_pin_after URJ_CABLE_PARAM_KEY_TCK b params,
       bsdgpio_pin_after URJ_CABLE_PARAM_KEY_TMS c params,
       bsdgpio_pin_after URJ_CABLE_PARAM_KEY_TDO d params] := by
  induction params using List.reverseRecOn with
  | nil => simp [bsdgpio_pin_after]
  | append_singleton l e ih =>
    rw [List.foldl_append, ih]
    simp only [List.foldl_cons, List.foldl_nil, bsdgpio_pin_after_append]
    obtain ⟨k, v⟩ := e
    cases k <;>
      simp [bsdgpio_connect_param, GPIO_TDI, GPIO_TCK, GPIO_TMS, GPIO_TDO]

/-- Entries whose key is not a pin key do not change the result of the parameter loop. -/
theorem bsdgpio_connect_loop_filter (params : List urj_param_t) : ∀ (pins : List Nat),
    (params.filter fun e => bsdgpio_pin_key e.key).foldl bsdgpio_connect_param pins =
      params.foldl bsdgpio_connect_param pins := by
  induction params with
  | nil => intro pins; rfl
  | cons e l ih =>
    intro pins
    rw [List.filter_cons]
    split_ifs with h
    · rw [List.foldl_cons, List.foldl_cons, ih]
    · rw [List.foldl_cons]
      obtain ⟨k, v⟩ := e
      cases k with
      | other k => exact ih pins
      | _ => exact absurd rfl h

theorem bsdgpio_pin_after_fits (key : urj_cable_param_key_t) (params : List urj_param_t)
    (hfit : ∀ e ∈ params, e.lu < 4294967296) :
    bsdgpio_pin_after key GPIO_REQUIRED params = bsdgpio_last_value key params := by
  unfold bsdgpio_pin_after bsdgpio_last_value
  cases h : (params.filter fun e => decide (e.key = key)).getLast? with
  | none => rfl
  | some e =>
    have hm : e ∈ params.filter fun e => decide (e.key = key) := List.mem_of_getLast?_eq_some h
    exact Nat.mod_eq_of_lt (hfit e (List.mem_of_mem_filter hm))

/-- The pin assignment that `bsdgpio_connect` leaves behind, for every parameter list. -/
theorem bsdgpio_connect_pins (delay : Nat) (params : List urj_param_t) :
    (bsdgpio_connect true delay (some params)).params =
      some ⟨[bsdgpio_pin_after URJ_CABLE_PARAM_KEY_TDI GPIO_REQUIRED params,
             bsdgpio_pin_after URJ_CABLE_PARAM_KEY_TCK GPIO_REQUIRED params,
             bsdgpio_pin_after URJ_CABLE_PARAM_KEY_TMS GPIO_REQUIRED params,
             bsdgpio_pin_after URJ_CABLE_PARAM_KEY_TDO GPIO_REQUIRED params], 0, 0, []⟩ := by
  simp only [bsdgpio_connect, Bool.not_true, Bool.false_eq_true, ↓reduceIte,
    not_true_eq_false]
  have h0 : ((([0, 0, 0, 0].set GPIO_TDI GPIO_REQUIRED).set GPIO_TDO GPIO_REQUIRED).set
      GPIO_TMS GPIO_REQUIRED).set GPIO_TCK GPIO_REQUIRED =
      [GPIO_REQUIRED, GPIO_REQUIRED, GPIO_REQUIRED, GPIO_REQUIRED] := by decide
  rw [h0, bsdgpio_connect_loop]

/-- C27, as amended.  The function `bsdgpio_connect` ignores unrecognized keys: for every
parameter list (allocation succeeding) it returns URJ_STATUS_OK, the resulting pin
assignment equals the one obtained from the same list with all entries whose key is not TDI,
TDO, TMS or TCK removed, and each of the four pins holds the value of the last entry with its
key cut to the 32 bits of an `unsigned int` (`value mod 2^32`), or the sentinel
GPIO_REQUIRED (4) if there is none; when every value of the list is below `2^32`, each pin
holds the value of the last entry with its key itself. -/
theorem bsdgpio_connect_ignores_unrecognized (delay : Nat) (params : List urj_param_t) :
    (bsdgpio_connect true delay (some params)).status = URJ_STATUS_OK ∧
      (bsdgpio_connect true delay (some params)).params =
        (bsdgpio_connect true delay
          (some (params.filter fun e => bsdgpio_pin_key e.key))).params ∧
      (bsdgpio_connect true delay (some params)).params =
        some ⟨[bsdgpio_pin_after URJ_CABLE_PARAM_KEY_TDI GPIO_REQUIRED params,
               bsdgpio_pin_after URJ_CABLE_PARAM_KEY_TCK GPIO_REQUIRED params,
               bsdgpio_pin_after URJ_CABLE_PARAM_KEY_TMS GPIO_REQUIRED params,
               bsdgpio_pin_after URJ_CABLE_PARAM_KEY_TDO GPIO_REQUIRED params], 0, 0, []⟩ ∧
      ((∀ e ∈ params, e.lu < 4294967296) →
        (bsdgpio_connect true delay (some params)).params =
          some ⟨[bsdgpio_last_value URJ_CABLE_PARAM_KEY_TDI params,
                 bsdgpio_last_value URJ_CABLE_PARAM_KEY_TCK params,
                 bsdgpio_last_value URJ_CABLE_PARAM_KEY_TMS params,
                 bsdgpio_last_value URJ_CABLE_PARAM_KEY_TDO params], 0, 0, []⟩) := by
  refine ⟨rfl, ?_, bsdgpio_connect_pins delay params, ?_⟩
  · simp only [bsdgpio_connect, Bool.not_true, Bool.false_eq_true, ↓reduceIte,
      bsdgpio_connect_loop_filter]
  · intro hfit
    rw [bsdgpio_connect_pins, bsdgpio_pin_after_fits _ _ hfit,
      bsdgpio_pin_after_fits _ _ hfit, bsdgpio_pin_after_fits _ _ hfit,
      bsdgpio_pin_after_fits _ _ hfit]

/-- C27 as stated fails: with `tdi=4294967301 tck=27 tms=22 tdo=23` the last entry with the
key TDI has the value 4294967301, and the TDI pin that `bsdgpio_connect` stores is 5. -/
theorem bsdgpio_connect_cuts_wide_value :
    bsdgpio_last_value URJ_CABLE_PARAM_KEY_TDI bsdgpio_params_wide = 4294967301 ∧
      (bsdgpio_connect true 0 (some bsdgpio_params_wide)).params =
        some ⟨[5, 27, 22, 23], 0, 0, []⟩ ∧
      (bsdgpio_connect true 0 (some bsdgpio_params_wide)).params ≠
        some ⟨[bsdgpio_last_value URJ_CABLE_PARAM_KEY_TDI bsdgpio_params_wide,
               bsdgpio_last_value URJ_CABLE_PARAM_KEY_TCK bsdgpio_params_wide,
               bsdgpio_last_value URJ_CABLE_PARAM_KEY_TMS bsdgpio_params_wide,
               bsdgpio_last_value URJ_CABLE_PARAM_KEY_TDO bsdgpio_params_wide], 0, 0, []⟩ := by
  decide

/-- Witness for C27: a list with a repeated TDI key and two keys that are not pins. -/
theorem bsdgpio_connect_ignores_unrecognized_witness :
    (bsdgpio_connect true 0 (some bsdgpio_params_mixed)).params =
      some ⟨[18, 27, 22, 23], 0, 0, []⟩ :=
  ((bsdgpio_connect_ignores_unrecognized 0 bsdgpio_params_mixed).2.2.2 (by decide)).trans
    (by decide)

/-- C26.  With the parameter list `tdi=17 tck=27 tms=22`, in which the key TDO does not occur,
`bsdgpio_connect` returns URJ_STATUS_OK, not a failure, and leaves the sentinel
GPIO_REQUIRED (4) as the TDO pin number. -/
theorem bsdgpio_connect_accepts_unset_pin :
    (bsdgpio_connect true 0 (some bsdgpio_params_no_tdo)).status = URJ_STATUS_OK ∧
      (bsdgpio_connect true 0 (some bsdgpio_params_no_tdo)).params =
        some ⟨[17, 27, 22, GPIO_REQUIRED], 0, 0, []⟩ ∧
      (∀ e ∈ bsdgpio_params_no_tdo, e.key ≠ URJ_CABLE_PARAM_KEY_TDO) := by
  decide

theorem dirtyjtag_kHz_bytes (k : Nat) (hk : k < 65536) :
    (((k % 4294967296) >>> 8) % 256 &&& 0xFF) * 256 + ((k % 4294967296) % 256 &&& 0xFF) = k ∧
      ((k % 4294967296) >>> 8) % 256 &&& 0xFF < 256 ∧
      (k % 4294967296) % 256 &&& 0xFF < 256 := by
  have e : ∀ x : Nat, x &&& 0xFF = x % 256 := fun x => Nat.and_pow_two_sub_one_eq_mod x 8
  rw [e, e, Nat.shiftRight_eq_div_pow]
  omega

/-- The `double` quotient of a frequency below 65536 kHz, cut to an integer, is the integer
quotient. -/
theorem dirtyjtag_double_quotient (fl : ℚ → ℚ)
    (hint : ∀ k : Nat, k < 2 ^ 53 → fl (k : ℚ) = (k : ℚ))
    (herr : ∀ x : ℚ, 1 / 1000 ≤ x → |fl x - x| ≤ x / 2 ^ 53)
    (f : Nat) (hf : f / 1000 < 65536) :
    ⌊fl ((f : ℚ) / 1000)⌋.toNat = f / 1000 := by
  have hdm := Nat.div_add_mod f 1000
  have hq : ((f : ℚ) / 1000) = ((f / 1000 : Nat) : ℚ) + ((f % 1000 : Nat) : ℚ) / 1000 := by
    have : (f : ℚ) = 1000 * ((f / 1000 : Nat) : ℚ) + ((f % 1000 : Nat) : ℚ) := by
      exact_mod_cast hdm.symm
    rw [this]; ring
  have hr : f % 1000 < 1000 := Nat.mod_lt _ (by norm_num)
  have hkq : ((f / 1000 : Nat) : ℚ) ≤ 65535 := by exact_mod_cast Nat.le_of_lt_succ hf
  have hk0 : (0 : ℚ) ≤ ((f / 1000 : Nat) : ℚ) := Nat.cast_nonneg _
  have hfl : ⌊fl ((f : ℚ) / 1000)⌋ = ((f / 1000 : Nat) : Int) := by
    rw [Int.floor_eq_iff]
    by_cases h0 : f % 1000 = 0
    · have : (f : ℚ) / 1000 = ((f / 1000 : Nat) : ℚ) := by rw [hq, h0]; simp
      rw [this, hint _ (by omega)]
      simp only [Int.cast_natCast]
      constructor
      · exact le_refl _
      · linarith
    · have hr1 : (1 : ℚ) ≤ ((f % 1000 : Nat) : ℚ) := by
        exact_mod_cast Nat.one_le_iff_ne_zero.mpr h0
      have hr2 : ((f % 1000 : Nat) : ℚ) ≤ 999 := by
        exact_mod_cast Nat.le_of_lt_succ hr
      have hx1 : (1 : ℚ) / 1000 ≤ (f : ℚ) / 1000 := by rw [hq]; linarith
      have hx2 : (f : ℚ) / 1000 < 65536 := by rw [hq]; linarith
      have he := abs_le.mp (herr _ hx1)
      have hsmall : (f : ℚ) / 1000 / 2 ^ 53 < 1 / 2000 := by
        rw [div_lt_iff₀ (by positivity)]
        norm_num
        linarith
      simp only [Int.cast_natCast]
      constructor
      · linarith [he.1]
      · linarith [he.2]
  rw [hfl]
  exact Int.toNat_ofNat _

/-- C28.  The function `dirtyjtag_set_frequency` encodes Hz as a 16-bit big-endian kHz code:
for every requested frequency `f` in Hz with `f / 1000 < 65536` the command sent is
`[CMD_FREQ, hi, lo]`, followed by the 0x00 that `dirtyjtag_send` appends, with
`hi * 256 + lo = floor (f / 1000)`, so the programmed rate `(hi * 256 + lo) * 1000` never
exceeds `f`.  The `double` rounding `fl` is any function that keeps the integers below `2^53`
and has a relative error of at most `2^-53` from `1/1000` on. -/
theorem dirtyjtag_set_frequency_kHz (fl : ℚ → ℚ)
    (hint : ∀ k : Nat, k < 2 ^ 53 → fl (k : ℚ) = (k : ℚ))
    (herr : ∀ x : ℚ, 1 / 1000 ≤ x → |fl x - x| ≤ x / 2 ^ 53)
    (dev : DirtyDev) (c : DirtyCable) (f : Nat) (hf : f / 1000 < 65536) :
    ∃ hi lo, dirty_written c (dirtyjtag_set_frequency fl dev c f) =
        [[CMD_FREQ, hi, lo, 0x00]] ∧
      hi < 256 ∧ lo < 256 ∧ hi * 256 + lo = f / 1000 ∧ (hi * 256 + lo) * 1000 ≤ f := by
  have hq := dirtyjtag_double_quotient fl hint herr f hf
  obtain ⟨h1, h2, h3⟩ := dirtyjtag_kHz_bytes (f / 1000) hf
  refine ⟨((f / 1000 % 4294967296) >>> 8) % 256 &&& 0xFF,
    (f / 1000 % 4294967296) % 256 &&& 0xFF, ?_, h2, h3, h1, ?_⟩
  · unfold dirty_written dirtyjtag_set_frequency dirtyjtag_send
    simp only [hq, List.drop_left]
    rfl
  · rw [h1]
    exact Nat.div_mul_le_self f 1000

/-- Witness for C28: 1234567 Hz with the exact quotient gives the code 1234 = 4 * 256 + 210. -/
theorem dirtyjtag_set_frequency_kHz_witness :
    ∃ hi lo, dirty_written dirty_idle (dirtyjtag_set_frequency id dirty_all_ok dirty_idle 1234567) =
        [[CMD_FREQ, hi, lo, 0x00]] ∧
      hi < 256 ∧ lo < 256 ∧ hi * 256 + lo = 1234567 / 1000 ∧
      (hi * 256 + lo) * 1000 ≤ 1234567 :=
  dirtyjtag_set_frequency_kHz id (fun _ _ => rfl)
    (fun x hx => by
      have h0 : (0 : ℚ) ≤ x := le_trans (by norm_num) hx
      simp only [id, sub_self, abs_zero]
      positivity)
    dirty_all_ok dirty_idle 1234567 (by decide)

/-- The access trace of `dirtyjtag_transfer` stays in bounds from any point of the loop on. -/
theorem dirtyjtag_transfer_accesses_bounds (dev : DirtyDev) (has_out : Bool) (total : Nat) :
    ∀ (k len sent_bits reads : Nat), sent_bits + len = total →
      ∀ a ∈ dirtyjtag_transfer_accesses dev has_out k len sent_bits reads,
        a.in_bounds total := by
  intro k
  induction k with
  | zero =>
    intro len sent_bits reads _ a ha
    simp [dirtyjtag_transfer_accesses] at ha
  | succ k ih =>
    intro len sent_bits reads hsum a ha
    have hb1 : dirtyjtag_min 240 len % 256 ≤ 240 := by
      unfold dirtyjtag_min; split_ifs <;> omega
    have hb2 : dirtyjtag_min 240 len % 256 ≤ len := by
      unfold dirtyjtag_min; split_ifs <;> omega
    have hpack : ∀ a ∈ (List.range (dirtyjtag_min 240 len % 256)).flatMap (fun i =>
        [DirtyAccess.packet (2 + i / 8), DirtyAccess.inp (sent_bits + i)]),
        a.in_bounds total := by
      intro a ha
      simp only [List.mem_flatMap, List.mem_range, List.mem_cons, List.mem_singleton,
        List.not_mem_nil, or_false] at ha
      obtain ⟨i, hi, rfl | rfl⟩ := ha
      · exact ⟨by omega, by omega⟩
      · show sent_bits + i < total
        omega
    have hunpack : ∀ a ∈ (List.range (dirtyjtag_min 240 len % 256)).flatMap (fun i =>
        [DirtyAccess.response (i / 8), DirtyAccess.out (sent_bits + i)]),
        a.in_bounds total := by
      intro a ha
      simp only [List.mem_flatMap, List.mem_range, List.mem_cons, List.mem_singleton,
        List.not_mem_nil, or_false] at ha
      obtain ⟨i, hi, rfl | rfl⟩ := ha
      · show i / 8 ≤ 29
        omega
      · show sent_bits + i < total
        omega
    simp only [dirtyjtag_transfer_accesses] at ha
    split_ifs at ha with hr ho
    · exact hpack a ha
    · simp only [List.mem_append] at ha
      rcases ha with (ha | ha) | ha
      · exact hpack a ha
      · exact hunpack a ha
      · exact ih _ _ _ (by omega) a ha
    · simp only [List.append_nil, List.mem_append] at ha
      rcases ha with ha | ha
      · exact hpack a ha
      · exact ih _ _ _ (by omega) a ha

/-- C30.  The buffer indices of `dirtyjtag_transfer` stay in bounds: for every `len >= 0`,
every device and every packet of the transfer, every index `2 + i/8` written in the 32-byte
packet satisfies `2 <= 2 + i/8 <= 31`, every index `i/8` read from the 32-byte response
satisfies `i/8 <= 29`, and every index `sent_bits + i` used on `in` and `out` is below `len`,
the original length. -/
theorem dirtyjtag_transfer_indices_in_bounds (dev : DirtyDev) (has_out : Bool)
    (len reads : Nat) :
    ∀ a ∈ dirtyjtag_transfer_accesses dev has_out (((len + 7) / 8 + 29) / 30) len 0 reads,
      a.in_bounds len :=
  dirtyjtag_transfer_accesses_bounds dev has_out len _ len 0 reads (by omega)

/-- Witness for C30: the last write to `out` in a transfer of three bits. -/
theorem dirtyjtag_transfer_indices_in_bounds_witness : (DirtyAccess.out 2).in_bounds 3 :=
  dirtyjtag_transfer_indices_in_bounds dirty_all_ok true 3 0 (DirtyAccess.out 2) (by decide)

/-- The access trace of a transfer of three bits with an `out` buffer. -/
theorem dirtyjtag_transfer_accesses_three :
    dirtyjtag_transfer_accesses dirty_all_ok true (((3 + 7) / 8 + 29) / 30) 3 0 0 =
      [DirtyAccess.packet 2, DirtyAccess.inp 0, DirtyAccess.packet 2, DirtyAccess.inp 1,
       DirtyAccess.packet 2, DirtyAccess.inp 2, DirtyAccess.response 0, DirtyAccess.out 0,
       DirtyAccess.response 0, DirtyAccess.out 1, DirtyAccess.response 0,
       DirtyAccess.out 2] := by
  decide

/-- C24.  Function `urj_pyr_shift_dr` without an instruction fails: for every register object
whose chain passes the cable precheck, whose data register is non-null and whose part index
selects an existing part, if no override instruction name is passed and the remembered
instruction `inst` is null, the call returns NULL with the error message
"no instruction for data register" and makes no library call, so it does not invoke
`urj_tap_chain_shift_data_registers`. -/
theorem urj_pyr_shift_dr_no_instruction (lib : UrjLib) (self : urj_pyregister_t)
    (urc : urj_chain_t) (dr : urj_data_register_t) (part : Nat)
    (hpre : lib.urj_pyc_precheck urc UPRC_CBL = true)
    (hdr : self.urreg = some dr)
    (hpart : lib.urj_tap_chain_active_part { urc with active_part := self.part } = some part)
    (hinst : self.inst = none) :
    (urj_pyr_shift_dr lib self urc (some none)).ret =
        PyReturn.NULL (some "no instruction for data register") ∧
      (urj_pyr_shift_dr lib self urc (some none)).calls = [] ∧
      (∀ capture_output, UrjCall.urj_tap_chain_shift_data_registers capture_output ∉
        (urj_pyr_shift_dr lib self urc (some none)).calls) := by
  have h : urj_pyr_shift_dr lib self urc (some none) =
      ⟨PyReturn.NULL (some "no instruction for data register"),
        { urc with active_part := self.part }, self, []⟩ := by
    unfold urj_pyr_shift_dr
    simp only [hpre, hdr, hpart, hinst, not_true_eq_false, ↓reduceIte, reduceCtorEq]
  rw [h]
  exact ⟨rfl, rfl, fun _ hc => by cases hc⟩

/-- Witness for C24: a register object on the only part of a chain, no remembered
instruction. -/
theorem urj_pyr_shift_dr_no_instruction_witness :
    (urj_pyr_shift_dr urj_lib_plain urj_pyregister_no_inst urj_chain_one_part (some none)).ret =
      PyReturn.NULL (some "no instruction for data register") :=
  (urj_pyr_shift_dr_no_instruction urj_lib_plain urj_pyregister_no_inst urj_chain_one_part
    urj_dr_sample 0 rfl rfl (by decide) rfl).1

/-- With an instruction name the same object shifts: the name is set and the data registers
are shifted. -/
theorem urj_pyr_shift_dr_with_name :
    (urj_pyr_shift_dr urj_lib_plain urj_pyregister_no_inst urj_chain_one_part
        (some (some "IDCODE"))).calls =
      [UrjCall.urj_part_set_instruction 0 "IDCODE",
       UrjCall.urj_tap_chain_shift_data_registers 1] := by
  decide

/-- The accessor call of `urj_pyr_get_dr` on a valid register, by the variables `msb` and
`lsb` that `PyArg_ParseTuple` leaves behind. -/
theorem urj_pyr_get_dr_calls (lib : UrjLib) (self : urj_pyregister_t) (urc : urj_chain_t)
    (d : urj_data_register_t) (inp string : Int) (a : RangeArgs)
    (hpre : lib.urj_pyc_precheck urc UPRC_CBL = true) (hdr : self.urreg = some d) :
    (urj_pyr_get_dr lib self urc inp string (some a)).calls =
      if (a.store (-1) (-1)).1 = -1 then
        [UrjCall.urj_tap_register_get_string (if inp ≠ 0 then d.inp else d.out)]
      else
        [UrjCall.urj_tap_register_get_string_bit_range (if inp ≠ 0 then d.inp else d.out)
          (a.store (-1) (-1)).1
          (if (a.store (-1) (-1)).2 = -1 then (a.store (-1) (-1)).1
            else (a.store (-1) (-1)).2)] := by
  unfold urj_pyr_get_dr
  simp only [hpre, hdr, not_true_eq_false, ↓reduceIte]
  split <;> split_ifs <;> rfl

/-- The accessor call of `urj_pyr_set_dr` on a valid register, by the variables `msb` and
`lsb` that `PyArg_ParseTuple` leaves behind. -/
theorem urj_pyr_set_dr_calls (lib : UrjLib) (self : urj_pyregister_t) (urc : urj_chain_t)
    (d : urj_data_register_t) (inp : Int) (value : SetValue) (a : RangeArgs)
    (hdr : self.urreg = some d) :
    (urj_pyr_set_dr lib self urc inp (some (value, a))).calls =
      if (a.store (-1) (-1)).1 = -1 then
        [match value with
          | SetValue.newstr s =>
            UrjCall.urj_tap_register_set_string (if inp ≠ 0 then d.inp else d.out) s
          | SetValue.newval v =>
            UrjCall.urj_tap_register_set_value (if inp ≠ 0 then d.inp else d.out) v]
      else
        [match value with
          | SetValue.newstr s =>
            UrjCall.urj_tap_register_set_string_bit_range (if inp ≠ 0 then d.inp else d.out) s
              (a.store (-1) (-1)).1
              (if (a.store (-1) (-1)).2 = -1 then (a.store (-1) (-1)).1
                else (a.store (-1) (-1)).2)
          | SetValue.newval v =>
            UrjCall.urj_tap_register_set_value_bit_range (if inp ≠ 0 then d.inp else d.out) v
              (a.store (-1) (-1)).1
              (if (a.store (-1) (-1)).2 = -1 then (a.store (-1) (-1)).1
                else (a.store (-1) (-1)).2)] := by
  unfold urj_pyr_set_dr
  simp only [hdr]
  cases value <;> split_ifs <;> rfl

/-- C25, amended.  Register bit-range defaults: for `urj_pyr_get_dr` and `urj_pyr_set_dr` on
a valid register, when no range argument is given, or `msb` is given as -1, the full-width
accessor is used (`urj_tap_register_get_string` / `set_string` / `set_value`); when only `msb`
is given and is not -1 the bit-range accessor is called with `(msb, msb)`; when both are
given and neither is -1 it is called with `(msb, lsb)`; when both are given, `msb` is not -1
and `lsb` is -1, it is called with `(msb, msb)`; the buffer accessed is `dr->in` when `in` is
selected and `dr->out` otherwise. -/
theorem urj_pyr_dr_range_defaults (lib : UrjLib) (self : urj_pyregister_t) (urc : urj_chain_t)
    (d : urj_data_register_t) (inp string : Int)
    (hpre : lib.urj_pyc_precheck urc UPRC_CBL = true) (hdr : self.urreg = some d) :
    ((urj_pyr_get_dr lib self urc inp string (some RangeArgs.absent)).calls =
        [UrjCall.urj_tap_register_get_string (if inp ≠ 0 then d.inp else d.out)] ∧
      (∀ lsb, (urj_pyr_get_dr lib self urc inp string (some (RangeArgs.msb_lsb (-1) lsb))).calls =
        [UrjCall.urj_tap_register_get_string (if inp ≠ 0 then d.inp else d.out)]) ∧
      (urj_pyr_get_dr lib self urc inp string (some (RangeArgs.only_msb (-1)))).calls =
        [UrjCall.urj_tap_register_get_string (if inp ≠ 0 then d.inp else d.out)] ∧
      (∀ msb, msb ≠ -1 →
        (urj_pyr_get_dr lib self urc inp string (some (RangeArgs.only_msb msb))).calls =
          [UrjCall.urj_tap_register_get_string_bit_range (if inp ≠ 0 then d.inp else d.out)
            msb msb]) ∧
      (∀ msb lsb, msb ≠ -1 → lsb ≠ -1 →
        (urj_pyr_get_dr lib self urc inp string (some (RangeArgs.msb_lsb msb lsb))).calls =
          [UrjCall.urj_tap_register_get_string_bit_range (if inp ≠ 0 then d.inp else d.out)
            msb lsb]) ∧
      (∀ msb, msb ≠ -1 →
        (urj_pyr_get_dr lib self urc inp string (some (RangeArgs.msb_lsb msb (-1)))).calls =
          [UrjCall.urj_tap_register_get_string_bit_range (if inp ≠ 0 then d.inp else d.out)
            msb msb])) ∧
    ((∀ s, (urj_pyr_set_dr lib self urc inp (some (SetValue.newstr s, RangeArgs.absent))).calls =
        [UrjCall.urj_tap_register_set_string (if inp ≠ 0 then d.inp else d.out) s]) ∧
      (∀ v, (urj_pyr_set_dr lib self urc inp (some (SetValue.newval v, RangeArgs.absent))).calls =
        [UrjCall.urj_tap_register_set_value (if inp ≠ 0 then d.inp else d.out) v]) ∧
      (∀ s lsb,
        (urj_pyr_set_dr lib self urc inp
            (some (SetValue.newstr s, RangeArgs.msb_lsb (-1) lsb))).calls =
          [UrjCall.urj_tap_register_set_string (if inp ≠ 0 then d.inp else d.out) s]) ∧
      (∀ v lsb,
        (urj_pyr_set_dr lib self urc inp
            (some (SetValue.newval v, RangeArgs.msb_lsb (-1) lsb))).calls =
          [UrjCall.urj_tap_register_set_value (if inp ≠ 0 then d.inp else d.out) v]) ∧
      (∀ s msb, msb ≠ -1 →
        (urj_pyr_set_dr lib self urc inp (some (SetValue.newstr s, RangeArgs.only_msb msb))).calls =
          [UrjCall.urj_tap_register_set_string_bit_range (if inp ≠ 0 then d.inp else d.out) s
            msb msb]) ∧
      (∀ v msb, msb ≠ -1 →
        (urj_pyr_set_dr lib self urc inp (some (SetValue.newval v, RangeArgs.only_msb msb))).calls =
          [UrjCall.urj_tap_register_set_value_bit_range (if inp ≠ 0 then d.inp else d.out) v
            msb msb]) ∧
      (∀ s msb lsb, msb ≠ -1 → lsb ≠ -1 →
        (urj_pyr_set_dr lib self urc inp
            (some (SetValue.newstr s, RangeArgs.msb_lsb msb lsb))).calls =
          [UrjCall.urj_tap_register_set_string_bit_range (if inp ≠ 0 then d.inp else d.out) s
            msb lsb]) ∧
      (∀ v msb lsb, msb ≠ -1 → lsb ≠ -1 →
        (urj_pyr_set_dr lib self urc inp
            (some (SetValue.newval v, RangeArgs.msb_lsb msb lsb))).calls =
          [UrjCall.urj_tap_register_set_value_bit_range (if inp ≠ 0 then d.inp else d.out) v
            msb lsb]) ∧
      (∀ s msb, msb ≠ -1 →
        (urj_pyr_set_dr lib self urc inp
            (some (SetValue.newstr s, RangeArgs.msb_lsb msb (-1)))).calls =
          [UrjCall.urj_tap_register_set_string_bit_range (if inp ≠ 0 then d.inp else d.out) s
            msb msb]) ∧
      (∀ v msb, msb ≠ -1 →
        (urj_pyr_set_dr lib self urc inp
            (some (SetValue.newval v, RangeArgs.msb_lsb msb (-1)))).calls =
          [UrjCall.urj_tap_register_set_value_bit_range (if inp ≠ 0 then d.inp else d.out) v
            msb msb])) := by
  refine ⟨⟨?_, ?_, ?_, ?_, ?_, ?_⟩, ⟨?_, ?_, ?_, ?_, ?_, ?_, ?_, ?_, ?_, ?_⟩⟩
  · rw [urj_pyr_get_dr_calls lib self urc d inp string _ hpre hdr]; rfl
  · intro lsb
    rw [urj_pyr_get_dr_calls lib self urc d inp string _ hpre hdr]; rfl
  · rw [urj_pyr_get_dr_calls lib self urc d inp string _ hpre hdr]; rfl
  · intro msb hm
    rw [urj_pyr_get_dr_calls lib self urc d inp string _ hpre hdr]
    simp [RangeArgs.store, hm]
  · intro msb lsb hm hl
    rw [urj_pyr_get_dr_calls lib self urc d inp string _ hpre hdr]
    simp [RangeArgs.store, hm, hl]
  · intro msb hm
    rw [urj_pyr_get_dr_calls lib self urc d inp string _ hpre hdr]
    simp [RangeArgs.store, hm]
  · intro s
    rw [urj_pyr_set_dr_calls lib self urc d inp _ _ hdr]; rfl
  · intro v
    rw [urj_pyr_set_dr_calls lib self urc d inp _ _ hdr]; rfl
  · intro s lsb
    rw [urj_pyr_set_dr_calls lib self urc d inp _ _ hdr]; rfl
  · intro v lsb
    rw [urj_pyr_set_dr_calls lib self urc d inp _ _ hdr]; rfl
  · intro s msb hm
    rw [urj_pyr_set_dr_calls lib self urc d inp _ _ hdr]
    simp [RangeArgs.store, hm]
  · intro v msb hm
    rw [urj_pyr_set_dr_calls lib self urc d inp _ _ hdr]
    simp [RangeArgs.store, hm]
  · intro s msb lsb hm hl
    rw [urj_pyr_set_dr_calls lib self urc d inp _ _ hdr]
    simp [RangeArgs.store, hm, hl]
  · intro v msb lsb hm hl
    rw [urj_pyr_set_dr_calls lib self urc d inp _ _ hdr]
    simp [RangeArgs.store, hm, hl]
  · intro s msb hm
    rw [urj_pyr_set_dr_calls lib self urc d inp _ _ hdr]
    simp [RangeArgs.store, hm]
  · intro v msb hm
    rw [urj_pyr_set_dr_calls lib self urc d inp _ _ hdr]
    simp [RangeArgs.store, hm]

/-- Witness for C25, amended: `get_dr_in_string (3)` reads bit 3 of `dr->in`. -/
theorem urj_pyr_dr_range_defaults_witness :
    (urj_pyr_get_dr urj_lib_plain urj_pyregister_no_inst urj_chain_one_part 1 1
        (some (RangeArgs.only_msb 3))).calls =
      [UrjCall.urj_tap_register_get_string_bit_range urj_dr_sample.inp 3 3] :=
  (urj_pyr_dr_range_defaults urj_lib_plain urj_pyregister_no_inst urj_chain_one_part
    urj_dr_sample 1 1 rfl rfl).1.2.2.2.1 3 (by decide)

/-- C25 as stated fails: with only `msb = -1` given, `urj_pyr_get_dr` calls the full-width
accessor, not the bit-range accessor with `(-1, -1)`; with `msb = 5` and `lsb = -1` given,
`urj_pyr_set_dr` calls the bit-range accessor with `(5, 5)`, not with `(5, -1)`. -/
theorem urj_pyr_dr_range_minus_one :
    (urj_pyr_get_dr urj_lib_plain urj_pyregister_no_inst urj_chain_one_part 1 1
        (some (RangeArgs.only_msb (-1)))).calls =
      [UrjCall.urj_tap_register_get_string urj_dr_sample.inp] ∧
    (urj_pyr_get_dr urj_lib_plain urj_pyregister_no_inst urj_chain_one_part 1 1
        (some (RangeArgs.only_msb (-1)))).calls ≠
      [UrjCall.urj_tap_register_get_string_bit_range urj_dr_sample.inp (-1) (-1)] ∧
    (urj_pyr_set_dr urj_lib_plain urj_pyregister_no_inst urj_chain_one_part 1
        (some (SetValue.newval 1, RangeArgs.msb_lsb 5 (-1)))).calls =
      [UrjCall.urj_tap_register_set_value_bit_range urj_dr_sample.inp 1 5 5] ∧
    (urj_pyr_set_dr urj_lib_plain urj_pyregister_no_inst urj_chain_one_part 1
        (some (SetValue.newval 1, RangeArgs.msb_lsb 5 (-1)))).calls ≠
      [UrjCall.urj_tap_register_set_value_bit_range urj_dr_sample.inp 1 5 (-1)] := by
  decide

theorem snprintf_complete (a b : String) :
    snprintf (a.length + b.length + 2) a b = a ++ "/" ++ b := by
  unfold snprintf
  have h : (a ++ "/" ++ b).data.length ≤ a.length + b.length + 2 - 1 := by
    simp only [String.data_append, List.length_append, String.length, List.length_singleton,
      List.length_cons, List.length_nil]
    omega
  rw [List.take_of_length_le h]

theorem cmd_include_loop_parsed (jtag_parse_file : Nat → String → Int) (path : String) :
    ∀ (k i : Nat) (go : Int) (parsed : List String),
      ∃ m, m ≤ k ∧ (0 < k → 0 < m) ∧
        (cmd_include_loop jtag_parse_file path k i go parsed).2 =
          parsed ++ List.replicate m path := by
  intro k
  induction k with
  | zero =>
    intro i go parsed
    exact ⟨0, le_refl _, fun h => absurd h (lt_irrefl _), by simp [cmd_include_loop]⟩
  | succ k ih =>
    intro i go parsed
    simp only [cmd_include_loop]
    split_ifs with h
    · exact ⟨1, by omega, fun _ => Nat.one_pos, rfl⟩
    · obtain ⟨m, hm, _, he⟩ := ih (i + 1) (jtag_parse_file i path) (parsed ++ [path])
      refine ⟨m + 1, by omega, fun _ => Nat.succ_pos _, ?_⟩
      rw [he, List.append_assoc, List.replicate_succ]
      rfl

/-- C29.  Path resolution of `include` and `script`: for every file-name argument `p`
(`params[1]`), every call of `jtag_parse_file` made by `cmd_include_run` is on the file named
exactly `p` when `p`, after removal of all its leading '.' characters, begins with '/', and
otherwise on the file named `JTAG_DATA_DIR` followed by "/" followed by `p`, complete and
untruncated; at least one such call is made when the allocation succeeds and the repeat count
is absent, not converted, or at least 1.  With fewer than two parameters the function returns
-1 without parsing any file. -/
theorem cmd_include_run_path (JTAG_DATA_DIR : String) (cmd_params : List String → Int)
    (alloc_ok : Bool) (sscanf_d : String → Option Int)
    (jtag_parse_file : Nat → String → Int) (params : List String) :
    (cmd_params params < 2 →
      (cmd_include_run JTAG_DATA_DIR cmd_params alloc_ok sscanf_d jtag_parse_file params).ret
          = -1 ∧
        (cmd_include_run JTAG_DATA_DIR cmd_params alloc_ok sscanf_d jtag_parse_file
          params).parsed = []) ∧
    (2 ≤ cmd_params params → ∀ p, params[1]? = some p →
      ∃ m,
        (cmd_include_run JTAG_DATA_DIR cmd_params alloc_ok sscanf_d jtag_parse_file
          params).parsed =
          List.replicate m
            (if (p.data.dropWhile fun ch => ch == '.').head? = some '/' then p
              else JTAG_DATA_DIR ++ "/" ++ p) ∧
        (alloc_ok = true →
          (∀ v, cmd_params params > 2 → sscanf_d (params.getD 2 "") = some v → 1 ≤ v) →
          1 ≤ m)) := by
  constructor
  · intro h
    unfold cmd_include_run
    simp only [h, ↓reduceIte, and_self]
  · intro h p hp
    have hnot : ¬ cmd_params params < 2 := not_lt.mpr h
    have hget : params.getD 1 "" = p := by
      rw [List.getD_eq_getElem?_getD, hp]; rfl
    unfold cmd_include_run
    simp only [hnot, ↓reduceIte, hget, snprintf_complete]
    cases alloc_ok with
    | false =>
      refine ⟨0, ?_, fun hf => absurd hf (by decide)⟩
      simp only [Bool.false_eq_true, ↓reduceIte, ite_self]
      rfl
    | true =>
      simp only [↓reduceIte]
      have key : ∀ path : String, ∃ m,
          (cmd_include_loop jtag_parse_file path
            (if cmd_params params > 2 then
              match sscanf_d (params.getD 2 "") with
              | some v => v
              | none => 1
            else 1 : Int).toNat 0 0 []).2 = List.replicate m path ∧
          ((∀ v, cmd_params params > 2 → sscanf_d (params.getD 2 "") = some v → 1 ≤ v) →
            1 ≤ m) := by
        intro path
        obtain ⟨m, _, hpos, he⟩ := cmd_include_loop_parsed jtag_parse_file path
          (if cmd_params params > 2 then
              match sscanf_d (params.getD 2 "") with
              | some v => v
              | none => 1
            else 1 : Int).toNat 0 0 []
        refine ⟨m, by rw [he]; rfl, fun hv => hpos ?_⟩
        split_ifs with h2
        · cases hs : sscanf_d (params.getD 2 "") with
          | none => decide
          | some v =>
            have := hv v h2 hs
            simp only [Int.lt_toNat, Nat.cast_zero]
            omega
        · decide
      by_cases hslash : (p.data.dropWhile fun ch => ch == '.').head? = some '/'
      · simp only [hslash, ↓reduceIte]
        obtain ⟨m, hm, hk⟩ := key p
        exact ⟨m, hm, fun _ => hk⟩
      · simp only [hslash, ↓reduceIte]
        obtain ⟨m, hm, hk⟩ := key (JTAG_DATA_DIR ++ "/" ++ p)
        exact ⟨m, hm, fun _ => hk⟩

/-- Witness for C29: `include atmel/at91` with the data directory `/usr/share/jtag`. -/
theorem cmd_include_run_path_witness :
    ∃ m, (cmd_include_run "/usr/share/jtag" cmd_params_count true (fun _ => none)
        (fun _ _ => 0) ["include", "atmel/at91"]).parsed =
          List.replicate m "/usr/share/jtag/atmel/at91" ∧ 1 ≤ m := by
  obtain ⟨m, hm, hk⟩ := (cmd_include_run_path "/usr/share/jtag" cmd_params_count true
    (fun _ => none) (fun _ _ => 0) ["include", "atmel/at91"]).2 (by decide) "atmel/at91" rfl
  exact ⟨m, hm, hk rfl (fun v h => absurd h (by decide))⟩

/-- The files parsed for `/x`, `./x`, `../x` and `x` with the data directory `/d`, once each,
and for `script x 3`, three times. -/
theorem cmd_include_run_examples :
    (cmd_include_run "/d" cmd_params_count true (fun _ => none) (fun _ _ => 0)
        ["include", "/x"]).parsed = ["/x"] ∧
      (cmd_include_run "/d" cmd_params_count true (fun _ => none) (fun _ _ => 0)
        ["include", "./x"]).parsed = ["./x"] ∧
      (cmd_include_run "/d" cmd_params_count true (fun _ => none) (fun _ _ => 0)
        ["include", "../x"]).parsed = ["../x"] ∧
      (cmd_include_run "/d" cmd_params_count true (fun _ => none) (fun _ _ => 0)
        ["include", "x"]).parsed = ["/d/x"] ∧
      (cmd_include_run "/d" cmd_params_count true (fun _ => some 3) (fun _ _ => 0)
        ["script", "x", "3"]).parsed = ["/d/x", "/d/x", "/d/x"] ∧
      (cmd_include_run "/d" cmd_params_count true (fun _ => none) (fun _ _ => 0)
        ["include"]) = ⟨-1, []⟩ := by
  decide

/-- The three fields of the register object are not written by `urj_pyr_shift_dr`. -/
theorem urj_pyr_shift_dr_self (lib : UrjLib) (self : urj_pyregister_t) (urc : urj_chain_t)
    (args : Option (Option String)) :
    (urj_pyr_shift_dr lib self urc args).self = self := by
  unfold urj_pyr_shift_dr
  simp only
  repeat' split
  all_goals rfl

/-- The three fields of the register object are not written by `urj_pyr_shift_ir`. -/
theorem urj_pyr_shift_ir_self (lib : UrjLib) (self : urj_pyregister_t) (urc : urj_chain_t)
    (args : Option (Option String)) :
    (urj_pyr_shift_ir lib self urc args).self = self := by
  unfold urj_pyr_shift_ir
  simp only
  repeat' split
  all_goals rfl

/-- The chain that `urj_pyr_shift_dr` leaves behind: the chain as it was, or with
`active_part` set, or what the library shift makes of the chain with `active_part` set and
the instruction of the selected part set. -/
theorem urj_pyr_shift_dr_urc (lib : UrjLib) (self : urj_pyregister_t) (urc : urj_chain_t)
    (args : Option (Option String)) :
    ((urj_pyr_shift_dr lib self urc args).calls = [] ∧
      ((urj_pyr_shift_dr lib self urc args).urc = urc ∨
        (urj_pyr_shift_dr lib self urc args).urc = { urc with active_part := self.part })) ∨
    ∃ part f,
      lib.urj_tap_chain_active_part { urc with active_part := self.part } = some part ∧
      ((∃ name, args = some (some name) ∧ f = fun p => lib.urj_part_set_instruction p name) ∨
        (∃ inst, args = some none ∧ self.inst = some inst ∧
          f = fun p => { p with active_instruction := some inst })) ∧
      (urj_pyr_shift_dr lib self urc args).urc =
        (lib.urj_tap_chain_shift_data_registers
          (urj_chain_t.update_part { urc with active_part := self.part } part f) 1).2 := by
  cases args with
  | none => exact Or.inl ⟨rfl, Or.inl rfl⟩
  | some instname =>
    by_cases hpre : lib.urj_pyc_precheck urc UPRC_CBL = true
    · by_cases hreg : self.urreg = none
      · refine Or.inl ?_
        simp only [urj_pyr_shift_dr, hpre, hreg, not_true_eq_false, ↓reduceIte, true_and, true_or]
      · cases hp : lib.urj_tap_chain_active_part { urc with active_part := self.part } with
        | none =>
          refine Or.inl ?_
          simp only [urj_pyr_shift_dr, hpre, hreg, hp, not_true_eq_false, ↓reduceIte, true_and,
            or_true]
        | some part =>
          cases instname with
          | some name =>
            refine Or.inr ⟨part, _, rfl, Or.inl ⟨name, rfl, rfl⟩, ?_⟩
            simp only [urj_pyr_shift_dr, hpre, hreg, hp, not_true_eq_false, ↓reduceIte]
          | none =>
            cases hi : self.inst with
            | none =>
              refine Or.inl ?_
              simp only [urj_pyr_shift_dr, hpre, hreg, hp, hi, not_true_eq_false, ↓reduceIte,
                true_and, or_true]
            | some inst =>
              refine Or.inr ⟨part, _, rfl, Or.inr ⟨inst, rfl, rfl, rfl⟩, ?_⟩
              simp only [urj_pyr_shift_dr, hpre, hreg, hp, hi, not_true_eq_false, ↓reduceIte]
    · have hf : lib.urj_pyc_precheck urc UPRC_CBL = false := by simpa using hpre
      refine Or.inl ?_
      simp only [urj_pyr_shift_dr, hf, Bool.false_eq_true, not_false_eq_true, ↓reduceIte,
        true_and, true_or]

/-- The chain that `urj_pyr_shift_ir` leaves behind: the chain as it was, or with
`active_part` set, or what the library shift makes of the chain with `active_part` set and
the instruction of the selected part set. -/
theorem urj_pyr_shift_ir_urc (lib : UrjLib) (self : urj_pyregister_t) (urc : urj_chain_t)
    (args : Option (Option String)) :
    ((urj_pyr_shift_ir lib self urc args).calls = [] ∧
      ((urj_pyr_shift_ir lib self urc args).urc = urc ∨
        (urj_pyr_shift_ir lib self urc args).urc = { urc with active_part := self.part })) ∨
    ∃ part f,
      lib.urj_tap_chain_active_part { urc with active_part := self.part } = some part ∧
      ((∃ name, args = some (some name) ∧ f = fun p => lib.urj_part_set_instruction p name) ∨
        (∃ inst, args = some none ∧ self.inst = some inst ∧
          f = fun p => { p with active_instruction := some inst })) ∧
      (urj_pyr_shift_ir lib self urc args).urc =
        (lib.urj_tap_chain_shift_instructions
          (urj_chain_t.update_part { urc with active_part := self.part } part f)).2 := by
  cases args with
  | none => exact Or.inl ⟨rfl, Or.inl rfl⟩
  | some instname =>
    by_cases hpre : lib.urj_pyc_precheck urc UPRC_CBL = true
    · cases hp : lib.urj_tap_chain_active_part { urc with active_part := self.part } with
      | none =>
        refine Or.inl ?_
        simp only [urj_pyr_shift_ir, hpre, hp, not_true_eq_false, ↓reduceIte, true_and,
          or_true]
      | some part =>
        cases instname with
        | some name =>
          refine Or.inr ⟨part, _, rfl, Or.inl ⟨name, rfl, rfl⟩, ?_⟩
          simp only [urj_pyr_shift_ir, hpre, hp, not_true_eq_false, ↓reduceIte]
        | none =>
          cases hi : self.inst with
          | none =>
            refine Or.inl ?_
            simp only [urj_pyr_shift_ir, hpre, hp, hi, not_true_eq_false, ↓reduceIte,
              true_and, or_true]
          | some inst =>
            refine Or.inr ⟨part, _, rfl, Or.inr ⟨inst, rfl, rfl, rfl⟩, ?_⟩
            simp only [urj_pyr_shift_ir, hpre, hp, hi, not_true_eq_false, ↓reduceIte]
    · have hf : lib.urj_pyc_precheck urc UPRC_CBL = false := by simpa using hpre
      refine Or.inl ?_
      simp only [urj_pyr_shift_ir, hf, Bool.false_eq_true, not_false_eq_true, ↓reduceIte,
        true_and, true_or]

/-- Setting `active_part` is a selection. -/
theorem urj_chain_selects_active_part (urc : urj_chain_t) (partn : Int) :
    urc.selects partn { urc with active_part := partn } := by
  unfold urj_chain_t.selects
  exact Or.inr ⟨rfl, rfl, 0, fun _ _ => rfl⟩

/-- Setting `active_part` and rewriting one part is a selection. -/
theorem urj_chain_selects_update_part (urc : urj_chain_t) (partn : Int) (part : Nat)
    (f : urj_part_t → urj_part_t) :
    urc.selects partn (urj_chain_t.update_part { urc with active_part := partn } part f) := by
  unfold urj_chain_t.selects
  refine Or.inr ⟨rfl, ?_, part, ?_⟩
  · simp [urj_chain_t.update_part]
  · intro i hi
    have hne : ¬ part = i := fun h => hi h.symm
    simp only [urj_chain_t.update_part, List.getElem?_modify, hne, ↓reduceIte]
    cases urc.parts[i]? <;> rfl

/-- Writing nothing is a selection. -/
theorem urj_chain_selects_self (urc : urj_chain_t) (partn : Int) : urc.selects partn urc := by
  unfold urj_chain_t.selects
  exact Or.inl rfl

/-- C31.  An override instruction is one-shot for the register object: for every register
object and every call of `urj_pyr_shift_dr` or `urj_pyr_shift_ir`, with or without an override
instruction name and whether the call succeeds or fails, the remembered instruction `inst`,
the data register `urreg` and the part index of the object are the same after the call as
before.  On the chain the function itself writes only `active_part` and the active instruction
of the selected part: the chain it leaves behind is such a chain `c` when no library call is
made, and otherwise what the library shift makes of such a chain `c`. -/
theorem urj_pyr_shift_one_shot (lib : UrjLib) (self : urj_pyregister_t) (urc : urj_chain_t)
    (args : Option (Option String)) :
    ((urj_pyr_shift_dr lib self urc args).self.inst = self.inst ∧
      (urj_pyr_shift_dr lib self urc args).self.urreg = self.urreg ∧
      (urj_pyr_shift_dr lib self urc args).self.part = self.part ∧
      ∃ c, urc.selects self.part c ∧
        (((urj_pyr_shift_dr lib self urc args).calls = [] ∧
            (urj_pyr_shift_dr lib self urc args).urc = c) ∨
          (urj_pyr_shift_dr lib self urc args).urc =
            (lib.urj_tap_chain_shift_data_registers c 1).2)) ∧
    ((urj_pyr_shift_ir lib self urc args).self.inst = self.inst ∧
      (urj_pyr_shift_ir lib self urc args).self.urreg = self.urreg ∧
      (urj_pyr_shift_ir lib self urc args).self.part = self.part ∧
      ∃ c, urc.selects self.part c ∧
        (((urj_pyr_shift_ir lib self urc args).calls = [] ∧
            (urj_pyr_shift_ir lib self urc args).urc = c) ∨
          (urj_pyr_shift_ir lib self urc args).urc =
            (lib.urj_tap_chain_shift_instructions c).2)) := by
  refine ⟨⟨?_, ?_, ?_, ?_⟩, ⟨?_, ?_, ?_, ?_⟩⟩
  · rw [urj_pyr_shift_dr_self]
  · rw [urj_pyr_shift_dr_self]
  · rw [urj_pyr_shift_dr_self]
  · rcases urj_pyr_shift_dr_urc lib self urc args with ⟨hc, h | h⟩ | ⟨part, f, _, _, h⟩
    · exact ⟨urc, urj_chain_selects_self urc self.part, Or.inl ⟨hc, h⟩⟩
    · exact ⟨_, urj_chain_selects_active_part urc self.part, Or.inl ⟨hc, h⟩⟩
    · exact ⟨_, urj_chain_selects_update_part urc self.part part f, Or.inr h⟩
  · rw [urj_pyr_shift_ir_self]
  · rw [urj_pyr_shift_ir_self]
  · rw [urj_pyr_shift_ir_self]
  · rcases urj_pyr_shift_ir_urc lib self urc args with ⟨hc, h | h⟩ | ⟨part, f, _, _, h⟩
    · exact ⟨urc, urj_chain_selects_self urc self.part, Or.inl ⟨hc, h⟩⟩
    · exact ⟨_, urj_chain_selects_active_part urc self.part, Or.inl ⟨hc, h⟩⟩
    · exact ⟨_, urj_chain_selects_update_part urc self.part part f, Or.inr h⟩

/-- An override is not remembered: `shift_dr ("IDCODE")` on an object that remembers BYPASS
leaves the object as it was and makes IDCODE the active instruction of part 1; the next
`shift_dr ()` makes BYPASS the active instruction again.  Part 0 keeps SAMPLE. -/
theorem urj_pyr_shift_dr_override_then_default :
    (urj_pyr_shift_dr urj_lib_plain urj_pyregister_bypass urj_chain_two_parts
        (some (some "IDCODE"))).self = urj_pyregister_bypass ∧
      (urj_pyr_shift_dr urj_lib_plain urj_pyregister_bypass urj_chain_two_parts
        (some (some "IDCODE"))).urc = ⟨1, [⟨some "SAMPLE"⟩, ⟨some "IDCODE"⟩]⟩ ∧
      (urj_pyr_shift_dr urj_lib_plain urj_pyregister_bypass
        (urj_pyr_shift_dr urj_lib_plain urj_pyregister_bypass urj_chain_two_parts
          (some (some "IDCODE"))).urc (some none)).urc =
        ⟨1, [⟨some "SAMPLE"⟩, ⟨some "BYPASS"⟩]⟩ ∧
      (urj_pyr_shift_ir urj_lib_plain urj_pyregister_bypass urj_chain_two_parts
        (some (some "IDCODE"))).self = urj_pyregister_bypass := by
  decide

end Urjtag
